import Mathlib

/-!
Verification of the goldmark-markdown renderer (teekennedy/goldmark-markdown).

This file gives a shallow embedding of the repository's markdown writer
(`writer.go`) and renderer (`renderer.go`, `options.go`), and proves or refutes
the frozen claims about them.

Modelling conventions:
* Go byte slices holding text are modelled as `List Char` (`Bytes`); the
  writer's whitespace trimming is rune-based (`unicode.IsSpace`), so `Char` is
  the faithful unit.
* The underlying `io.Writer` sink is modelled as a function from the index of
  the sink-write call to `Option Nat`: `none` means the call succeeds, `some e`
  means it fails with error code `e` (Go `error` values are opaque; only
  identity matters).
* Goldmark AST nodes are modelled by an inductive tree carrying exactly the
  attributes the renderer reads (kind, children, blank-previous-lines flag,
  source line segments, level, marker, destination, ...).  The source byte
  buffer is folded into the nodes: a segment is represented by its value.
-/

namespace Goldmark

/-- Text bytes, modelled at rune granularity. -/
abbrev Bytes := List Char

/-- The line delimiter (`lineDelim` in writer.go). -/
def lineDelim : Char := '\n'

/-- Go's `unicode.IsSpace`: White_Space property code points. -/
def goIsSpace (c : Char) : Bool :=
  c = ' ' || c = '\t' || c = '\n' || c.toNat = 11 || c.toNat = 12 || c = '\r' ||
  c.toNat = 0x85 || c.toNat = 0xA0 || c.toNat = 0x1680 ||
  (0x2000 ≤ c.toNat && c.toNat ≤ 0x200A) ||
  c.toNat = 0x2028 || c.toNat = 0x2029 || c.toNat = 0x202F ||
  c.toNat = 0x205F || c.toNat = 0x3000

/-- `bytes.TrimRightFunc(s, unicode.IsSpace)`: drop the trailing run of
whitespace runes. -/
def trimRightSpace (s : Bytes) : Bytes :=
  (s.reverse.dropWhile goIsSpace).reverse

/-- `linePrefix` (writer.go): a line prefix together with the (absolute) line
range it applies to; `endLine = -1` means unbounded. -/
structure LinePrefix where
  startLine : Int
  endLine : Int
  bytes : Bytes
deriving Repr, DecidableEq

/-- A sink: the `io.Writer` underlying the markdown writer, modelled by the
result of each successive sink-write call (`none` = success). -/
abbrev Sink := Nat → Option Nat

/-- The always-succeeding sink. -/
def okSink : Sink := fun _ => none

/-- `markdownWriter` (writer.go).  `written` is the data accepted so far by the
underlying sink, `writeCount` the number of sink-write calls made to it. -/
structure MarkdownWriter where
  buf : Bytes
  output : Sink
  writeCount : Nat
  written : Bytes
  prefixes : List LinePrefix
  line : Int
  err : Option Nat

/-- Split off the first line (through the first `'\n'`, inclusive), as Go's
`bytes.Buffer.ReadBytes(lineDelim)` does when a delimiter is present. -/
def takeLine : Bytes → Option (Bytes × Bytes)
  | [] => none
  | c :: cs =>
    if c = '\n' then some ([c], cs)
    else
      match takeLine cs with
      | none => none
      | some (l, r) => some (c :: l, r)

theorem takeLine_some_append {b l r : Bytes} (h : takeLine b = some (l, r)) :
    b = l ++ r ∧ l ≠ [] := by
  induction b generalizing l r with
  | nil => simp [takeLine] at h
  | cons c cs ih =>
    by_cases hc : c = '\n'
    · simp [takeLine, hc] at h
      obtain ⟨h1, h2⟩ := h
      subst h1; subst h2; subst hc
      simp
    · simp [takeLine, hc] at h
      rcases hr : takeLine cs with _ | ⟨l', r'⟩
      · rw [hr] at h; simp at h
      · rw [hr] at h
        simp at h
        obtain ⟨h1, h2⟩ := h
        obtain ⟨hb, _⟩ := ih hr
        subst h1; subst h2
        simp [← hb]

theorem takeLine_some_length {b l r : Bytes} (h : takeLine b = some (l, r)) :
    r.length < b.length := by
  obtain ⟨hb, hl⟩ := takeLine_some_append h
  subst hb
  have : 0 < l.length := List.length_pos.mpr hl
  simp [List.length_append]
  omega

/-- The concatenation of the active prefixes for a given line number, in push
order (the loop over `m.prefixes` in writer.go's `Write`). -/
def pfxConcat (ps : List LinePrefix) (line : Int) : Bytes :=
  ps.foldl
    (fun acc p =>
      if p.startLine ≤ line ∧ (p.endLine = -1 ∨ line ≤ p.endLine) then acc ++ p.bytes
      else acc)
    []

/-- One pass of the loop in writer.go's `Write`, driven by fuel (the fuel is
an upper bound on the number of lines in the buffer; each iteration consumes
at least one buffered byte).  While the buffer contains a newline, extract one
line, compose it with the active prefixes, trim trailing whitespace, terminate
with a newline and send it to the sink.  A sink error is stored and stops the
loop. -/
def flushLoop : Nat → MarkdownWriter → MarkdownWriter
  | 0, m => m
  | fuel + 1, m =>
    match takeLine m.buf with
    | none => m
    | some (line, rest) =>
      let outLine := trimRightSpace (pfxConcat m.prefixes m.line ++ line) ++ ['\n']
      match m.output m.writeCount with
      | some e =>
        { m with buf := rest, err := some e, writeCount := m.writeCount + 1 }
      | none =>
        flushLoop fuel
          { m with buf := rest, written := m.written ++ outLine,
                   line := m.line + 1, writeCount := m.writeCount + 1 }

/-- The full flush loop of writer.go's `Write`: the buffer length bounds the
number of complete lines it can hold. -/
def flushLines (m : MarkdownWriter) : MarkdownWriter :=
  flushLoop m.buf.length m

theorem flushLoop_fuel {m : MarkdownWriter} {fuel : Nat}
    (h : m.buf.length ≤ fuel) : flushLoop fuel m = flushLines m := by
  induction fuel using Nat.strong_induction_on generalizing m with
  | _ fuel ih =>
    match fuel with
    | 0 =>
      have h0 : m.buf.length = 0 := by omega
      simp [flushLines, h0, flushLoop]
    | fuel + 1 =>
      rcases ht : takeLine m.buf with _ | ⟨line, rest⟩
      · rcases hn : m.buf.length with _ | n <;>
          simp only [flushLines, hn, flushLoop, ht]
      · have hlen := takeLine_some_length ht
        rcases hn : m.buf.length with _ | n
        · rw [hn] at hlen; omega
        · rw [hn] at hlen
          simp only [flushLines, hn, flushLoop, ht]
          rcases he : m.output m.writeCount with _ | e
          · have h1 : rest.length ≤ fuel := by omega
            have h2 : rest.length ≤ n := by omega
            exact (ih fuel (by omega) h1).trans (ih n (by omega) h2).symm
          · rfl

/-- The unfolding equation for `flushLines`. -/
theorem flushLines_eq (m : MarkdownWriter) :
    flushLines m =
      match takeLine m.buf with
      | none => m
      | some (line, rest) =>
        let outLine := trimRightSpace (pfxConcat m.prefixes m.line ++ line) ++ ['\n']
        match m.output m.writeCount with
        | some e =>
          { m with buf := rest, err := some e, writeCount := m.writeCount + 1 }
        | none =>
          flushLines
            { m with buf := rest, written := m.written ++ outLine,
                     line := m.line + 1, writeCount := m.writeCount + 1 } := by
  rcases ht : takeLine m.buf with _ | ⟨line, rest⟩
  · rcases hn : m.buf.length with _ | n <;>
      simp only [flushLines, hn, flushLoop, ht]
  · have hlen := takeLine_some_length ht
    rcases hn : m.buf.length with _ | n
    · omega
    · rw [hn] at hlen
      simp only [flushLines, hn, flushLoop, ht]
      rcases he : m.output m.writeCount with _ | e
      · have h1 : rest.length ≤ n := by omega
        exact flushLoop_fuel h1
      · rfl

namespace MarkdownWriter

/-- `Reset` (writer.go): reset all internal state and switch to a new sink. -/
def Reset (_ : MarkdownWriter) (w : Sink) : MarkdownWriter :=
  { buf := [], output := w, writeCount := 0, written := [], prefixes := [],
    line := 0, err := none }

/-- `newMarkdownWriter` (writer.go). -/
def newMarkdownWriter (w : Sink) : MarkdownWriter :=
  Reset { buf := [], output := w, writeCount := 0, written := [], prefixes := [],
          line := 0, err := none } w

/-- `Write` (writer.go): no-op returning 0 when an error is stored; otherwise
buffer the data and flush complete lines, reporting 0 if a sink error occurred
during the flush. -/
def Write (m : MarkdownWriter) (data : Bytes) : MarkdownWriter × Nat :=
  if m.err.isSome then (m, 0)
  else
    let m' := flushLines { m with buf := m.buf ++ data }
    (m', if m'.err.isSome then 0 else data.length)

/-- `WriteString` (writer.go): buffer the data without flushing (it writes to
the internal buffer only). -/
def WriteString (m : MarkdownWriter) (data : Bytes) : MarkdownWriter × Nat :=
  if m.err.isSome then (m, 0) else ({ m with buf := m.buf ++ data }, data.length)

/-- `EndLine` (writer.go): end the current line unconditionally. -/
def EndLine (m : MarkdownWriter) : MarkdownWriter :=
  (m.Write [lineDelim]).1

/-- `FlushLine` (writer.go): end the current buffered line only if non-empty. -/
def FlushLine (m : MarkdownWriter) : MarkdownWriter :=
  if 0 < m.buf.length then m.EndLine else m

/-- `WriteLine` (writer.go): write the bytes as a finished line. -/
def WriteLine (m : MarkdownWriter) (l : Bytes) : MarkdownWriter × Nat :=
  let (m1, n) := m.Write l
  (m1.FlushLine, n)

/-- `PushPrefix` (writer.go): push a line prefix; with no offsets the start
line is the zero value 0 and the end is unbounded; one offset sets the start
relative to the current line; a second offset sets the end relative to the
start. -/
def PushPrefix (m : MarkdownWriter) (bs : Bytes) (lineRanges : List Int) :
    MarkdownWriter :=
  let p : LinePrefix :=
    match lineRanges with
    | [] => { startLine := 0, endLine := -1, bytes := bs }
    | [r0] => { startLine := m.line + r0, endLine := -1, bytes := bs }
    | r0 :: r1 :: _ =>
      { startLine := m.line + r0, endLine := m.line + r0 + r1, bytes := bs }
  { m with prefixes := m.prefixes ++ [p] }

/-- `PopPrefix` (writer.go): remove the most recently pushed prefix. -/
def PopPrefix (m : MarkdownWriter) : MarkdownWriter :=
  { m with prefixes := m.prefixes.dropLast }

/-- `Err` (writer.go). -/
def Err (m : MarkdownWriter) : Option Nat := m.err

/-- Helper (not in the source): append data to the internal buffer without
flushing; `WriteString` is exactly this when no error is stored, and `Write`
is this followed by the flush loop. -/
def pump (m : MarkdownWriter) (d : Bytes) : MarkdownWriter :=
  { m with buf := m.buf ++ d }

end MarkdownWriter

/-- A writer in the error-free regime: no stored error and an always-ok sink. -/
def Ok (m : MarkdownWriter) : Prop := m.err = none ∧ m.output = okSink

/-- The part of the buffer after its last newline (what the flush loop leaves
behind). -/
def tailSeg (b : Bytes) : Bytes :=
  (b.reverse.takeWhile (fun c => c ≠ '\n')).reverse

section ListHelpers

theorem takeWhile_append_stop {α : Type} {p : α → Bool} {x : α}
    (hx : p x = false) (l c : List α) :
    ((l ++ x :: c).takeWhile p) = l.takeWhile p := by
  induction l with
  | nil => simp [List.takeWhile, hx]
  | cons a as ih =>
    by_cases ha : p a
    · simp [List.takeWhile, ha, ih]
    · simp at ha
      simp [List.takeWhile, ha]

theorem dropWhile_append_left {α : Type} {p : α → Bool} {l₁ : List α}
    (h : ∃ x ∈ l₁, p x = false) (l₂ : List α) :
    (l₁ ++ l₂).dropWhile p = l₁.dropWhile p ++ l₂ := by
  induction l₁ with
  | nil => simp at h
  | cons a as ih =>
    by_cases ha : p a
    · obtain ⟨x, hx, hpx⟩ := h
      simp at hx
      rcases hx with hx | hx
      · subst hx; rw [ha] at hpx; cases hpx
      · simp [List.dropWhile, ha, ih ⟨x, hx, hpx⟩]
    · simp at ha
      simp [List.dropWhile, ha]

theorem mem_of_dropWhile {α : Type} {p : α → Bool} {l : List α} {x : α}
    (h : x ∈ l.dropWhile p) : x ∈ l := by
  induction l with
  | nil => simp [List.dropWhile] at h
  | cons a as ih =>
    by_cases ha : p a
    · rw [List.dropWhile_cons_of_pos ha] at h
      exact List.mem_cons_of_mem a (ih h)
    · simp at ha
      rw [List.dropWhile_cons_of_neg (by simp [ha])] at h
      exact h

theorem takeWhile_append_pos {α : Type} {p : α → Bool} {l₁ : List α}
    (h : ∀ x ∈ l₁, p x = true) (l₂ : List α) :
    (l₁ ++ l₂).takeWhile p = l₁ ++ l₂.takeWhile p := by
  induction l₁ with
  | nil => simp
  | cons a as ih =>
    have ha : p a = true := h a (by simp)
    simp only [List.cons_append, List.takeWhile_cons_of_pos ha]
    rw [ih (fun x hx => h x (by simp [hx]))]

theorem dropWhile_head_not {α : Type} {p : α → Bool} {l t : List α} {c : α}
    (h : l.dropWhile p = c :: t) : p c = false := by
  induction l with
  | nil => simp [List.dropWhile] at h
  | cons a as ih =>
    by_cases ha : p a
    · rw [List.dropWhile_cons_of_pos ha] at h
      exact ih h
    · simp at ha
      rw [List.dropWhile_cons_of_neg (by simp [ha])] at h
      injection h with h1 h2
      rw [← h1]
      exact ha

end ListHelpers

section TrimLemmas

theorem goIsSpace_newline : goIsSpace '\n' = true := by decide

theorem trimRightSpace_append_newline (s : Bytes) :
    trimRightSpace (s ++ ['\n']) = trimRightSpace s := by
  simp [trimRightSpace, List.dropWhile, goIsSpace_newline]

theorem trimRightSpace_append_right {a b : Bytes}
    (h : ∃ c ∈ b, goIsSpace c = false) :
    trimRightSpace (a ++ b) = a ++ trimRightSpace b ∧ trimRightSpace b ≠ [] := by
  obtain ⟨c, hc, hcs⟩ := h
  have hrev : ∃ x ∈ b.reverse, goIsSpace x = false := ⟨c, by simpa using hc, hcs⟩
  constructor
  · simp only [trimRightSpace, List.reverse_append]
    rw [dropWhile_append_left hrev]
    simp
  · simp only [trimRightSpace]
    intro hnil
    rw [List.reverse_eq_nil_iff, List.dropWhile_eq_nil_iff] at hnil
    have := hnil c (by simpa using hc)
    rw [hcs] at this
    cases this

theorem trim_ne_of_mem {b : Bytes} (h : trimRightSpace b ≠ []) :
    ∃ c ∈ b, goIsSpace c = false := by
  simp only [trimRightSpace] at h
  rcases hd : b.reverse.dropWhile goIsSpace with _ | ⟨x, t⟩
  · rw [hd] at h; simp at h
  · refine ⟨x, ?_, dropWhile_head_not hd⟩
    have hmem : x ∈ b.reverse.dropWhile goIsSpace := by rw [hd]; simp
    have := mem_of_dropWhile hmem
    simpa using this

theorem trimRightSpace_getLast {s : Bytes} {c : Char}
    (h : (trimRightSpace s).getLast? = some c) : goIsSpace c = false := by
  simp only [trimRightSpace] at h
  rw [List.getLast?_reverse] at h
  rcases hd : s.reverse.dropWhile goIsSpace with _ | ⟨x, t⟩
  · rw [hd] at h; cases h
  · rw [hd] at h
    simp at h
    subst h
    exact dropWhile_head_not hd

end TrimLemmas

section TakeLineLemmas

theorem takeLine_none_iff {b : Bytes} : takeLine b = none ↔ '\n' ∉ b := by
  induction b with
  | nil => simp [takeLine]
  | cons c cs ih =>
    by_cases hc : c = '\n'
    · subst hc
      simp [takeLine]
    · rcases ht : takeLine cs with _ | ⟨l, r⟩
      · simp only [takeLine, if_neg hc, ht, List.mem_cons]
        constructor
        · intro _ hmem
          rcases hmem with hmem | hmem
          · exact hc hmem.symm
          · exact (ih.mp ht) hmem
        · intro _
          trivial
      · have hmem : '\n' ∈ cs := by
          by_contra hnot
          rw [ih.mpr hnot] at ht
          cases ht
        simp only [takeLine, if_neg hc, ht, List.mem_cons]
        constructor
        · intro h; cases h
        · intro h
          exact absurd (Or.inr hmem) h

theorem takeLine_complete (core r : Bytes) (h : '\n' ∉ core) :
    takeLine (core ++ '\n' :: r) = some (core ++ ['\n'], r) := by
  induction core with
  | nil => simp [takeLine]
  | cons c cs ih =>
    have hc : c ≠ '\n' := by intro hh; exact h (by simp [hh])
    have hcs : '\n' ∉ cs := by intro hh; exact h (by simp [hh])
    simp only [List.cons_append, takeLine, if_neg hc, List.append_eq, ih hcs]

theorem takeLine_append {b l r d : Bytes} (h : takeLine b = some (l, r)) :
    takeLine (b ++ d) = some (l, r ++ d) := by
  induction b generalizing l r with
  | nil => simp [takeLine] at h
  | cons c cs ih =>
    by_cases hc : c = '\n'
    · subst hc
      simp [takeLine] at h
      obtain ⟨h1, h2⟩ := h
      subst h1
      subst h2
      simp [takeLine]
    · simp only [takeLine, if_neg hc] at h
      rcases ht : takeLine cs with _ | ⟨l', r'⟩
      · rw [ht] at h; cases h
      · rw [ht] at h
        simp only [Option.some.injEq, Prod.mk.injEq] at h
        obtain ⟨h1, h2⟩ := h
        subst h1
        subst h2
        simp only [List.cons_append, takeLine, if_neg hc, List.append_eq, ih ht]

theorem takeLine_split {b l r : Bytes} (h : takeLine b = some (l, r)) :
    ∃ core, '\n' ∉ core ∧ l = core ++ ['\n'] ∧ b = core ++ '\n' :: r := by
  induction b generalizing l r with
  | nil => simp [takeLine] at h
  | cons c cs ih =>
    by_cases hc : c = '\n'
    · subst hc
      simp [takeLine] at h
      obtain ⟨h1, h2⟩ := h
      subst h1
      subst h2
      exact ⟨[], by simp, by simp, by simp⟩
    · simp only [takeLine, if_neg hc] at h
      rcases ht : takeLine cs with _ | ⟨l', r'⟩
      · rw [ht] at h; cases h
      · rw [ht] at h
        simp only [Option.some.injEq, Prod.mk.injEq] at h
        obtain ⟨h1, h2⟩ := h
        subst h1
        subst h2
        obtain ⟨core, hn, hl, hb⟩ := ih ht
        refine ⟨c :: core, ?_, ?_, ?_⟩
        · intro hh
          simp at hh
          rcases hh with hh | hh
          · exact hc hh.symm
          · exact hn hh
        · rw [hl]; simp
        · rw [hb]; simp

end TakeLineLemmas

section TailSegLemmas

theorem tailSeg_no_newline (b : Bytes) : '\n' ∉ tailSeg b := by
  intro h
  simp only [tailSeg, List.mem_reverse] at h
  have := List.mem_takeWhile_imp h
  simp at this

theorem tailSeg_of_no_newline {b : Bytes} (h : '\n' ∉ b) : tailSeg b = b := by
  simp only [tailSeg]
  rw [List.takeWhile_eq_self_iff.mpr, List.reverse_reverse]
  intro x hx
  simp only [List.mem_reverse] at hx
  simp
  intro hh
  subst hh
  exact h hx

theorem tailSeg_cons_newline (core r : Bytes) :
    tailSeg (core ++ '\n' :: r) = tailSeg r := by
  simp only [tailSeg, List.reverse_append, List.reverse_cons, List.append_assoc,
    List.singleton_append]
  rw [takeWhile_append_stop (by simp) r.reverse core.reverse]

end TailSegLemmas

section FlushLemmas

theorem flushLoop_output (fuel : Nat) (m : MarkdownWriter) :
    (flushLoop fuel m).output = m.output ∧
    (flushLoop fuel m).prefixes = m.prefixes := by
  induction fuel generalizing m with
  | zero => simp [flushLoop]
  | succ fuel ih =>
    simp only [flushLoop]
    rcases ht : takeLine m.buf with _ | ⟨l, r⟩
    · simp
    · rcases he : m.output m.writeCount with _ | e
      · exact ih _
      · simp

theorem flushLines_output (m : MarkdownWriter) :
    (flushLines m).output = m.output := (flushLoop_output _ m).1

theorem flushLines_prefixes (m : MarkdownWriter) :
    (flushLines m).prefixes = m.prefixes := (flushLoop_output _ m).2

theorem flushLoop_err_ok {m : MarkdownWriter} (hok : m.output = okSink)
    (fuel : Nat) : (flushLoop fuel m).err = m.err := by
  induction fuel generalizing m with
  | zero => simp [flushLoop]
  | succ fuel ih =>
    simp only [flushLoop]
    rcases ht : takeLine m.buf with _ | ⟨l, r⟩
    · simp
    · rw [hok]
      simp only [okSink]
      exact ih rfl

theorem flushLines_err_ok {m : MarkdownWriter} (hok : m.output = okSink) :
    (flushLines m).err = m.err := flushLoop_err_ok hok _

theorem flushLoop_written (fuel : Nat) (m : MarkdownWriter) :
    ∃ d, (flushLoop fuel m).written = m.written ++ d := by
  induction fuel generalizing m with
  | zero => exact ⟨[], by simp [flushLoop]⟩
  | succ fuel ih =>
    simp only [flushLoop]
    rcases ht : takeLine m.buf with _ | ⟨l, r⟩
    · exact ⟨[], by simp⟩
    · rcases he : m.output m.writeCount with _ | e
      · obtain ⟨d, hd⟩ := ih
          { m with buf := r,
                   written := m.written ++ (trimRightSpace (pfxConcat m.prefixes m.line ++ l) ++ ['\n']),
                   line := m.line + 1, writeCount := m.writeCount + 1 }
        refine ⟨(trimRightSpace (pfxConcat m.prefixes m.line ++ l) ++ ['\n']) ++ d, ?_⟩
        rw [hd]
        simp
      · exact ⟨[], by simp⟩

theorem flushLines_written (m : MarkdownWriter) :
    ∃ d, (flushLines m).written = m.written ++ d := flushLoop_written _ m

theorem flushLines_of_no_newline {m : MarkdownWriter} (h : '\n' ∉ m.buf) :
    flushLines m = m := by
  rw [flushLines_eq, takeLine_none_iff.mpr h]

theorem flushLines_buf {m : MarkdownWriter} (hok : m.output = okSink) :
    (flushLines m).buf = tailSeg m.buf := by
  generalize hn : m.buf.length = n
  induction n using Nat.strong_induction_on generalizing m with
  | _ n ih =>
    rw [flushLines_eq]
    rcases ht : takeLine m.buf with _ | ⟨l, r⟩
    · exact (tailSeg_of_no_newline (takeLine_none_iff.mp ht)).symm
    · rw [hok]
      simp only [okSink]
      have hlen := takeLine_some_length ht
      obtain ⟨core, hcn, hl, hb⟩ := takeLine_split ht
      rw [hb, tailSeg_cons_newline]
      exact ih r.length (by omega) rfl rfl

/-- Flush-insertion: in the error-free regime, flushing early commutes with
appending more data and flushing again. -/
theorem flushLines_pump {m : MarkdownWriter} (hok : Ok m) (d : Bytes) :
    flushLines ((flushLines m).pump d) = flushLines (m.pump d) := by
  generalize hn : m.buf.length = n
  induction n using Nat.strong_induction_on generalizing m with
  | _ n ih =>
    rcases ht : takeLine m.buf with _ | ⟨l, r⟩
    · rw [flushLines_of_no_newline (takeLine_none_iff.mp ht)]
    · have hstep : flushLines m =
          flushLines
            { m with buf := r,
                     written := m.written ++ (trimRightSpace (pfxConcat m.prefixes m.line ++ l) ++ ['\n']),
                     line := m.line + 1, writeCount := m.writeCount + 1 } := by
        rw [flushLines_eq m, ht, hok.2]
        simp only [okSink]
      have hstep2 : flushLines (m.pump d) =
          flushLines
            { m with buf := r ++ d,
                     written := m.written ++ (trimRightSpace (pfxConcat m.prefixes m.line ++ l) ++ ['\n']),
                     line := m.line + 1, writeCount := m.writeCount + 1 } := by
        rw [flushLines_eq (m.pump d)]
        simp only [MarkdownWriter.pump]
        rw [takeLine_append ht, hok.2]
        simp only [okSink]
      rw [hstep, hstep2]
      have hlen := takeLine_some_length ht
      exact ih r.length (by omega) ⟨hok.1, hok.2⟩ rfl

/-- Flushing a buffer that is exactly one newline-terminated line emits exactly
that line, prefixed and trimmed, and advances the line counter by one. -/
theorem flushLines_single_line {m : MarkdownWriter} {core : Bytes}
    (hok : m.output = okSink) (hb : m.buf = core ++ ['\n']) (hcn : '\n' ∉ core) :
    flushLines m =
      { m with buf := [],
               written := m.written ++ (trimRightSpace (pfxConcat m.prefixes m.line ++ core) ++ ['\n']),
               line := m.line + 1, writeCount := m.writeCount + 1 } := by
  have ht : takeLine m.buf = some (core ++ ['\n'], []) := by
    rw [hb]
    have := takeLine_complete core [] hcn
    simpa using this
  rw [flushLines_eq, ht, hok]
  simp only [okSink]
  rw [flushLines_eq]
  simp only [takeLine]
  have htrim : trimRightSpace (pfxConcat m.prefixes m.line ++ (core ++ ['\n'])) =
      trimRightSpace (pfxConcat m.prefixes m.line ++ core) := by
    rw [← List.append_assoc]
    exact trimRightSpace_append_newline _
  rw [htrim]

end FlushLemmas

section OpLemmas

theorem Ok_pump {m : MarkdownWriter} (hok : Ok m) (d : Bytes) :
    Ok (m.pump d) := ⟨hok.1, hok.2⟩

theorem Ok_flushLines {m : MarkdownWriter} (hok : Ok m) :
    Ok (flushLines m) := by
  refine ⟨?_, ?_⟩
  · rw [flushLines_err_ok hok.2]; exact hok.1
  · rw [flushLines_output]; exact hok.2

theorem Write_ok {m : MarkdownWriter} (hok : Ok m) (d : Bytes) :
    m.Write d = (flushLines (m.pump d), d.length) := by
  have herr : (flushLines (m.pump d)).err = none := by
    rw [flushLines_err_ok (show (m.pump d).output = okSink from hok.2)]
    exact hok.1
  simp only [MarkdownWriter.Write, hok.1, Option.isSome_none, Bool.false_eq_true,
    if_false, MarkdownWriter.pump] at herr ⊢
  rw [herr]
  simp

theorem WriteString_ok {m : MarkdownWriter} (hok : Ok m) (d : Bytes) :
    m.WriteString d = (m.pump d, d.length) := by
  simp [MarkdownWriter.WriteString, hok.1, MarkdownWriter.pump]

theorem EndLine_ok {m : MarkdownWriter} (hok : Ok m) :
    m.EndLine = flushLines (m.pump ['\n']) := by
  simp only [MarkdownWriter.EndLine, lineDelim, Write_ok hok]

theorem FlushLine_empty {m : MarkdownWriter} (h : m.buf = []) :
    m.FlushLine = m := by
  simp [MarkdownWriter.FlushLine, h]

theorem FlushLine_ok_nonempty {m : MarkdownWriter} (hok : Ok m) (h : m.buf ≠ []) :
    m.FlushLine = flushLines (m.pump ['\n']) := by
  have : 0 < m.buf.length := List.length_pos.mpr h
  simp only [MarkdownWriter.FlushLine, if_pos this]
  exact EndLine_ok hok

theorem Write_err {m : MarkdownWriter} {e : Nat} (h : m.err = some e) (d : Bytes) :
    m.Write d = (m, 0) := by
  simp [MarkdownWriter.Write, h]

theorem WriteString_err {m : MarkdownWriter} {e : Nat} (h : m.err = some e) (d : Bytes) :
    m.WriteString d = (m, 0) := by
  simp [MarkdownWriter.WriteString, h]

theorem EndLine_err {m : MarkdownWriter} {e : Nat} (h : m.err = some e) :
    m.EndLine = m := by
  simp only [MarkdownWriter.EndLine, Write_err h]

theorem FlushLine_err {m : MarkdownWriter} {e : Nat} (h : m.err = some e) :
    m.FlushLine = m := by
  by_cases hb : 0 < m.buf.length
  · simp only [MarkdownWriter.FlushLine, if_pos hb]
    exact EndLine_err h
  · simp only [MarkdownWriter.FlushLine, if_neg hb]

theorem WriteLine_err {m : MarkdownWriter} {e : Nat} (h : m.err = some e) (d : Bytes) :
    m.WriteLine d = (m, 0) := by
  simp only [MarkdownWriter.WriteLine, Write_err h, FlushLine_err h]

/-- The specification-side description of the prefix composed onto a line: the
bytes of every prefix whose `[startLine, endLine]` range contains the line, in
push order. -/
def activePrefixBytes (ps : List LinePrefix) (line : Int) : Bytes :=
  ((ps.filter fun p =>
      decide (p.startLine ≤ line ∧ (p.endLine = -1 ∨ line ≤ p.endLine))).map
    LinePrefix.bytes).flatten

theorem pfxConcat_acc (ps : List LinePrefix) (line : Int) (acc : Bytes) :
    ps.foldl
      (fun acc p =>
        if p.startLine ≤ line ∧ (p.endLine = -1 ∨ line ≤ p.endLine) then acc ++ p.bytes
        else acc)
      acc = acc ++ pfxConcat ps line := by
  induction ps generalizing acc with
  | nil => simp [pfxConcat]
  | cons p ps ih =>
    simp only [pfxConcat, List.foldl_cons]
    by_cases hp : p.startLine ≤ line ∧ (p.endLine = -1 ∨ line ≤ p.endLine)
    · rw [if_pos hp, if_pos hp, ih, ih]
      simp
    · rw [if_neg hp, if_neg hp, ih]
      simp [pfxConcat]

theorem pfxConcat_cons (p : LinePrefix) (ps : List LinePrefix) (line : Int) :
    pfxConcat (p :: ps) line =
      (if p.startLine ≤ line ∧ (p.endLine = -1 ∨ line ≤ p.endLine) then p.bytes else []) ++
        pfxConcat ps line := by
  have hstep : pfxConcat (p :: ps) line =
      List.foldl
        (fun acc q =>
          if q.startLine ≤ line ∧ (q.endLine = -1 ∨ line ≤ q.endLine) then acc ++ q.bytes
          else acc)
        (if p.startLine ≤ line ∧ (p.endLine = -1 ∨ line ≤ p.endLine) then [] ++ p.bytes else [])
        ps := rfl
  rw [hstep, pfxConcat_acc]
  by_cases hp : p.startLine ≤ line ∧ (p.endLine = -1 ∨ line ≤ p.endLine) <;> simp [hp]

theorem pfxConcat_eq_activePrefixBytes (ps : List LinePrefix) (line : Int) :
    pfxConcat ps line = activePrefixBytes ps line := by
  induction ps with
  | nil => rfl
  | cons p ps ih =>
    rw [pfxConcat_cons, ih]
    by_cases hp : p.startLine ≤ line ∧ (p.endLine = -1 ∨ line ≤ p.endLine)
    · rw [if_pos hp]
      simp [activePrefixBytes, List.filter_cons, hp]
    · rw [if_neg hp]
      simp [activePrefixBytes, List.filter_cons, hp]

/-- A single `Write` whose data completes exactly one line: the emitted sink
line is the active prefixes followed by the buffered content, trimmed, with
one newline; the line counter advances by one. -/
theorem write_one_line {m : MarkdownWriter} {core rest : Bytes}
    (h0 : m.err = none) (hsink : m.output m.writeCount = none)
    (hbuf : '\n' ∉ m.buf ++ core) (hrest : '\n' ∉ rest) :
    m.Write (core ++ '\n' :: rest) =
      ({ m with buf := rest,
                written := m.written ++
                  (trimRightSpace (pfxConcat m.prefixes m.line ++ (m.buf ++ core)) ++ ['\n']),
                line := m.line + 1, writeCount := m.writeCount + 1 },
        (core ++ '\n' :: rest).length) := by
  have hassoc : m.buf ++ (core ++ '\n' :: rest) = (m.buf ++ core) ++ '\n' :: rest := by
    simp
  have ht : takeLine (m.buf ++ (core ++ '\n' :: rest)) =
      some ((m.buf ++ core) ++ ['\n'], rest) := by
    rw [hassoc]
    exact takeLine_complete (m.buf ++ core) rest hbuf
  have htrim : trimRightSpace (pfxConcat m.prefixes m.line ++ ((m.buf ++ core) ++ ['\n'])) =
      trimRightSpace (pfxConcat m.prefixes m.line ++ (m.buf ++ core)) := by
    rw [← List.append_assoc]
    exact trimRightSpace_append_newline _
  simp only [MarkdownWriter.Write, h0, Option.isSome_none, Bool.false_eq_true, if_false]
  rw [flushLines_eq]
  simp only [ht, hsink, htrim]
  rw [flushLines_of_no_newline hrest]
  simp [h0]

end OpLemmas

section ClaimC3

/-- C3: once the underlying sink returns a write error, the writer stores it,
`Err()` returns that stored error, the failing `Write` reports length 0 and
nothing new reaches the sink; every subsequent write operation on a writer
with a stored error is a no-op reporting length 0; and `Reset` with a new sink
clears the stored error and all prefix and line-counter state. -/
theorem writer_sticky_error (m : MarkdownWriter) (e : Nat) (d l r : Bytes)
    (h0 : m.err = none) (hsink : m.output m.writeCount = some e)
    (hline : takeLine (m.buf ++ d) = some (l, r)) :
    (m.Write d).1.err = some e ∧ (m.Write d).2 = 0 ∧
    ((m.Write d).1).Err = some e ∧
    (m.Write d).1.written = m.written ∧
    (∀ (m' : MarkdownWriter) (e' : Nat), m'.err = some e' →
      (∀ d', m'.Write d' = (m', 0)) ∧
      (∀ d', m'.WriteString d' = (m', 0)) ∧
      (∀ d', m'.WriteLine d' = (m', 0)) ∧
      m'.FlushLine = m' ∧ m'.EndLine = m' ∧ m'.Err = some e') ∧
    (∀ (m'' : MarkdownWriter) (w : Sink),
      (m''.Reset w).err = none ∧ (m''.Reset w).prefixes = [] ∧
      (m''.Reset w).line = 0 ∧ (m''.Reset w).buf = [] ∧
      (m''.Reset w).written = [] ∧ (m''.Reset w).output = w) := by
  have hkey : m.Write d =
      ({ m with buf := r, err := some e, writeCount := m.writeCount + 1 }, 0) := by
    simp only [MarkdownWriter.Write, h0, Option.isSome_none, Bool.false_eq_true, if_false]
    rw [flushLines_eq]
    simp only [MarkdownWriter.pump, hline, hsink]
    simp
  refine ⟨by rw [hkey], by rw [hkey], by rw [hkey]; rfl, by rw [hkey], ?_, ?_⟩
  · intro m' e' he'
    exact ⟨fun d' => Write_err he' d', fun d' => WriteString_err he' d',
      fun d' => WriteLine_err he' d', FlushLine_err he', EndLine_err he', he'⟩
  · intro m'' w
    exact ⟨rfl, rfl, rfl, rfl, rfl, rfl⟩

/-- Witness for C3 at a concrete writer whose sink fails with error 7. -/
def c3w : MarkdownWriter :=
  { buf := ['x'], output := fun _ => some 7, writeCount := 0, written := ['y'],
    prefixes := [], line := 0, err := none }

theorem writer_sticky_error_witness :
    (c3w.Write ['\n']).1.err = some 7 ∧ (c3w.Write ['\n']).2 = 0 ∧
    ((c3w.Write ['\n']).1).Err = some 7 ∧
    (c3w.Write ['\n']).1.written = c3w.written ∧
    (∀ (m' : MarkdownWriter) (e' : Nat), m'.err = some e' →
      (∀ d', m'.Write d' = (m', 0)) ∧
      (∀ d', m'.WriteString d' = (m', 0)) ∧
      (∀ d', m'.WriteLine d' = (m', 0)) ∧
      m'.FlushLine = m' ∧ m'.EndLine = m' ∧ m'.Err = some e') ∧
    (∀ (m'' : MarkdownWriter) (w : Sink),
      (m''.Reset w).err = none ∧ (m''.Reset w).prefixes = [] ∧
      (m''.Reset w).line = 0 ∧ (m''.Reset w).buf = [] ∧
      (m''.Reset w).written = [] ∧ (m''.Reset w).output = w) :=
  writer_sticky_error c3w 7 ['\n'] ['x', '\n'] [] rfl rfl rfl

end ClaimC3

section ClaimC4

/-- C4: whenever the writer's buffer gains a newline, exactly one complete
line is emitted to the sink, composed of the concatenation (in push order) of
the bytes of every active prefix whose range contains the current line number,
followed by the buffered line content, with trailing whitespace stripped from
the composed line and a single newline appended; the line counter increments
by one. -/
theorem writer_line_composition (m : MarkdownWriter) (core rest : Bytes)
    (h0 : m.err = none) (hsink : m.output m.writeCount = none)
    (hbuf : '\n' ∉ m.buf ++ core) (hrest : '\n' ∉ rest) :
    (m.Write (core ++ '\n' :: rest)).1.written =
      m.written ++
        (trimRightSpace (activePrefixBytes m.prefixes m.line ++ (m.buf ++ core)) ++ ['\n']) ∧
    (m.Write (core ++ '\n' :: rest)).1.line = m.line + 1 ∧
    (m.Write (core ++ '\n' :: rest)).1.writeCount = m.writeCount + 1 ∧
    (m.Write (core ++ '\n' :: rest)).1.buf = rest := by
  rw [write_one_line h0 hsink hbuf hrest]
  refine ⟨?_, rfl, rfl, rfl⟩
  simp [pfxConcat_eq_activePrefixBytes]

/-- Witness for C4: a blockquote-style prefix "> " on all lines, buffered
content "-", incoming data " a \nz". -/
def c4w : MarkdownWriter :=
  { buf := ['-'], output := okSink, writeCount := 0, written := [],
    prefixes := [{ startLine := 0, endLine := -1, bytes := ['>', ' '] },
                 { startLine := 5, endLine := -1, bytes := ['!'] }],
    line := 0, err := none }

theorem writer_line_composition_witness :
    (c4w.Write ([' ', 'a', ' '] ++ '\n' :: ['z'])).1.written =
      c4w.written ++
        (trimRightSpace (activePrefixBytes c4w.prefixes c4w.line ++ (c4w.buf ++ [' ', 'a', ' '])) ++ ['\n']) ∧
    (c4w.Write ([' ', 'a', ' '] ++ '\n' :: ['z'])).1.line = c4w.line + 1 ∧
    (c4w.Write ([' ', 'a', ' '] ++ '\n' :: ['z'])).1.writeCount = c4w.writeCount + 1 ∧
    (c4w.Write ([' ', 'a', ' '] ++ '\n' :: ['z'])).1.buf = ['z'] :=
  writer_line_composition c4w [' ', 'a', ' '] ['z'] rfl rfl (by decide) (by decide)

end ClaimC4

section ClaimC8

/-- The writer state of C8's counterexample: an active prefix "- " (as pushed
by the list-item renderer for the item's first line) and an incoming
whitespace-only line. -/
def c8w : MarkdownWriter :=
  { buf := [], output := okSink, writeCount := 0, written := [],
    prefixes := [{ startLine := 0, endLine := -1, bytes := ['-', ' '] }],
    line := 0, err := none }

/-- C8 counterexample: with active prefix "- " and an empty line content, the
emitted line is "-\n", not "- \n": trimming removed the trailing space byte of
the active prefix, refuting "never removes bytes belonging to an active
prefix". -/
theorem trim_strips_prefix_counterexample :
    (c8w.Write ['\n']).1.written = ['-', '\n'] ∧
    activePrefixBytes c8w.prefixes c8w.line ++ trimRightSpace [] ++ ['\n'] = ['-', ' ', '\n'] ∧
    ['-', '\n'] ≠ ['-', ' ', '\n'] := by
  refine ⟨by decide, by decide, by decide⟩

/-- C8 (amended): trailing-whitespace trimming acts on the composed line
(active prefixes ++ line content), so it can remove trailing whitespace bytes
of an active prefix when the line's own content is entirely whitespace;
non-whitespace prefix bytes are never removed since trimming strips only the
trailing whitespace run of the composition.  FlushLine on an empty line buffer
emits nothing. -/
theorem trim_composed_line (m : MarkdownWriter) (core : Bytes)
    (h0 : m.err = none) (hsink : m.output m.writeCount = none)
    (hbuf : '\n' ∉ m.buf ++ core) :
    (m.Write (core ++ ['\n'])).1.written =
      m.written ++
        (trimRightSpace (activePrefixBytes m.prefixes m.line ++ (m.buf ++ core)) ++ ['\n']) ∧
    (∀ m' : MarkdownWriter, m'.buf = [] → m'.FlushLine = m') := by
  constructor
  · have hkey := write_one_line h0 hsink hbuf (show ('\n' : Char) ∉ ([] : Bytes) by simp)
    rw [show core ++ ['\n'] = core ++ '\n' :: [] from rfl, hkey]
    simp [pfxConcat_eq_activePrefixBytes]
  · exact fun m' h => FlushLine_empty h

theorem trim_composed_line_witness :
    (c8w.Write ([] ++ ['\n'])).1.written =
      c8w.written ++
        (trimRightSpace (activePrefixBytes c8w.prefixes c8w.line ++ (c8w.buf ++ [])) ++ ['\n']) ∧
    (∀ m' : MarkdownWriter, m'.buf = [] → m'.FlushLine = m') :=
  trim_composed_line c8w [] rfl rfl (by decide)

end ClaimC8

/-! ## Renderer configuration (options.go) -/

/-- `IndentStyle` (options.go). -/
inductive IndentStyle where
  | spaces
  | tabs
deriving Repr, DecidableEq

/-- `IndentStyle.bytes` (options.go): 4 spaces or one tab. -/
def IndentStyle.Bytes : IndentStyle → Bytes
  | .spaces => [' ', ' ', ' ', ' ']
  | .tabs => ['\t']

/-- `HeadingStyle` (options.go). -/
inductive HeadingStyle where
  | atx
  | atxSurround
  | setext
  | fullWidthSetext
deriving Repr, DecidableEq

/-- `HeadingStyle.IsSetext` (options.go). -/
def HeadingStyle.IsSetext (i : HeadingStyle) : Bool :=
  i = HeadingStyle.setext || i = HeadingStyle.fullWidthSetext

/-- `ThematicBreakStyle` (options.go). -/
inductive ThematicBreakStyle where
  | dashed
  | starred
  | underlined
deriving Repr, DecidableEq

/-- The break character selected by `renderThematicBreak`'s array lookup
`[...]string{"-", "*", "_"}[r.config.ThematicBreakStyle]`. -/
def thematicBreakChar : ThematicBreakStyle → Char
  | .dashed => '-'
  | .starred => '*'
  | .underlined => '_'

/-- `ThematicBreakLengthMinimum` (options.go). -/
def ThematicBreakLengthMinimum : Int := 3

/-- `Config` (options.go). -/
structure Config where
  indentStyle : IndentStyle
  headingStyle : HeadingStyle
  thematicBreakStyle : ThematicBreakStyle
  thematicBreakLength : Int
deriving Repr, DecidableEq

/-- `NewConfig` (options.go): the defaults. -/
def NewConfig : Config :=
  { indentStyle := IndentStyle.spaces, headingStyle := HeadingStyle.atx,
    thematicBreakStyle := ThematicBreakStyle.dashed,
    thematicBreakLength := ThematicBreakLengthMinimum }

/-! ## The goldmark AST fragment the renderer consumes

Nodes carry exactly the attributes the render functions read; the source byte
buffer is folded in (a `text.Segment` is represented by its value).  Sibling
structure is the position in the parent's child list; `blankPrev` is
`HasBlankPreviousLines()`. -/

mutual
inductive MNode where
  | document (blankPrev : Bool) (children : MNodes)
  | heading (blankPrev : Bool) (level : Nat) (srcLines : List Bytes) (children : MNodes)
  | paragraph (blankPrev : Bool) (children : MNodes)
  | textBlock (blankPrev : Bool) (children : MNodes)
  | thematicBreak (blankPrev : Bool)
  | codeBlock (blankPrev : Bool) (srcLines : List Bytes)
  | fencedCodeBlock (blankPrev : Bool) (info : Option Bytes) (srcLines : List Bytes)
  | htmlBlock (blankPrev : Bool) (srcLines : List Bytes) (closure : Option Bytes)
  | list (blankPrev : Bool) (marker : Char) (children : MNodes)
  | listItem (blankPrev : Bool) (children : MNodes)
  | text (content : Bytes) (softBreak : Bool)
  | codeSpan (children : MNodes)
  | link (dest : Bytes) (title : Bytes) (children : MNodes)
deriving Repr, DecidableEq

inductive MNodes where
  | nil
  | cons (head : MNode) (tail : MNodes)
deriving Repr, DecidableEq
end

/-- `node.HasChildren()` is false exactly on an empty child list. -/
def MNodes.isNil : MNodes → Bool
  | .nil => true
  | .cons _ _ => false

mutual
/-- `ast.Node.Text(source)`: a Text node contributes its segment value, a
container concatenates its children's text. -/
def MNode.nodeText : MNode → Bytes
  | .document _ cs => MNodes.nodeTextList cs
  | .heading _ _ _ cs => MNodes.nodeTextList cs
  | .paragraph _ cs => MNodes.nodeTextList cs
  | .textBlock _ cs => MNodes.nodeTextList cs
  | .thematicBreak _ => []
  | .codeBlock _ _ => []
  | .fencedCodeBlock _ _ _ => []
  | .htmlBlock _ _ _ => []
  | .list _ _ cs => MNodes.nodeTextList cs
  | .listItem _ cs => MNodes.nodeTextList cs
  | .text c _ => c
  | .codeSpan cs => MNodes.nodeTextList cs
  | .link _ _ cs => MNodes.nodeTextList cs

def MNodes.nodeTextList : MNodes → Bytes
  | .nil => []
  | .cons c cs => c.nodeText ++ MNodes.nodeTextList cs
end

/-- `node.Type() == ast.TypeBlock`: the kinds whose renderers are chained with
the block separator in `getRenderer`.  `Document` is `TypeDocument`, not a
block; `Text`, `CodeSpan` and `Link` are inline. -/
def nodeIsBlock : MNode → Bool
  | .document _ _ => false
  | .text _ _ => false
  | .codeSpan _ => false
  | .link _ _ _ => false
  | _ => true

/-- `node.HasBlankPreviousLines()`; the renderer only reads it on blocks. -/
def nodeBlankPrev : MNode → Bool
  | .document bp _ => bp
  | .heading bp _ _ _ => bp
  | .paragraph bp _ => bp
  | .textBlock bp _ => bp
  | .thematicBreak bp => bp
  | .codeBlock bp _ => bp
  | .fencedCodeBlock bp _ _ => bp
  | .htmlBlock bp _ _ => bp
  | .list bp _ _ => bp
  | .listItem bp _ => bp
  | .text _ _ => false
  | .codeSpan _ => false
  | .link _ _ _ => false

/-- `ast.WalkStatus`.  `unset` is the Go zero value produced by an empty
renderer chain; goldmark's walker treats it like `WalkContinue` (it is neither
`WalkStop` nor `WalkSkipChildren`). -/
inductive WalkStatus where
  | unset
  | stop
  | skipChildren
  | cont
deriving Repr, DecidableEq

/-- `renderContext` (renderer.go). -/
structure RenderContext where
  writer : MarkdownWriter
  listMarker : Char
  inCodeSpan : Bool

/-- `newRenderContext` (renderer.go): fresh writer over the given output,
zero-valued list marker and code-span flag. -/
def newRenderContext (w : Sink) : RenderContext :=
  { writer := MarkdownWriter.newMarkdownWriter w, listMarker := Char.ofNat 0,
    inCodeSpan := false }

/-- The backtick byte. -/
def backtick : Char := Char.ofNat 96

/-! ## Render functions (renderer.go) -/

/-- `renderBlockSeparator` (renderer.go). -/
def renderBlockSeparator (hasPrev blankPrev : Bool) (entering : Bool)
    (rc : RenderContext) : RenderContext × WalkStatus :=
  if entering then
    if hasPrev && blankPrev then ({ rc with writer := rc.writer.EndLine }, .cont)
    else (rc, .cont)
  else
    ({ rc with writer := rc.writer.FlushLine }, .cont)

/-- `renderATXHeading` (renderer.go). -/
def renderATXHeading (cfg : Config) (level : Nat) (hasChildren : Bool)
    (entering : Bool) (rc : RenderContext) : RenderContext × WalkStatus :=
  if entering then
    let w1 := (rc.writer.Write (List.replicate level '#')).1
    let w2 := if hasChildren then (w1.Write [' ']).1 else w1
    ({ rc with writer := w2 }, .cont)
  else
    if cfg.headingStyle = HeadingStyle.atxSurround then
      let w1 := (rc.writer.Write [' ']).1
      let w2 := (w1.WriteString (List.replicate level '#')).1
      ({ rc with writer := w2 }, .cont)
    else (rc, .cont)

/-- The underline character lookup in `renderSetextHeading`:
`[...][]byte{[]byte(""), []byte("="), []byte("-")}[node.Level]`.  An index
above 2 panics in Go; `renderHeading` only reaches this with level ≤ 2. -/
def setextUnderline (level : Nat) : Bytes :=
  [([] : Bytes), ['='], ['-']].getD level []

/-- `renderSetextHeading` (renderer.go). -/
def renderSetextHeading (cfg : Config) (level : Nat) (srcLines : List Bytes)
    (entering : Bool) (rc : RenderContext) : RenderContext × WalkStatus :=
  if entering then (rc, .cont)
  else
    let u := setextUnderline level
    let width : Nat :=
      if cfg.headingStyle = HeadingStyle.fullWidthSetext then
        srcLines.foldl (fun w l => if l.length > w then l.length else w) 3
      else 3
    let w1 := (rc.writer.Write ['\n']).1
    let w2 := (w1.Write (List.replicate width u).flatten).1
    ({ rc with writer := w2 }, .cont)

/-- `renderHeading` (renderer.go): the ATX/Setext decision tree. -/
def renderHeading (cfg : Config) (level : Nat) (srcLines : List Bytes)
    (hasChildren : Bool) (entering : Bool) (rc : RenderContext) :
    RenderContext × WalkStatus :=
  if !hasChildren || 2 < level then
    renderATXHeading cfg level hasChildren entering rc
  else if 1 < srcLines.length then
    renderSetextHeading cfg level srcLines entering rc
  else if cfg.headingStyle.IsSetext then
    renderSetextHeading cfg level srcLines entering rc
  else
    renderATXHeading cfg level hasChildren entering rc

/-- `renderThematicBreak` (renderer.go). -/
def renderThematicBreak (cfg : Config) (entering : Bool) (rc : RenderContext) :
    RenderContext × WalkStatus :=
  if entering then
    let breakLen : Int :=
      if cfg.thematicBreakLength < ThematicBreakLengthMinimum then
        ThematicBreakLengthMinimum
      else cfg.thematicBreakLength
    let w1 := (rc.writer.WriteString
      (List.replicate breakLen.toNat (thematicBreakChar cfg.thematicBreakStyle))).1
    ({ rc with writer := w1 }, .cont)
  else (rc, .cont)

/-- `renderLineSlice`/`renderLines` (renderer.go): `WriteLine` every source
line of the node. -/
def renderLinesW (w : MarkdownWriter) (srcLines : List Bytes) : MarkdownWriter :=
  srcLines.foldl (fun w l => (w.WriteLine l).1) w

/-- `renderCodeBlock` (renderer.go): push the indent prefix and stream the
lines on enter, pop on exit; always skip children. -/
def renderCodeBlock (cfg : Config) (srcLines : List Bytes) (entering : Bool)
    (rc : RenderContext) : RenderContext × WalkStatus :=
  if entering then
    let w1 := rc.writer.PushPrefix cfg.indentStyle.Bytes []
    let w2 := renderLinesW w1 srcLines
    ({ rc with writer := w2 }, .skipChildren)
  else
    ({ rc with writer := rc.writer.PopPrefix }, .skipChildren)

/-- `renderFencedCodeBlock` (renderer.go). -/
def renderFencedCodeBlock (info : Option Bytes) (srcLines : List Bytes)
    (entering : Bool) (rc : RenderContext) : RenderContext × WalkStatus :=
  let w1 := (rc.writer.Write (List.replicate 3 backtick)).1
  if entering then
    let w2 := match info with
      | some i => (w1.Write i).1
      | none => w1
    let w3 := w2.FlushLine
    let w4 := renderLinesW w3 srcLines
    ({ rc with writer := w4 }, .cont)
  else
    ({ rc with writer := w1 }, .cont)

/-- `renderHTMLBlock` (renderer.go). -/
def renderHTMLBlock (srcLines : List Bytes) (closure : Option Bytes)
    (entering : Bool) (rc : RenderContext) : RenderContext × WalkStatus :=
  if entering then
    ({ rc with writer := renderLinesW rc.writer srcLines }, .cont)
  else
    match closure with
    | some c => ({ rc with writer := (rc.writer.WriteLine c).1 }, .cont)
    | none => (rc, .cont)

/-- `renderList` (renderer.go): record the list marker byte on enter. -/
def renderList (marker : Char) (entering : Bool) (rc : RenderContext) :
    RenderContext × WalkStatus :=
  if entering then ({ rc with listMarker := marker }, .cont)
  else (rc, .cont)

/-- `renderListItem` (renderer.go): on enter push the item prefix (marker and
a space) for the current line only, and a same-width all-spaces prefix from
the next line on, unbounded; pop both on exit. -/
def renderListItem (entering : Bool) (rc : RenderContext) :
    RenderContext × WalkStatus :=
  if entering then
    let itemPfx : Bytes := [rc.listMarker, ' ']
    let w1 := rc.writer.PushPrefix itemPfx [0, 0]
    let w2 := w1.PushPrefix (List.replicate itemPfx.length ' ') [1]
    ({ rc with writer := w2 }, .cont)
  else
    ({ rc with writer := rc.writer.PopPrefix.PopPrefix }, .cont)

/-- `renderText` (renderer.go): write the text (newlines become spaces inside
a code span), then a newline on a soft line break. -/
def renderText (content : Bytes) (softBreak : Bool) (entering : Bool)
    (rc : RenderContext) : RenderContext × WalkStatus :=
  if entering then
    let t := if rc.inCodeSpan then
        content.map (fun c => if c = '\n' then ' ' else c)
      else content
    let w1 := (rc.writer.Write t).1
    let w2 := if softBreak then (w1.WriteString ['\n']).1 else w1
    ({ rc with writer := w2 }, .cont)
  else (rc, .cont)

/-- `renderLink` (renderer.go). -/
def renderLink (dest title : Bytes) (entering : Bool) (rc : RenderContext) :
    RenderContext × WalkStatus :=
  if entering then
    ({ rc with writer := (rc.writer.Write ['[']).1 }, .cont)
  else
    let w1 := (rc.writer.WriteString (']' :: '(' :: dest)).1
    let w2 := if 0 < title.length then
        (w1.WriteString (' ' :: '"' :: (title ++ ['"']))).1
      else w1
    let w3 := (w2.WriteString [')']).1
    ({ rc with writer := w3 }, .cont)

/-- The fence `renderCodeSpan` (renderer.go) writes around a span whose text
is `txt`: two backticks when `txt` holds an odd number of backticks, else
one. -/
def codeSpanFence (txt : Bytes) : Bytes :=
  if txt.count backtick % 2 ≠ 0 then [backtick, backtick] else [backtick]

/-- `renderCodeSpan` (renderer.go): the fence bytes are written on enter and
exit alike; the code-span flag tracks `entering`. -/
def renderCodeSpan (txt : Bytes) (entering : Bool) (rc : RenderContext) :
    RenderContext × WalkStatus :=
  let fence : Bytes := codeSpanFence txt
  let w1 := (rc.writer.WriteString fence).1
  ({ rc with writer := w1, inCodeSpan := entering }, .cont)

/-! ## Dispatch and tree walk (renderer.go `getRenderer`, `chainRenderers`,
`Render`; goldmark `ast.Walk`) -/

/-- One render function of the chain built by `getRenderer`. -/
abbrev NodeRenderer := Bool → RenderContext → RenderContext × WalkStatus

/-- The kind-specific renderer of `getRenderer`'s second switch, if any
(Paragraph, TextBlock and Document kinds have none). -/
def kindRenderer (cfg : Config) : MNode → Option NodeRenderer
  | .heading _ lvl srcLines cs =>
    some (renderHeading cfg lvl srcLines (!cs.isNil))
  | .codeBlock _ srcLines => some (renderCodeBlock cfg srcLines)
  | .codeSpan cs => some (renderCodeSpan (MNode.codeSpan cs).nodeText)
  | .thematicBreak _ => some (renderThematicBreak cfg)
  | .fencedCodeBlock _ info srcLines => some (renderFencedCodeBlock info srcLines)
  | .htmlBlock _ srcLines closure => some (renderHTMLBlock srcLines closure)
  | .list _ marker _ => some (renderList marker)
  | .listItem _ _ => some renderListItem
  | .text content softBreak => some (renderText content softBreak)
  | .link dest title _ => some (renderLink dest title)
  | _ => none

/-- `getRenderer` (renderer.go): block kinds get the block separator first,
then the kind renderer. -/
def getRenderer (cfg : Config) (hasPrev : Bool) (n : MNode) : List NodeRenderer :=
  (if nodeIsBlock n then [renderBlockSeparator hasPrev (nodeBlankPrev n)] else []) ++
  (match kindRenderer cfg n with
   | some f => [f]
   | none => [])

/-- `chainRenderers` (renderer.go): run the chain forward on enter and in
reverse on exit, returning the last status (the Go zero value `unset` for an
empty chain). -/
def chainRun (fs : List NodeRenderer) (entering : Bool) (rc : RenderContext) :
    RenderContext × WalkStatus :=
  (if entering then fs else fs.reverse).foldl
    (fun acc f => f entering acc.1) (rc, WalkStatus.unset)

/-- One enter visit of goldmark's `walkHelper` combined with the walker closure
of `Render`, which surfaces `writer.Err()` after running the chain: an error
or a `WalkStop` aborts the walk (encoded uniformly as `.stop`). -/
def visitAborts (r : RenderContext × WalkStatus) : Prop :=
  r.1.writer.err.isSome ∨ r.2 = WalkStatus.stop

instance (r : RenderContext × WalkStatus) : Decidable (visitAborts r) := by
  unfold visitAborts
  infer_instance

mutual
/-- goldmark `ast.Walk`/`walkHelper` over the walker installed by `Render`:
enter chain, children (unless skipped), exit chain, aborting on a stored
writer error or `WalkStop`. -/
def walkNode (cfg : Config) (rc : RenderContext) (hasPrev : Bool) :
    MNode → RenderContext × WalkStatus
  | MNode.document bp cs =>
    let fs := getRenderer cfg hasPrev (MNode.document bp cs)
    let er := chainRun fs true rc
    if visitAborts er then (er.1, WalkStatus.stop)
    else
      let mid :=
        if er.2 = WalkStatus.skipChildren then (er.1, WalkStatus.cont)
        else walkNodes cfg er.1 false cs
      if mid.2 = WalkStatus.stop then (mid.1, WalkStatus.stop)
      else
        let ex := chainRun fs false mid.1
        if visitAborts ex then (ex.1, WalkStatus.stop)
        else (ex.1, WalkStatus.cont)
  | MNode.heading bp lvl srcLines cs =>
    let fs := getRenderer cfg hasPrev (MNode.heading bp lvl srcLines cs)
    let er := chainRun fs true rc
    if visitAborts er then (er.1, WalkStatus.stop)
    else
      let mid :=
        if er.2 = WalkStatus.skipChildren then (er.1, WalkStatus.cont)
        else walkNodes cfg er.1 false cs
      if mid.2 = WalkStatus.stop then (mid.1, WalkStatus.stop)
      else
        let ex := chainRun fs false mid.1
        if visitAborts ex then (ex.1, WalkStatus.stop)
        else (ex.1, WalkStatus.cont)
  | MNode.paragraph bp cs =>
    let fs := getRenderer cfg hasPrev (MNode.paragraph bp cs)
    let er := chainRun fs true rc
    if visitAborts er then (er.1, WalkStatus.stop)
    else
      let mid :=
        if er.2 = WalkStatus.skipChildren then (er.1, WalkStatus.cont)
        else walkNodes cfg er.1 false cs
      if mid.2 = WalkStatus.stop then (mid.1, WalkStatus.stop)
      else
        let ex := chainRun fs false mid.1
        if visitAborts ex then (ex.1, WalkStatus.stop)
        else (ex.1, WalkStatus.cont)
  | MNode.textBlock bp cs =>
    let fs := getRenderer cfg hasPrev (MNode.textBlock bp cs)
    let er := chainRun fs true rc
    if visitAborts er then (er.1, WalkStatus.stop)
    else
      let mid :=
        if er.2 = WalkStatus.skipChildren then (er.1, WalkStatus.cont)
        else walkNodes cfg er.1 false cs
      if mid.2 = WalkStatus.stop then (mid.1, WalkStatus.stop)
      else
        let ex := chainRun fs false mid.1
        if visitAborts ex then (ex.1, WalkStatus.stop)
        else (ex.1, WalkStatus.cont)
  | MNode.list bp marker cs =>
    let fs := getRenderer cfg hasPrev (MNode.list bp marker cs)
    let er := chainRun fs true rc
    if visitAborts er then (er.1, WalkStatus.stop)
    else
      let mid :=
        if er.2 = WalkStatus.skipChildren then (er.1, WalkStatus.cont)
        else walkNodes cfg er.1 false cs
      if mid.2 = WalkStatus.stop then (mid.1, WalkStatus.stop)
      else
        let ex := chainRun fs false mid.1
        if visitAborts ex then (ex.1, WalkStatus.stop)
        else (ex.1, WalkStatus.cont)
  | MNode.listItem bp cs =>
    let fs := getRenderer cfg hasPrev (MNode.listItem bp cs)
    let er := chainRun fs true rc
    if visitAborts er then (er.1, WalkStatus.stop)
    else
      let mid :=
        if er.2 = WalkStatus.skipChildren then (er.1, WalkStatus.cont)
        else walkNodes cfg er.1 false cs
      if mid.2 = WalkStatus.stop then (mid.1, WalkStatus.stop)
      else
        let ex := chainRun fs false mid.1
        if visitAborts ex then (ex.1, WalkStatus.stop)
        else (ex.1, WalkStatus.cont)
  | MNode.codeSpan cs =>
    let fs := getRenderer cfg hasPrev (MNode.codeSpan cs)
    let er := chainRun fs true rc
    if visitAborts er then (er.1, WalkStatus.stop)
    else
      let mid :=
        if er.2 = WalkStatus.skipChildren then (er.1, WalkStatus.cont)
        else walkNodes cfg er.1 false cs
      if mid.2 = WalkStatus.stop then (mid.1, WalkStatus.stop)
      else
        let ex := chainRun fs false mid.1
        if visitAborts ex then (ex.1, WalkStatus.stop)
        else (ex.1, WalkStatus.cont)
  | MNode.link dest title cs =>
    let fs := getRenderer cfg hasPrev (MNode.link dest title cs)
    let er := chainRun fs true rc
    if visitAborts er then (er.1, WalkStatus.stop)
    else
      let mid :=
        if er.2 = WalkStatus.skipChildren then (er.1, WalkStatus.cont)
        else walkNodes cfg er.1 false cs
      if mid.2 = WalkStatus.stop then (mid.1, WalkStatus.stop)
      else
        let ex := chainRun fs false mid.1
        if visitAborts ex then (ex.1, WalkStatus.stop)
        else (ex.1, WalkStatus.cont)
  | MNode.thematicBreak bp =>
    let fs := getRenderer cfg hasPrev (MNode.thematicBreak bp)
    let er := chainRun fs true rc
    if visitAborts er then (er.1, WalkStatus.stop)
    else
      let ex := chainRun fs false er.1
      if visitAborts ex then (ex.1, WalkStatus.stop)
      else (ex.1, WalkStatus.cont)
  | MNode.codeBlock bp srcLines =>
    let fs := getRenderer cfg hasPrev (MNode.codeBlock bp srcLines)
    let er := chainRun fs true rc
    if visitAborts er then (er.1, WalkStatus.stop)
    else
      let ex := chainRun fs false er.1
      if visitAborts ex then (ex.1, WalkStatus.stop)
      else (ex.1, WalkStatus.cont)
  | MNode.fencedCodeBlock bp info srcLines =>
    let fs := getRenderer cfg hasPrev (MNode.fencedCodeBlock bp info srcLines)
    let er := chainRun fs true rc
    if visitAborts er then (er.1, WalkStatus.stop)
    else
      let ex := chainRun fs false er.1
      if visitAborts ex then (ex.1, WalkStatus.stop)
      else (ex.1, WalkStatus.cont)
  | MNode.htmlBlock bp srcLines closure =>
    let fs := getRenderer cfg hasPrev (MNode.htmlBlock bp srcLines closure)
    let er := chainRun fs true rc
    if visitAborts er then (er.1, WalkStatus.stop)
    else
      let ex := chainRun fs false er.1
      if visitAborts ex then (ex.1, WalkStatus.stop)
      else (ex.1, WalkStatus.cont)
  | MNode.text content softBreak =>
    let fs := getRenderer cfg hasPrev (MNode.text content softBreak)
    let er := chainRun fs true rc
    if visitAborts er then (er.1, WalkStatus.stop)
    else
      let ex := chainRun fs false er.1
      if visitAborts ex then (ex.1, WalkStatus.stop)
      else (ex.1, WalkStatus.cont)

/-- The child loop of `walkHelper`: the first child has no previous sibling,
later children do; a stopped child aborts. -/
def walkNodes (cfg : Config) (rc : RenderContext) (hasPrev : Bool) :
    MNodes → RenderContext × WalkStatus
  | MNodes.nil => (rc, WalkStatus.cont)
  | MNodes.cons c rest =>
    let r1 := walkNode cfg rc hasPrev c
    if r1.2 = WalkStatus.stop then (r1.1, WalkStatus.stop)
    else walkNodes cfg r1.1 true rest
end

/-- `Renderer` (renderer.go): the configuration plus the per-render mutable
context. -/
structure Renderer where
  config : Config
  rc : RenderContext

/-- `Render` (renderer.go): reinitialize the render context over the given
sink, walk the tree, and surface the writer's stored error.  The bytes
accepted by the sink are returned alongside for reasoning. -/
def Renderer.Render (r : Renderer) (w : Sink) (n : MNode) :
    Renderer × Bytes × Option Nat :=
  let rc0 := newRenderContext w
  let rc1 := (walkNode r.config rc0 false n).1
  ({ r with rc := rc1 }, rc1.writer.written, rc1.writer.err)

/-- A renderer with the default configuration over the always-ok sink. -/
def defaultRenderer : Renderer :=
  { config := NewConfig, rc := newRenderContext okSink }

section ClaimC1

/-- The lengths of the maximal runs of consecutive backticks in a byte string
(`cur` is the length of the run in progress). -/
def backtickRuns (s : Bytes) (cur : Nat) : List Nat :=
  match s with
  | [] => if 0 < cur then [cur] else []
  | c :: cs =>
    if c = backtick then backtickRuns cs (cur + 1)
    else if 0 < cur then cur :: backtickRuns cs 0
    else backtickRuns cs 0

def backtickRunLengths (s : Bytes) : List Nat := backtickRuns s 0

/-- Modelled from the spec (§4.8 Code Span Renderer): "Choose the smallest
positive integer fence length not present in that set" — the set being the
lengths of the maximal interior backtick runs.  (The smallest such integer is
at most one more than the number of runs.) -/
def specMinFence (s : Bytes) : Nat :=
  let runs := backtickRunLengths s
  (((List.range (runs.length + 2)).filter fun k => 0 < k ∧ k ∉ runs).headD 1)

def c1doc : MNode :=
  MNode.document false (MNodes.cons
    (MNode.paragraph false (MNodes.cons
      (MNode.codeSpan (MNodes.cons
        (MNode.text ['a', '\x60', 'b', '\x60', 'c'] false) MNodes.nil))
      MNodes.nil))
    MNodes.nil)

/-- C1, the code evaluated at the failing input: for code-span content
`a`b`c` (two interior runs of length 1) the renderer emits a one-backtick
fence — the total backtick count 2 is even — so the output collides with the
interior runs; the spec's smallest-non-colliding rule requires fence length 2.
The single-backtick example of the claim does hold (odd count gives fence 2). -/
theorem codeSpan_fence_parity_bug :
    (defaultRenderer.Render okSink c1doc).2.1 =
      ['\x60', 'a', '\x60', 'b', '\x60', 'c', '\x60', '\n'] ∧
    backtickRunLengths ['a', '\x60', 'b', '\x60', 'c'] = [1, 1] ∧
    specMinFence ['a', '\x60', 'b', '\x60', 'c'] = 2 ∧
    (renderCodeSpan ['a', '\x60', 'b', '\x60', 'c'] true
        (newRenderContext okSink)).1.writer.buf = ['\x60'] ∧
    (renderCodeSpan ['\x60'] true (newRenderContext okSink)).1.writer.buf =
      ['\x60', '\x60'] := by
  refine ⟨by decide, by decide, by decide, by decide, by decide⟩

end ClaimC1

section ClaimC2

/-- C2: a heading with no children or level above 2 is always rendered as an
ATX heading regardless of the configured style, and a non-empty heading of
level at most 2 whose source spans more than one line is always rendered as a
Setext heading even when an ATX style is configured. -/
theorem heading_style_decision (cfg : Config) (lvl : Nat) (srcLines : List Bytes)
    (hasChildren entering : Bool) (rc : RenderContext) :
    ((hasChildren = false ∨ 2 < lvl) →
      renderHeading cfg lvl srcLines hasChildren entering rc =
        renderATXHeading cfg lvl hasChildren entering rc) ∧
    (hasChildren = true → lvl ≤ 2 → 1 < srcLines.length →
      renderHeading cfg lvl srcLines hasChildren entering rc =
        renderSetextHeading cfg lvl srcLines entering rc) := by
  constructor
  · intro h
    rcases h with h | h
    · simp [renderHeading, h]
    · simp [renderHeading, h]
  · intro h1 h2 h3
    have hnot : ¬ 2 < lvl := by omega
    simp [renderHeading, h1, hnot, h3]

theorem heading_style_decision_witness :
    (renderHeading NewConfig 3 [['a'], ['b']] true true (newRenderContext okSink) =
      renderATXHeading NewConfig 3 true true (newRenderContext okSink)) ∧
    (renderHeading NewConfig 2 [['a'], ['b']] true true (newRenderContext okSink) =
      renderSetextHeading NewConfig 2 [['a'], ['b']] true (newRenderContext okSink)) :=
  ⟨(heading_style_decision NewConfig 3 [['a'], ['b']] true true
      (newRenderContext okSink)).1 (Or.inr (by decide)),
   (heading_style_decision NewConfig 2 [['a'], ['b']] true true
      (newRenderContext okSink)).2 rfl (by decide) (by decide)⟩

end ClaimC2

section ClaimC5

/-- C5: entering a ThematicBreak emits the configured break character repeated
`max(configuredLength, 3)` times; a configured length below 3 yields exactly
3 characters and a configured length of 10 yields exactly 10. -/
theorem thematicBreak_clamp (cfg : Config) (rc : RenderContext)
    (h0 : rc.writer.err = none) :
    (renderThematicBreak cfg true rc).1.writer.buf =
      rc.writer.buf ++
        List.replicate (max cfg.thematicBreakLength 3).toNat
          (thematicBreakChar cfg.thematicBreakStyle) ∧
    (cfg.thematicBreakLength < 3 → (max cfg.thematicBreakLength 3).toNat = 3) ∧
    (cfg.thematicBreakLength = 10 → (max cfg.thematicBreakLength 3).toNat = 10) := by
  refine ⟨?_, ?_, ?_⟩
  · have hmax : (if cfg.thematicBreakLength < ThematicBreakLengthMinimum then
        ThematicBreakLengthMinimum else cfg.thematicBreakLength) =
        max cfg.thematicBreakLength 3 := by
      rw [ThematicBreakLengthMinimum]
      by_cases h : cfg.thematicBreakLength < 3
      · rw [if_pos h]
        omega
      · rw [if_neg h]
        omega
    simp only [renderThematicBreak, if_pos rfl, hmax]
    simp [MarkdownWriter.WriteString, h0]
  · intro h
    omega
  · intro h
    omega

theorem thematicBreak_clamp_witness :
    ((renderThematicBreak { NewConfig with thematicBreakLength := 0 } true
        (newRenderContext okSink)).1.writer.buf =
      (newRenderContext okSink).writer.buf ++
        List.replicate (max (0 : Int) 3).toNat (thematicBreakChar ThematicBreakStyle.dashed) ∧
    ((0 : Int) < 3 → (max (0 : Int) 3).toNat = 3) ∧
    ((0 : Int) = 10 → (max (0 : Int) 3).toNat = 10)) :=
  thematicBreak_clamp { NewConfig with thematicBreakLength := 0 }
    (newRenderContext okSink) rfl

end ClaimC5

section ClaimC6

def c6doc : MNode :=
  MNode.document false (MNodes.cons
    (MNode.list false '.' (MNodes.cons
      (MNode.listItem false (MNodes.cons
        (MNode.textBlock false (MNodes.cons (MNode.text ['X', '1'] false) MNodes.nil))
        MNodes.nil))
      MNodes.nil))
    MNodes.nil)

/-- C6, the code evaluated at the failing input: rendering the ordered list
"1. X1" (goldmark marker '.') produces ". X1" — the item prefix is only the
marker byte and a space, with no decimal ordinal and no
indent-unit-times-nested-list-length continuation prefix; the continuation
prefix is always two spaces (the item prefix width).  The claim's line-binding
and balanced push/pop parts do hold: the first prefix is bound to the current
line only, the second applies from the next line on unbounded, and both are
popped on exit. -/
theorem listItem_prefix_bug :
    (defaultRenderer.Render okSink c6doc).2.1 = ['.', ' ', 'X', '1', '\n'] ∧
    ['.', ' ', 'X', '1', '\n'] ≠ ['1', '.', ' ', 'X', '1', '\n'] ∧
    (∀ rc : RenderContext,
      (renderListItem true rc).1.writer.prefixes =
        rc.writer.prefixes ++
          [{ startLine := rc.writer.line, endLine := rc.writer.line,
             bytes := [rc.listMarker, ' '] },
           { startLine := rc.writer.line + 1, endLine := -1, bytes := [' ', ' '] }] ∧
      (renderListItem false rc).1.writer.prefixes =
        rc.writer.prefixes.dropLast.dropLast) := by
  refine ⟨by decide, by decide, ?_⟩
  intro rc
  constructor
  · simp [renderListItem, MarkdownWriter.PushPrefix]
  · simp [renderListItem, MarkdownWriter.PopPrefix]

end ClaimC6

/-! ## Prefix bookkeeping across the walk -/

section PrefixPreservation

theorem Write_prefixes (m : MarkdownWriter) (d : Bytes) :
    (m.Write d).1.prefixes = m.prefixes := by
  by_cases he : m.err.isSome <;>
    simp [MarkdownWriter.Write, he, flushLines_prefixes]

theorem WriteString_prefixes (m : MarkdownWriter) (d : Bytes) :
    (m.WriteString d).1.prefixes = m.prefixes := by
  by_cases he : m.err.isSome <;> simp [MarkdownWriter.WriteString, he]

theorem EndLine_prefixes (m : MarkdownWriter) :
    m.EndLine.prefixes = m.prefixes := Write_prefixes m [lineDelim]

theorem FlushLine_prefixes (m : MarkdownWriter) :
    m.FlushLine.prefixes = m.prefixes := by
  by_cases hb : 0 < m.buf.length <;>
    simp [MarkdownWriter.FlushLine, hb, EndLine_prefixes]

theorem WriteLine_prefixes (m : MarkdownWriter) (d : Bytes) :
    (m.WriteLine d).1.prefixes = m.prefixes := by
  simp [MarkdownWriter.WriteLine, FlushLine_prefixes, Write_prefixes]

theorem renderLinesW_prefixes (srcLines : List Bytes) (w : MarkdownWriter) :
    (renderLinesW w srcLines).prefixes = w.prefixes := by
  induction srcLines generalizing w with
  | nil => rfl
  | cons l ls ih =>
    simp only [renderLinesW, List.foldl_cons] at ih ⊢
    rw [ih, WriteLine_prefixes]

theorem renderBlockSeparator_prefixes (hasPrev blankPrev entering : Bool)
    (rc : RenderContext) :
    (renderBlockSeparator hasPrev blankPrev entering rc).1.writer.prefixes =
      rc.writer.prefixes := by
  cases entering <;>
    by_cases hb : hasPrev && blankPrev <;>
      simp [renderBlockSeparator, hb, EndLine_prefixes, FlushLine_prefixes]

theorem renderATXHeading_prefixes (cfg : Config) (lvl : Nat)
    (hasChildren entering : Bool) (rc : RenderContext) :
    (renderATXHeading cfg lvl hasChildren entering rc).1.writer.prefixes =
      rc.writer.prefixes := by
  cases entering
  · by_cases hs : cfg.headingStyle = HeadingStyle.atxSurround <;>
      simp [renderATXHeading, hs, Write_prefixes, WriteString_prefixes]
  · cases hasChildren <;>
      simp [renderATXHeading, Write_prefixes]

theorem renderSetextHeading_prefixes (cfg : Config) (lvl : Nat)
    (srcLines : List Bytes) (entering : Bool) (rc : RenderContext) :
    (renderSetextHeading cfg lvl srcLines entering rc).1.writer.prefixes =
      rc.writer.prefixes := by
  cases entering <;> simp [renderSetextHeading, Write_prefixes]

theorem renderHeading_prefixes (cfg : Config) (lvl : Nat) (srcLines : List Bytes)
    (hasChildren entering : Bool) (rc : RenderContext) :
    (renderHeading cfg lvl srcLines hasChildren entering rc).1.writer.prefixes =
      rc.writer.prefixes := by
  unfold renderHeading
  by_cases h1 : (!hasChildren || decide (2 < lvl)) = true
  · simp only [h1, if_pos]
    exact renderATXHeading_prefixes ..
  · simp only [h1]
    by_cases h2 : 1 < srcLines.length
    · simp [h2, renderSetextHeading_prefixes]
    · by_cases h3 : cfg.headingStyle.IsSetext <;>
        simp [h2, h3, renderSetextHeading_prefixes, renderATXHeading_prefixes]

theorem renderThematicBreak_prefixes (cfg : Config) (entering : Bool)
    (rc : RenderContext) :
    (renderThematicBreak cfg entering rc).1.writer.prefixes =
      rc.writer.prefixes := by
  cases entering <;> simp [renderThematicBreak, WriteString_prefixes]

theorem renderFencedCodeBlock_prefixes (info : Option Bytes)
    (srcLines : List Bytes) (entering : Bool) (rc : RenderContext) :
    (renderFencedCodeBlock info srcLines entering rc).1.writer.prefixes =
      rc.writer.prefixes := by
  cases entering
  · simp [renderFencedCodeBlock, Write_prefixes]
  · cases info <;>
      simp [renderFencedCodeBlock, renderLinesW_prefixes, FlushLine_prefixes,
        Write_prefixes]

theorem renderHTMLBlock_prefixes (srcLines : List Bytes) (closure : Option Bytes)
    (entering : Bool) (rc : RenderContext) :
    (renderHTMLBlock srcLines closure entering rc).1.writer.prefixes =
      rc.writer.prefixes := by
  cases entering
  · cases closure <;> simp [renderHTMLBlock, WriteLine_prefixes]
  · simp [renderHTMLBlock, renderLinesW_prefixes]

theorem renderList_prefixes (marker : Char) (entering : Bool) (rc : RenderContext) :
    (renderList marker entering rc).1.writer.prefixes = rc.writer.prefixes := by
  cases entering <;> simp [renderList]

theorem renderText_prefixes (content : Bytes) (softBreak entering : Bool)
    (rc : RenderContext) :
    (renderText content softBreak entering rc).1.writer.prefixes =
      rc.writer.prefixes := by
  cases entering
  · simp [renderText]
  · cases softBreak <;>
      simp [renderText, Write_prefixes, WriteString_prefixes]

theorem renderLink_prefixes (dest title : Bytes) (entering : Bool)
    (rc : RenderContext) :
    (renderLink dest title entering rc).1.writer.prefixes =
      rc.writer.prefixes := by
  cases entering
  · by_cases ht : 0 < title.length <;>
      simp [renderLink, ht, Write_prefixes, WriteString_prefixes]
  · simp [renderLink, Write_prefixes]

theorem renderCodeSpan_prefixes (txt : Bytes) (entering : Bool)
    (rc : RenderContext) :
    (renderCodeSpan txt entering rc).1.writer.prefixes =
      rc.writer.prefixes := by
  simp [renderCodeSpan, WriteString_prefixes]

/-- The single prefix pushed by the code-block renderer on enter. -/
def indentLinePrefix (cfg : Config) : LinePrefix :=
  { startLine := 0, endLine := -1, bytes := cfg.indentStyle.Bytes }

theorem renderCodeBlock_prefixes_enter (cfg : Config) (srcLines : List Bytes)
    (rc : RenderContext) :
    (renderCodeBlock cfg srcLines true rc).1.writer.prefixes =
      rc.writer.prefixes ++ [indentLinePrefix cfg] := by
  simp [renderCodeBlock, renderLinesW_prefixes, MarkdownWriter.PushPrefix,
    indentLinePrefix]

theorem renderCodeBlock_prefixes_exit (cfg : Config) (srcLines : List Bytes)
    (rc : RenderContext) :
    (renderCodeBlock cfg srcLines false rc).1.writer.prefixes =
      rc.writer.prefixes.dropLast := by
  simp [renderCodeBlock, MarkdownWriter.PopPrefix]

/-- The two prefixes pushed by the list-item renderer on enter: the marker
prefix bound to the current output line only, and the same-width spaces
prefix from the next line on, unbounded. -/
def itemLinePrefixes (rc : RenderContext) : List LinePrefix :=
  [{ startLine := rc.writer.line, endLine := rc.writer.line,
     bytes := [rc.listMarker, ' '] },
   { startLine := rc.writer.line + 1, endLine := -1, bytes := [' ', ' '] }]

theorem renderListItem_prefixes_enter (rc : RenderContext) :
    (renderListItem true rc).1.writer.prefixes =
      rc.writer.prefixes ++ itemLinePrefixes rc := by
  simp [renderListItem, MarkdownWriter.PushPrefix, itemLinePrefixes]

theorem renderListItem_prefixes_exit (rc : RenderContext) :
    (renderListItem false rc).1.writer.prefixes =
      rc.writer.prefixes.dropLast.dropLast := by
  simp [renderListItem, MarkdownWriter.PopPrefix]

theorem dropLast_append_two {α : Type} (xs : List α) (a b : α) :
    (xs ++ [a, b]).dropLast.dropLast = xs := by
  have h1 : xs ++ [a, b] = (xs ++ [a]) ++ [b] := by simp
  rw [h1, List.dropLast_concat, List.dropLast_concat]

/-- `dropLast` iterated. -/
def dropLastN {α : Type} : Nat → List α → List α
  | 0, l => l
  | n + 1, l => dropLastN n l.dropLast

theorem dropLastN_append {α : Type} (ps xs : List α) :
    dropLastN ps.length (xs ++ ps) = xs := by
  induction ps using List.reverseRecOn generalizing xs with
  | nil => simp [dropLastN]
  | append_singleton ps a ih =>
    rw [List.length_append, List.length_singleton]
    show dropLastN ps.length (xs ++ (ps ++ [a])).dropLast = xs
    rw [← List.append_assoc, List.dropLast_concat]
    exact ih xs

/-- The shared enter/children/exit skeleton of `walkNode`. -/
def walkBody (fs : List NodeRenderer)
    (kids : RenderContext → RenderContext × WalkStatus) (rc : RenderContext) :
    RenderContext × WalkStatus :=
  let er := chainRun fs true rc
  if visitAborts er then (er.1, WalkStatus.stop)
  else
    let mid :=
      if er.2 = WalkStatus.skipChildren then (er.1, WalkStatus.cont) else kids er.1
    if mid.2 = WalkStatus.stop then (mid.1, WalkStatus.stop)
    else
      let ex := chainRun fs false mid.1
      if visitAborts ex then (ex.1, WalkStatus.stop)
      else (ex.1, WalkStatus.cont)

theorem walkBody_leaf (fs : List NodeRenderer) (rc : RenderContext) :
    walkBody fs (fun x => (x, WalkStatus.cont)) rc =
      (let er := chainRun fs true rc
       if visitAborts er then (er.1, WalkStatus.stop)
       else
         let ex := chainRun fs false er.1
         if visitAborts ex then (ex.1, WalkStatus.stop)
         else (ex.1, WalkStatus.cont)) := by
  simp only [walkBody]
  have hmid : (if (chainRun fs true rc).2 = WalkStatus.skipChildren
      then ((chainRun fs true rc).1, WalkStatus.cont)
      else ((chainRun fs true rc).1, WalkStatus.cont)) =
      ((chainRun fs true rc).1, WalkStatus.cont) := by
    split <;> rfl
  rw [hmid]
  simp

theorem walkNode_eq_document (cfg : Config) (rc : RenderContext) (hp bp : Bool)
    (cs : MNodes) :
    walkNode cfg rc hp (MNode.document bp cs) =
      walkBody (getRenderer cfg hp (MNode.document bp cs))
        (fun x => walkNodes cfg x false cs) rc := rfl

theorem walkNode_eq_heading (cfg : Config) (rc : RenderContext) (hp bp : Bool)
    (lvl : Nat) (srcLines : List Bytes) (cs : MNodes) :
    walkNode cfg rc hp (MNode.heading bp lvl srcLines cs) =
      walkBody (getRenderer cfg hp (MNode.heading bp lvl srcLines cs))
        (fun x => walkNodes cfg x false cs) rc := rfl

theorem walkNode_eq_paragraph (cfg : Config) (rc : RenderContext) (hp bp : Bool)
    (cs : MNodes) :
    walkNode cfg rc hp (MNode.paragraph bp cs) =
      walkBody (getRenderer cfg hp (MNode.paragraph bp cs))
        (fun x => walkNodes cfg x false cs) rc := rfl

theorem walkNode_eq_textBlock (cfg : Config) (rc : RenderContext) (hp bp : Bool)
    (cs : MNodes) :
    walkNode cfg rc hp (MNode.textBlock bp cs) =
      walkBody (getRenderer cfg hp (MNode.textBlock bp cs))
        (fun x => walkNodes cfg x false cs) rc := rfl

theorem walkNode_eq_list (cfg : Config) (rc : RenderContext) (hp bp : Bool)
    (marker : Char) (cs : MNodes) :
    walkNode cfg rc hp (MNode.list bp marker cs) =
      walkBody (getRenderer cfg hp (MNode.list bp marker cs))
        (fun x => walkNodes cfg x false cs) rc := rfl

theorem walkNode_eq_listItem (cfg : Config) (rc : RenderContext) (hp bp : Bool)
    (cs : MNodes) :
    walkNode cfg rc hp (MNode.listItem bp cs) =
      walkBody (getRenderer cfg hp (MNode.listItem bp cs))
        (fun x => walkNodes cfg x false cs) rc := rfl

theorem walkNode_eq_codeSpan (cfg : Config) (rc : RenderContext) (hp : Bool)
    (cs : MNodes) :
    walkNode cfg rc hp (MNode.codeSpan cs) =
      walkBody (getRenderer cfg hp (MNode.codeSpan cs))
        (fun x => walkNodes cfg x false cs) rc := rfl

theorem walkNode_eq_link (cfg : Config) (rc : RenderContext) (hp : Bool)
    (dest title : Bytes) (cs : MNodes) :
    walkNode cfg rc hp (MNode.link dest title cs) =
      walkBody (getRenderer cfg hp (MNode.link dest title cs))
        (fun x => walkNodes cfg x false cs) rc := rfl

theorem walkNode_eq_thematicBreak (cfg : Config) (rc : RenderContext)
    (hp bp : Bool) :
    walkNode cfg rc hp (MNode.thematicBreak bp) =
      walkBody (getRenderer cfg hp (MNode.thematicBreak bp))
        (fun x => (x, WalkStatus.cont)) rc := by
  rw [walkBody_leaf]
  rfl

theorem walkNode_eq_codeBlock (cfg : Config) (rc : RenderContext) (hp bp : Bool)
    (srcLines : List Bytes) :
    walkNode cfg rc hp (MNode.codeBlock bp srcLines) =
      walkBody (getRenderer cfg hp (MNode.codeBlock bp srcLines))
        (fun x => (x, WalkStatus.cont)) rc := by
  rw [walkBody_leaf]
  rfl

theorem walkNode_eq_fencedCodeBlock (cfg : Config) (rc : RenderContext)
    (hp bp : Bool) (info : Option Bytes) (srcLines : List Bytes) :
    walkNode cfg rc hp (MNode.fencedCodeBlock bp info srcLines) =
      walkBody (getRenderer cfg hp (MNode.fencedCodeBlock bp info srcLines))
        (fun x => (x, WalkStatus.cont)) rc := by
  rw [walkBody_leaf]
  rfl

theorem walkNode_eq_htmlBlock (cfg : Config) (rc : RenderContext) (hp bp : Bool)
    (srcLines : List Bytes) (closure : Option Bytes) :
    walkNode cfg rc hp (MNode.htmlBlock bp srcLines closure) =
      walkBody (getRenderer cfg hp (MNode.htmlBlock bp srcLines closure))
        (fun x => (x, WalkStatus.cont)) rc := by
  rw [walkBody_leaf]
  rfl

theorem walkNode_eq_text (cfg : Config) (rc : RenderContext) (hp : Bool)
    (content : Bytes) (softBreak : Bool) :
    walkNode cfg rc hp (MNode.text content softBreak) =
      walkBody (getRenderer cfg hp (MNode.text content softBreak))
        (fun x => (x, WalkStatus.cont)) rc := by
  rw [walkBody_leaf]
  rfl

/-- Prefix balance through the generic walk skeleton: if the enter chain
appends some prefixes and the exit chain pops exactly that many, and the
children preserve prefixes (unless they stop), the whole visit preserves
prefixes (unless it stops). -/
theorem walkBody_prefixes (fs : List NodeRenderer)
    (kids : RenderContext → RenderContext × WalkStatus) (rc : RenderContext)
    (ps : List LinePrefix)
    (henter : (chainRun fs true rc).1.writer.prefixes = rc.writer.prefixes ++ ps)
    (hexit : ∀ y, (chainRun fs false y).1.writer.prefixes =
      dropLastN ps.length y.writer.prefixes)
    (hkids : ∀ x, (kids x).2 = WalkStatus.stop ∨
      (kids x).1.writer.prefixes = x.writer.prefixes) :
    (walkBody fs kids rc).2 = WalkStatus.stop ∨
      (walkBody fs kids rc).1.writer.prefixes = rc.writer.prefixes := by
  simp only [walkBody]
  by_cases c1 : visitAborts (chainRun fs true rc)
  · rw [if_pos c1]; exact Or.inl rfl
  · rw [if_neg c1]
    by_cases c2 : (chainRun fs true rc).2 = WalkStatus.skipChildren
    · rw [if_pos c2]
      have hns : ¬(((chainRun fs true rc).1, WalkStatus.cont) :
          RenderContext × WalkStatus).2 = WalkStatus.stop := by simp
      rw [if_neg hns]
      by_cases c4 : visitAborts (chainRun fs false
          (((chainRun fs true rc).1, WalkStatus.cont) :
            RenderContext × WalkStatus).1)
      · rw [if_pos c4]; exact Or.inl rfl
      · rw [if_neg c4]
        refine Or.inr ?_
        show (chainRun fs false
          ((chainRun fs true rc).1, WalkStatus.cont).1).1.writer.prefixes =
            rc.writer.prefixes
        rw [hexit]
        show dropLastN ps.length (chainRun fs true rc).1.writer.prefixes =
          rc.writer.prefixes
        rw [henter, dropLastN_append]
    · rw [if_neg c2]
      by_cases c3 : (kids (chainRun fs true rc).1).2 = WalkStatus.stop
      · rw [if_pos c3]; exact Or.inl rfl
      · rw [if_neg c3]
        by_cases c4 : visitAborts (chainRun fs false
            (kids (chainRun fs true rc).1).1)
        · rw [if_pos c4]; exact Or.inl rfl
        · rw [if_neg c4]
          refine Or.inr ?_
          show (chainRun fs false
            (kids (chainRun fs true rc).1).1).1.writer.prefixes =
              rc.writer.prefixes
          rw [hexit]
          rcases hkids (chainRun fs true rc).1 with hk | hk
          · exact absurd hk c3
          · rw [hk, henter, dropLastN_append]

theorem chainRun_nil (e : Bool) (rc : RenderContext) :
    chainRun [] e rc = (rc, WalkStatus.unset) := by
  cases e <;> rfl

theorem chainRun_single (f : NodeRenderer) (e : Bool) (rc : RenderContext) :
    chainRun [f] e rc = f e rc := by
  cases e <;> simp [chainRun]

theorem chainRun_pair_enter (f g : NodeRenderer) (rc : RenderContext) :
    chainRun [f, g] true rc = g true (f true rc).1 := by
  simp [chainRun]

theorem chainRun_pair_exit (f g : NodeRenderer) (rc : RenderContext) :
    chainRun [f, g] false rc = f false (g false rc).1 := by
  simp [chainRun]

mutual
/-- After a complete (non-stopped) visit of any node, the writer's prefix
stack is exactly what it was before the visit. -/
theorem walkNode_prefixes (cfg : Config) (rc : RenderContext) (hp : Bool)
    (n : MNode) :
    (walkNode cfg rc hp n).2 = WalkStatus.stop ∨
      (walkNode cfg rc hp n).1.writer.prefixes = rc.writer.prefixes := by
  cases n with
  | document bp cs =>
    rw [walkNode_eq_document]
    refine walkBody_prefixes _ _ _ [] ?_ ?_
      (fun x => walkNodes_prefixes cfg x false cs)
    · simp [getRenderer, kindRenderer, nodeIsBlock, chainRun_nil]
    · intro y
      simp [getRenderer, kindRenderer, nodeIsBlock, chainRun_nil, dropLastN]
  | heading bp lvl srcLines cs =>
    rw [walkNode_eq_heading]
    refine walkBody_prefixes _ _ _ [] ?_ ?_
      (fun x => walkNodes_prefixes cfg x false cs)
    · simp [getRenderer, kindRenderer, nodeIsBlock, nodeBlankPrev,
        chainRun_pair_enter, renderBlockSeparator_prefixes, renderHeading_prefixes]
    · intro y
      simp [getRenderer, kindRenderer, nodeIsBlock, nodeBlankPrev, dropLastN,
        chainRun_pair_exit, renderBlockSeparator_prefixes, renderHeading_prefixes]
  | paragraph bp cs =>
    rw [walkNode_eq_paragraph]
    refine walkBody_prefixes _ _ _ [] ?_ ?_
      (fun x => walkNodes_prefixes cfg x false cs)
    · simp [getRenderer, kindRenderer, nodeIsBlock, nodeBlankPrev,
        chainRun_single, renderBlockSeparator_prefixes]
    · intro y
      simp [getRenderer, kindRenderer, nodeIsBlock, nodeBlankPrev, dropLastN,
        chainRun_single, renderBlockSeparator_prefixes]
  | textBlock bp cs =>
    rw [walkNode_eq_textBlock]
    refine walkBody_prefixes _ _ _ [] ?_ ?_
      (fun x => walkNodes_prefixes cfg x false cs)
    · simp [getRenderer, kindRenderer, nodeIsBlock, nodeBlankPrev,
        chainRun_single, renderBlockSeparator_prefixes]
    · intro y
      simp [getRenderer, kindRenderer, nodeIsBlock, nodeBlankPrev, dropLastN,
        chainRun_single, renderBlockSeparator_prefixes]
  | list bp marker cs =>
    rw [walkNode_eq_list]
    refine walkBody_prefixes _ _ _ [] ?_ ?_
      (fun x => walkNodes_prefixes cfg x false cs)
    · simp [getRenderer, kindRenderer, nodeIsBlock, nodeBlankPrev,
        chainRun_pair_enter, renderBlockSeparator_prefixes, renderList_prefixes]
    · intro y
      simp [getRenderer, kindRenderer, nodeIsBlock, nodeBlankPrev, dropLastN,
        chainRun_pair_exit, renderBlockSeparator_prefixes, renderList_prefixes]
  | listItem bp cs =>
    rw [walkNode_eq_listItem]
    refine walkBody_prefixes _ _ _
      (itemLinePrefixes (renderBlockSeparator hp bp true rc).1) ?_ ?_
      (fun x => walkNodes_prefixes cfg x false cs)
    · simp [getRenderer, kindRenderer, nodeIsBlock, nodeBlankPrev,
        chainRun_pair_enter, renderListItem_prefixes_enter,
        renderBlockSeparator_prefixes]
    · intro y
      simp [getRenderer, kindRenderer, nodeIsBlock, nodeBlankPrev,
        chainRun_pair_exit, renderBlockSeparator_prefixes,
        renderListItem_prefixes_exit, itemLinePrefixes, dropLastN]
  | codeSpan cs =>
    rw [walkNode_eq_codeSpan]
    refine walkBody_prefixes _ _ _ [] ?_ ?_
      (fun x => walkNodes_prefixes cfg x false cs)
    · simp [getRenderer, kindRenderer, nodeIsBlock,
        chainRun_single, renderCodeSpan_prefixes]
    · intro y
      simp [getRenderer, kindRenderer, nodeIsBlock, dropLastN,
        chainRun_single, renderCodeSpan_prefixes]
  | link dest title cs =>
    rw [walkNode_eq_link]
    refine walkBody_prefixes _ _ _ [] ?_ ?_
      (fun x => walkNodes_prefixes cfg x false cs)
    · simp [getRenderer, kindRenderer, nodeIsBlock,
        chainRun_single, renderLink_prefixes]
    · intro y
      simp [getRenderer, kindRenderer, nodeIsBlock, dropLastN,
        chainRun_single, renderLink_prefixes]
  | thematicBreak bp =>
    rw [walkNode_eq_thematicBreak]
    refine walkBody_prefixes _ _ _ [] ?_ ?_ (fun x => Or.inr rfl)
    · simp [getRenderer, kindRenderer, nodeIsBlock, nodeBlankPrev,
        chainRun_pair_enter, renderBlockSeparator_prefixes,
        renderThematicBreak_prefixes]
    · intro y
      simp [getRenderer, kindRenderer, nodeIsBlock, nodeBlankPrev, dropLastN,
        chainRun_pair_exit, renderBlockSeparator_prefixes,
        renderThematicBreak_prefixes]
  | codeBlock bp srcLines =>
    rw [walkNode_eq_codeBlock]
    refine walkBody_prefixes _ _ _ [indentLinePrefix cfg] ?_ ?_
      (fun x => Or.inr rfl)
    · simp [getRenderer, kindRenderer, nodeIsBlock, nodeBlankPrev,
        chainRun_pair_enter, renderCodeBlock_prefixes_enter,
        renderBlockSeparator_prefixes]
    · intro y
      simp [getRenderer, kindRenderer, nodeIsBlock, nodeBlankPrev,
        chainRun_pair_exit, renderBlockSeparator_prefixes,
        renderCodeBlock_prefixes_exit, dropLastN]
  | fencedCodeBlock bp info srcLines =>
    rw [walkNode_eq_fencedCodeBlock]
    refine walkBody_prefixes _ _ _ [] ?_ ?_ (fun x => Or.inr rfl)
    · simp [getRenderer, kindRenderer, nodeIsBlock, nodeBlankPrev,
        chainRun_pair_enter, renderBlockSeparator_prefixes,
        renderFencedCodeBlock_prefixes]
    · intro y
      simp [getRenderer, kindRenderer, nodeIsBlock, nodeBlankPrev, dropLastN,
        chainRun_pair_exit, renderBlockSeparator_prefixes,
        renderFencedCodeBlock_prefixes]
  | htmlBlock bp srcLines closure =>
    rw [walkNode_eq_htmlBlock]
    refine walkBody_prefixes _ _ _ [] ?_ ?_ (fun x => Or.inr rfl)
    · simp [getRenderer, kindRenderer, nodeIsBlock, nodeBlankPrev,
        chainRun_pair_enter, renderBlockSeparator_prefixes,
        renderHTMLBlock_prefixes]
    · intro y
      simp [getRenderer, kindRenderer, nodeIsBlock, nodeBlankPrev, dropLastN,
        chainRun_pair_exit, renderBlockSeparator_prefixes,
        renderHTMLBlock_prefixes]
  | text content softBreak =>
    rw [walkNode_eq_text]
    refine walkBody_prefixes _ _ _ [] ?_ ?_ (fun x => Or.inr rfl)
    · simp [getRenderer, kindRenderer, nodeIsBlock,
        chainRun_single, renderText_prefixes]
    · intro y
      simp [getRenderer, kindRenderer, nodeIsBlock, dropLastN,
        chainRun_single, renderText_prefixes]
termination_by sizeOf n

theorem walkNodes_prefixes (cfg : Config) (rc : RenderContext) (hp : Bool)
    (l : MNodes) :
    (walkNodes cfg rc hp l).2 = WalkStatus.stop ∨
      (walkNodes cfg rc hp l).1.writer.prefixes = rc.writer.prefixes := by
  cases l with
  | nil => exact Or.inr rfl
  | cons c rest =>
    simp only [walkNodes]
    by_cases hc : (walkNode cfg rc hp c).2 = WalkStatus.stop
    · rw [if_pos hc]
      exact Or.inl rfl
    · rw [if_neg hc]
      rcases walkNode_prefixes cfg rc hp c with hs | hs
      · exact absurd hs hc
      · rcases walkNodes_prefixes cfg (walkNode cfg rc hp c).1 true rest with
          ht | ht
        · exact Or.inl ht
        · exact Or.inr (ht.trans hs)
termination_by sizeOf l
end

end PrefixPreservation

section ClaimC10

/-- C10: render functions push and pop writer line prefixes in balanced pairs:
the indented-code-block renderer pushes exactly one prefix on enter and pops
one on exit, the list-item renderer pushes two on enter and pops two on exit,
and after any complete (non-stopped) enter/exit traversal of a tree the
writer's prefix stack is restored to its pre-traversal state — empty for a
fresh render. -/
theorem prefix_stack_balance :
    (∀ (cfg : Config) (srcLines : List Bytes) (rc : RenderContext),
      (renderCodeBlock cfg srcLines true rc).1.writer.prefixes =
        rc.writer.prefixes ++ [indentLinePrefix cfg] ∧
      (renderCodeBlock cfg srcLines false rc).1.writer.prefixes =
        rc.writer.prefixes.dropLast) ∧
    (∀ rc : RenderContext,
      (renderListItem true rc).1.writer.prefixes =
        rc.writer.prefixes ++ itemLinePrefixes rc ∧
      (renderListItem false rc).1.writer.prefixes =
        rc.writer.prefixes.dropLast.dropLast) ∧
    (∀ (cfg : Config) (rc : RenderContext) (hp : Bool) (n : MNode),
      (walkNode cfg rc hp n).2 ≠ WalkStatus.stop →
        (walkNode cfg rc hp n).1.writer.prefixes = rc.writer.prefixes) ∧
    (∀ (cfg : Config) (w : Sink) (n : MNode),
      (walkNode cfg (newRenderContext w) false n).2 ≠ WalkStatus.stop →
        (walkNode cfg (newRenderContext w) false n).1.writer.prefixes = []) := by
  refine ⟨?_, ?_, ?_, ?_⟩
  · intro cfg srcLines rc
    exact ⟨renderCodeBlock_prefixes_enter cfg srcLines rc,
      renderCodeBlock_prefixes_exit cfg srcLines rc⟩
  · intro rc
    exact ⟨renderListItem_prefixes_enter rc, renderListItem_prefixes_exit rc⟩
  · intro cfg rc hp n h
    rcases walkNode_prefixes cfg rc hp n with hs | hs
    · exact absurd hs h
    · exact hs
  · intro cfg w n h
    rcases walkNode_prefixes cfg (newRenderContext w) false n with hs | hs
    · exact absurd hs h
    · exact hs

theorem prefix_stack_balance_witness :
    (walkNode NewConfig (newRenderContext okSink) false c6doc).1.writer.prefixes
      = [] :=
  prefix_stack_balance.2.2.2 NewConfig okSink c6doc (by decide)

end ClaimC10

section ClaimC9

/-- C9: `Render` reinitializes the per-render context — a fresh writer over
the given sink with empty prefix stack, zero line counter and no stored
error, zero list marker and cleared code-span flag — so its output depends
only on the configuration: two renderers with equal configuration (whatever
their leftover contexts) write identical bytes and report identical errors,
and rendering the same source and tree twice in sequence on the same renderer
instance writes identical bytes to the sink both times. -/
theorem render_no_state_leak (r1 r2 : Renderer) (w : Sink) (n : MNode)
    (h : r1.config = r2.config) :
    (r1.Render w n).2 = (r2.Render w n).2 ∧
    ((r1.Render w n).1.Render w n).2 = (r1.Render w n).2 ∧
    (r1.Render w n).1.rc =
      (walkNode r1.config (newRenderContext w) false n).1 := by
  refine ⟨?_, rfl, rfl⟩
  simp only [Renderer.Render, h]

/-- A deliberately dirtied leftover context: an errored writer with a pending
prefix and buffered bytes, a stale list marker and a set code-span flag. -/
def dirtyContext : RenderContext :=
  { writer :=
      { buf := ['z'], output := fun _ => some 3, writeCount := 5,
        written := ['o', 'l', 'd'],
        prefixes := [{ startLine := 0, endLine := -1, bytes := ['>', ' '] }],
        line := 9, err := some 3 },
    listMarker := '*', inCodeSpan := true }

theorem render_no_state_leak_witness :
    ((Renderer.mk NewConfig (newRenderContext okSink)).Render okSink c1doc).2 =
      ((Renderer.mk NewConfig dirtyContext).Render okSink c1doc).2 ∧
    (((Renderer.mk NewConfig (newRenderContext okSink)).Render okSink c1doc).1.Render
        okSink c1doc).2 =
      ((Renderer.mk NewConfig (newRenderContext okSink)).Render okSink c1doc).2 ∧
    ((Renderer.mk NewConfig (newRenderContext okSink)).Render okSink c1doc).1.rc =
      (walkNode NewConfig (newRenderContext okSink) false c1doc).1 :=
  render_no_state_leak (Renderer.mk NewConfig (newRenderContext okSink))
    (Renderer.mk NewConfig dirtyContext) okSink c1doc rfl

end ClaimC9

/-! ## The trailing-newline discipline (C7)

The renderer writes through `Write` (which flushes complete lines eagerly)
and `WriteString` (which only buffers), so intermediate writer states differ
only in how much of the byte stream has been flushed.  The lemmas below work
modulo `flushLines`: two states with equal `flushLines` images emit the same
lines from the same stream. -/

section FlushCalculus

theorem pump_pump (m : MarkdownWriter) (a b : Bytes) :
    (m.pump a).pump b = m.pump (a ++ b) := by
  simp [MarkdownWriter.pump]

theorem pump_nil (m : MarkdownWriter) : m.pump [] = m := by
  simp [MarkdownWriter.pump]

theorem flushLines_idem {m : MarkdownWriter} (hok : Ok m) :
    flushLines (flushLines m) = flushLines m := by
  have h := flushLines_pump hok []
  rwa [pump_nil, pump_nil] at h

theorem Ok_Write {m : MarkdownWriter} (hok : Ok m) (d : Bytes) :
    Ok (m.Write d).1 := by
  rw [Write_ok hok]
  exact Ok_flushLines (Ok_pump hok d)

theorem Write_no_newline {m : MarkdownWriter} (hok : Ok m) {d : Bytes}
    (h : '\n' ∉ m.buf ++ d) : m.Write d = (m.pump d, d.length) := by
  rw [Write_ok hok, flushLines_of_no_newline]
  simpa [MarkdownWriter.pump] using h

theorem tailSeg_ne_nil {b : Bytes} {c : Char} (hlast : b.getLast? = some c)
    (hc : c ≠ '\n') : tailSeg b ≠ [] := by
  rw [← List.head?_reverse] at hlast
  rcases hb : b.reverse with _ | ⟨x, t⟩
  · rw [hb] at hlast; cases hlast
  · rw [hb] at hlast
    simp at hlast
    subst hlast
    simp only [tailSeg, hb]
    rw [List.takeWhile_cons_of_pos (by simpa using hc)]
    simp

theorem tailSeg_getLast {b : Bytes} (hne : tailSeg b ≠ []) :
    tailSeg b ≠ [] ∧ (tailSeg b).getLast? = b.getLast? := by
  refine ⟨hne, ?_⟩
  rw [← List.head?_reverse, ← List.head?_reverse]
  simp only [tailSeg, List.reverse_reverse]
  rcases hb : b.reverse with _ | ⟨x, t⟩
  · simp only [tailSeg, hb] at hne
    simp at hne
  · by_cases hx : x = '\n'
    · subst hx
      simp only [tailSeg, hb] at hne
      rw [List.takeWhile_cons_of_neg (by simp)] at hne
      simp at hne
    · rw [List.takeWhile_cons_of_pos (by simpa using hx)]
      rfl

theorem trimRightSpace_of_getLast_nonspace {s : Bytes} {c : Char}
    (hlast : s.getLast? = some c) (hc : goIsSpace c = false) :
    trimRightSpace s = s := by
  rw [← List.head?_reverse] at hlast
  rcases hb : s.reverse with _ | ⟨x, t⟩
  · rw [hb] at hlast; cases hlast
  · rw [hb] at hlast
    simp at hlast
    subst hlast
    simp only [trimRightSpace, hb]
    rw [List.dropWhile_cons_of_neg (by simp [hc])]
    rw [← hb, List.reverse_reverse]

/-- A byte string ends in exactly one newline with a non-blank last line. -/
def goodTail (d : Bytes) : Prop :=
  match d.reverse with
  | a :: b :: _ => a = '\n' ∧ goIsSpace b = false
  | _ => False

theorem goodTail_append {d : Bytes} (a : Bytes) (h : goodTail d) :
    goodTail (a ++ d) := by
  unfold goodTail at h ⊢
  rcases hd : d.reverse with _ | ⟨x, t⟩
  · rw [hd] at h; cases h
  · rcases ht : t with _ | ⟨y, u⟩
    · rw [hd, ht] at h; cases h
    · rw [hd, ht] at h
      rw [List.reverse_append, hd, ht]
      simpa using h

theorem goodTail_of_line {T : Bytes} {c : Char} (hlast : T.getLast? = some c)
    (hc : goIsSpace c = false) : goodTail (T ++ ['\n']) := by
  unfold goodTail
  rw [← List.head?_reverse] at hlast
  rcases hb : T.reverse with _ | ⟨x, t⟩
  · rw [hb] at hlast; cases hlast
  · rw [hb] at hlast
    simp at hlast
    subst hlast
    rw [List.reverse_append, hb]
    simpa using hc

theorem goodTail_ne_nil {d : Bytes} (h : goodTail d) : d ≠ [] := by
  intro hd
  subst hd
  simp [goodTail] at h

theorem getLast?_append_right {a S : Bytes} (h : S ≠ []) :
    (a ++ S).getLast? = S.getLast? := by
  rw [← List.head?_reverse, ← List.head?_reverse, List.reverse_append]
  rcases hS : S.reverse with _ | ⟨x, t⟩
  · rw [List.reverse_eq_nil_iff] at hS
    exact absurd hS h
  · rfl

/-- Whether a byte stream is non-empty and ends in a non-whitespace byte. -/
def streamNonWsEnd (s : Bytes) : Bool :=
  match s.getLast? with
  | some c => !goIsSpace c
  | none => false

/-- The finishing move of every block: `FlushLine` at the block-separator
exit, applied to any state whose `flushLines` image agrees with feeding the
block's whole byte stream `S` from a clean writer `w0`.  When `S`'s final
line segment is non-blank after trailing-whitespace trimming, it empties the
buffer and emits, in total for the block, a byte string with a good tail. -/
theorem block_finish {w0 m : MarkdownWriter} {S : Bytes}
    (hok0 : Ok w0) (hbuf0 : w0.buf = []) (hokm : Ok m)
    (hfeq : flushLines m = flushLines (w0.pump S))
    (hS : trimRightSpace (tailSeg S) ≠ []) :
    Ok m.FlushLine ∧ m.FlushLine.buf = [] ∧
    ∃ d, m.FlushLine.written = w0.written ++ d ∧ goodTail d := by
  have htne : tailSeg S ≠ [] := by
    intro h
    rw [h] at hS
    exact hS rfl
  have hpump_buf : (w0.pump S).buf = S := by simp [MarkdownWriter.pump, hbuf0]
  have hW1buf : (flushLines (w0.pump S)).buf = tailSeg S := by
    rw [flushLines_buf (show (w0.pump S).output = okSink from hok0.2), hpump_buf]
  have hmbuf : m.buf ≠ [] := by
    intro h
    have hid : flushLines m = m := flushLines_of_no_newline (by simp [h])
    have hm : m = flushLines (w0.pump S) := by rw [← hfeq, hid]
    apply htne
    rw [← hW1buf, ← hm, h]
  have hfl : m.FlushLine = flushLines ((flushLines (w0.pump S)).pump ['\n']) := by
    rw [FlushLine_ok_nonempty hokm hmbuf]
    rw [← flushLines_pump hokm ['\n'], hfeq]
  have hWok : Ok (flushLines (w0.pump S)) := Ok_flushLines (Ok_pump hok0 S)
  have hb1 : ((flushLines (w0.pump S)).pump ['\n']).buf = tailSeg S ++ ['\n'] := by
    show (flushLines (w0.pump S)).buf ++ ['\n'] = tailSeg S ++ ['\n']
    rw [hW1buf]
  have hsingle := @flushLines_single_line ((flushLines (w0.pump S)).pump ['\n'])
    (tailSeg S) hWok.2 hb1 (tailSeg_no_newline S)
  rw [hfl, hsingle]
  obtain ⟨htr, htrne⟩ := trimRightSpace_append_right
    (a := pfxConcat ((flushLines (w0.pump S)).pump ['\n']).prefixes
      ((flushLines (w0.pump S)).pump ['\n']).line) (b := tailSeg S)
    (trim_ne_of_mem hS)
  have hTne : trimRightSpace
      (pfxConcat ((flushLines (w0.pump S)).pump ['\n']).prefixes
        ((flushLines (w0.pump S)).pump ['\n']).line ++ tailSeg S) ≠ [] := by
    rw [htr]
    intro hc
    exact htrne (List.append_eq_nil.mp hc).2
  obtain ⟨c, hc⟩ : ∃ c, (trimRightSpace
      (pfxConcat ((flushLines (w0.pump S)).pump ['\n']).prefixes
        ((flushLines (w0.pump S)).pump ['\n']).line ++ tailSeg S)).getLast? =
      some c := ⟨_, List.getLast?_eq_getLast _ hTne⟩
  have hcns : goIsSpace c = false := trimRightSpace_getLast hc
  refine ⟨⟨hWok.1, hWok.2⟩, rfl, ?_⟩
  obtain ⟨d0, hd0⟩ := flushLines_written (w0.pump S)
  have hwr : (w0.pump S).written = w0.written := rfl
  refine ⟨d0 ++ (trimRightSpace
    (pfxConcat ((flushLines (w0.pump S)).pump ['\n']).prefixes
      ((flushLines (w0.pump S)).pump ['\n']).line ++ tailSeg S) ++ ['\n']), ?_, ?_⟩
  · show (flushLines (w0.pump S)).written ++ _ = _
    rw [hd0, hwr]
    simp
  · exact goodTail_append d0 (goodTail_of_line hc hcns)

end FlushCalculus

section StreamModel

/-- The bytes the block separator's enter visit pushes through the writer:
one line end when the node has a previous sibling and blank previous lines. -/
def sepStream (hp bp : Bool) : Bytes := if hp && bp then ['\n'] else []

mutual
/-- The byte stream an inline node's complete visit (enter, children, exit)
pushes through the writer, read off the `Write`/`WriteString` calls of
`renderText`, `renderCodeSpan` and `renderLink` in visit order; `inCs` is the
context's code-span flag at the visit. -/
def inlineStream (inCs : Bool) : MNode → Bytes
  | .text content softBreak =>
    (if inCs then content.map (fun c => if c = '\n' then ' ' else c)
     else content) ++ (if softBreak then ['\n'] else [])
  | .codeSpan cs =>
    codeSpanFence (MNodes.nodeTextList cs) ++ inlineStreams true cs ++
      codeSpanFence (MNodes.nodeTextList cs)
  | .link dest title cs =>
    ['['] ++ inlineStreams inCs cs ++ (']' :: '(' :: dest) ++
      (if 0 < title.length then ' ' :: '"' :: (title ++ ['"']) else []) ++ [')']
  | _ => []

/-- The concatenated streams of a list of inline siblings. -/
def inlineStreams (inCs : Bool) : MNodes → Bytes
  | .nil => []
  | .cons c cs => inlineStream inCs c ++ inlineStreams inCs cs
end

mutual
/-- The inline shapes the goldmark parser produces inside a paragraph, a
heading or a link: text anywhere; code spans and links never nested inside a
code span (a code span's children are Text segments). -/
def wfInline (inCs : Bool) : MNode → Bool
  | .text _ _ => true
  | .codeSpan cs => !inCs && wfInlines true cs
  | .link _ _ cs => !inCs && wfInlines false cs
  | _ => false

/-- Every sibling is a well-formed inline. -/
def wfInlines (inCs : Bool) : MNodes → Bool
  | .nil => true
  | .cons c cs => wfInline inCs c && wfInlines inCs cs
end

/-- A source line without its optional terminating newline. -/
def chompNl (l : Bytes) : Bytes :=
  if l.getLast? = some '\n' then l.dropLast else l

/-- The byte stream's final line segment (after its last newline) is
non-blank: trailing-whitespace trimming leaves it non-empty.  This is what
makes the stream's last flushed line non-blank. -/
def streamTailOk (S : Bytes) : Bool :=
  decide (trimRightSpace (tailSeg S) ≠ [])

/-- A source line suitable as the last line a block hands to `WriteLine`:
after dropping the optional newline terminator, its final line segment is
non-blank (trailing whitespace is allowed — the writer trims it). -/
def lineOk (l : Bytes) : Bool :=
  streamTailOk (chompNl l)

mutual
/-- The block shapes the goldmark parser produces: headings have level ≥ 1
and inline children whose stream's last line is non-blank when non-empty;
paragraphs and text blocks have inline children whose stream's last line is
non-blank; code and HTML blocks end in a non-blank last line; lists and list
items are non-empty with block children.  These conditions carve out exactly
the documents whose final flushed line is non-blank; on a document violating
them (for instance a loose list ending in an empty item) the output can end
in a blank line, i.e. in two newlines. -/
def wfBlock : MNode → Bool
  | .heading _ lvl _ cs =>
    decide (1 ≤ lvl) &&
      (cs.isNil ||
        (wfInlines false cs && streamTailOk (inlineStreams false cs)))
  | .paragraph _ cs =>
    wfInlines false cs && streamTailOk (inlineStreams false cs)
  | .textBlock _ cs =>
    wfInlines false cs && streamTailOk (inlineStreams false cs)
  | .thematicBreak _ => true
  | .codeBlock _ srcLines =>
    (match srcLines.getLast? with
     | some l => lineOk l
     | none => false)
  | .fencedCodeBlock _ info _ =>
    (match info with
     | some i => decide ('\n' ∉ i)
     | none => true)
  | .htmlBlock _ srcLines closure =>
    (match closure with
     | some c => lineOk c
     | none =>
       match srcLines.getLast? with
       | some l => lineOk l
       | none => false)
  | .list _ _ cs => !cs.isNil && wfBlocks cs
  | .listItem _ cs => !cs.isNil && wfBlocks cs
  | _ => false

/-- Every sibling is a well-formed block. -/
def wfBlocks : MNodes → Bool
  | .nil => true
  | .cons c cs => wfBlock c && wfBlocks cs
end

end StreamModel

section StreamLemmas

theorem streamNonWsEnd_append {b : Bytes} (a : Bytes)
    (h : streamNonWsEnd b = true) : streamNonWsEnd (a ++ b) = true := by
  unfold streamNonWsEnd at h ⊢
  rcases hl : b.getLast? with _ | c
  · rw [hl] at h; cases h
  · have hb : b ≠ [] := by intro hb; subst hb; cases hl
    rw [getLast?_append_right hb, hl]
    rw [hl] at h
    exact h

theorem streamNonWsEnd_concat (a : Bytes) {c : Char}
    (h : goIsSpace c = false) : streamNonWsEnd (a ++ [c]) = true := by
  unfold streamNonWsEnd
  rw [List.getLast?_concat]
  simp [h]

theorem streamNonWsEnd_replicate {k : Nat} {c : Char} (hk : 1 ≤ k)
    (hc : goIsSpace c = false) :
    streamNonWsEnd (List.replicate k c) = true := by
  rcases k with _ | j
  · omega
  · rw [List.replicate_succ']
    exact streamNonWsEnd_concat _ hc

theorem tailSeg_append_newline (x : Bytes) : tailSeg (x ++ ['\n']) = [] := by
  simp [tailSeg, List.takeWhile]

theorem goodTail_shape {d : Bytes} (h : goodTail d) :
    ∃ e c, d = e ++ [c, '\n'] ∧ goIsSpace c = false := by
  unfold goodTail at h
  rcases hd : d.reverse with _ | ⟨x, t⟩
  · rw [hd] at h; cases h
  · rcases ht : t with _ | ⟨y, u⟩
    · rw [hd, ht] at h; cases h
    · rw [hd, ht] at h
      obtain ⟨hx, hy⟩ := h
      refine ⟨u.reverse, y, ?_, hy⟩
      have : d = (x :: y :: u).reverse := by
        rw [← ht, ← hd, List.reverse_reverse]
      rw [this, hx]
      simp

theorem streamTailOk_spec {S : Bytes} (h : streamTailOk S = true) :
    trimRightSpace (tailSeg S) ≠ [] := of_decide_eq_true h

/-- A stream ending in a literal non-whitespace byte has a non-blank final
line segment. -/
theorem nonWs_streamTailOk {S : Bytes} (h : streamNonWsEnd S = true) :
    streamTailOk S = true := by
  obtain ⟨c, hlast, hcs⟩ : ∃ c, S.getLast? = some c ∧ goIsSpace c = false := by
    unfold streamNonWsEnd at h
    rcases hl : S.getLast? with _ | c
    · rw [hl] at h; cases h
    · rw [hl] at h
      simp at h
      exact ⟨c, rfl, h⟩
  have hcnl : c ≠ '\n' := by
    intro hh
    rw [hh] at hcs
    exact absurd goIsSpace_newline (by simp [hcs])
  have htne : tailSeg S ≠ [] := tailSeg_ne_nil hlast hcnl
  have hlast2 : (tailSeg S).getLast? = some c := by
    rw [(tailSeg_getLast htne).2, hlast]
  have hid : trimRightSpace (tailSeg S) = tailSeg S :=
    trimRightSpace_of_getLast_nonspace hlast2 hcs
  refine decide_eq_true ?_
  rw [hid]
  exact htne

theorem tailSeg_append_of_mem {a b : Bytes} (h : '\n' ∈ b) :
    tailSeg (a ++ b) = tailSeg b := by
  obtain ⟨s, t, hst⟩ := List.append_of_mem
    (show '\n' ∈ b.reverse from by simpa using h)
  have h1 : (a ++ b).reverse = s ++ '\n' :: (t ++ a.reverse) := by
    rw [List.reverse_append, hst]
    simp
  have h2 : b.reverse = s ++ '\n' :: t := hst
  simp only [tailSeg, h1, h2]
  rw [takeWhile_append_stop (by simp) s (t ++ a.reverse),
    takeWhile_append_stop (by simp) s t]

theorem tailSeg_append_no_newline {a b : Bytes} (h : '\n' ∉ b) :
    tailSeg (a ++ b) = tailSeg a ++ b := by
  have hall : ∀ x ∈ b.reverse, (decide (x ≠ '\n')) = true := by
    intro x hx
    refine decide_eq_true ?_
    intro hh
    subst hh
    exact h (by simpa using hx)
  simp only [tailSeg, List.reverse_append]
  rw [takeWhile_append_pos hall a.reverse]
  simp

/-- A non-blank final line segment survives prepending any stream. -/
theorem streamTailOk_append (a : Bytes) {b : Bytes}
    (h : streamTailOk b = true) : streamTailOk (a ++ b) = true := by
  have hb := streamTailOk_spec h
  by_cases hnl : '\n' ∈ b
  · rw [streamTailOk, tailSeg_append_of_mem hnl]
    exact decide_eq_true hb
  · have htb : tailSeg b = b := tailSeg_of_no_newline hnl
    rw [streamTailOk, tailSeg_append_no_newline hnl]
    refine decide_eq_true ?_
    rw [htb] at hb
    obtain ⟨htr, htrne⟩ := trimRightSpace_append_right
      (a := tailSeg a) (b := b) (trim_ne_of_mem hb)
    rw [htr]
    intro hc
    exact htrne (List.append_eq_nil.mp hc).2

end StreamLemmas

section FlushEqCalculus

/-- `a` is the writer `w` after pushing the byte stream `S`, up to flush
timing: error-free, and flushing it fully agrees with buffering `S` onto `w`
and flushing fully. -/
def FlushEq (w : MarkdownWriter) (S : Bytes) (a : MarkdownWriter) : Prop :=
  Ok a ∧ flushLines a = flushLines (w.pump S)

theorem FlushEq_start {w : MarkdownWriter} (hok : Ok w) : FlushEq w [] w :=
  ⟨hok, by rw [pump_nil]⟩

theorem FlushEq_prefixes {w a : MarkdownWriter} {S : Bytes}
    (h : FlushEq w S a) : a.prefixes = w.prefixes := by
  have h1 : (flushLines a).prefixes = a.prefixes := flushLines_prefixes a
  have h2 : (flushLines (w.pump S)).prefixes = w.prefixes :=
    flushLines_prefixes _
  rw [← h1, h.2, h2]

theorem FlushEq_pump {w a : MarkdownWriter} {S : Bytes} (hok : Ok w)
    (h : FlushEq w S a) (d : Bytes) : FlushEq w (S ++ d) (a.pump d) := by
  refine ⟨Ok_pump h.1 d, ?_⟩
  rw [← pump_pump]
  calc flushLines (a.pump d) = flushLines ((flushLines a).pump d) :=
        (flushLines_pump h.1 d).symm
    _ = flushLines ((flushLines (w.pump S)).pump d) := by rw [h.2]
    _ = flushLines ((w.pump S).pump d) := flushLines_pump (Ok_pump hok S) d

theorem FlushEq_WriteString {w a : MarkdownWriter} {S : Bytes} (hok : Ok w)
    (h : FlushEq w S a) (d : Bytes) : FlushEq w (S ++ d) (a.WriteString d).1 := by
  rw [WriteString_ok h.1]
  exact FlushEq_pump hok h d

theorem FlushEq_Write {w a : MarkdownWriter} {S : Bytes} (hok : Ok w)
    (h : FlushEq w S a) (d : Bytes) : FlushEq w (S ++ d) (a.Write d).1 := by
  rw [Write_ok h.1]
  have hp := FlushEq_pump hok h d
  exact ⟨Ok_flushLines hp.1, by rw [flushLines_idem hp.1]; exact hp.2⟩

theorem FlushEq_EndLine {w a : MarkdownWriter} {S : Bytes} (hok : Ok w)
    (h : FlushEq w S a) : FlushEq w (S ++ ['\n']) a.EndLine := by
  rw [EndLine_ok h.1]
  have hp := FlushEq_pump hok h ['\n']
  exact ⟨Ok_flushLines hp.1, by rw [flushLines_idem hp.1]; exact hp.2⟩

theorem FlushEq_append {w a b : MarkdownWriter} {S T : Bytes} (hok : Ok w)
    (h1 : FlushEq w S a) (h2 : FlushEq a T b) : FlushEq w (S ++ T) b := by
  refine ⟨h2.1, ?_⟩
  rw [h2.2]
  have hp := FlushEq_pump hok h1 T
  exact hp.2

end FlushEqCalculus

section CleanSteps

/-- The outcome of a clean writer step: still error-free with an empty line
buffer, prefixes restored, output extended by some delta. -/
def CleanOut (w w' : MarkdownWriter) : Prop :=
  Ok w' ∧ w'.buf = [] ∧ w'.prefixes = w.prefixes ∧
    ∃ d, w'.written = w.written ++ d

/-- The outcome of a complete block visit: a clean step whose output delta
ends in exactly one newline preceded by a non-whitespace byte. -/
def BlockOut (w w' : MarkdownWriter) : Prop :=
  Ok w' ∧ w'.buf = [] ∧ w'.prefixes = w.prefixes ∧
    ∃ d, w'.written = w.written ++ d ∧ goodTail d

theorem CleanOut_refl {w : MarkdownWriter} (hok : Ok w) (hbuf : w.buf = []) :
    CleanOut w w := ⟨hok, hbuf, rfl, [], by simp⟩

theorem CleanOut_trans {w a b : MarkdownWriter} (h1 : CleanOut w a)
    (h2 : CleanOut a b) : CleanOut w b := by
  obtain ⟨ho1, hb1, hp1, d1, hw1⟩ := h1
  obtain ⟨ho2, hb2, hp2, d2, hw2⟩ := h2
  exact ⟨ho2, hb2, hp2.trans hp1, d1 ++ d2, by rw [hw2, hw1, List.append_assoc]⟩

theorem CleanOut_BlockOut {w a b : MarkdownWriter} (h1 : CleanOut w a)
    (h2 : BlockOut a b) : BlockOut w b := by
  obtain ⟨ho1, hb1, hp1, d1, hw1⟩ := h1
  obtain ⟨ho2, hb2, hp2, d2, hw2, hg2⟩ := h2
  exact ⟨ho2, hb2, hp2.trans hp1, d1 ++ d2,
    by rw [hw2, hw1, List.append_assoc], goodTail_append d1 hg2⟩

theorem BlockOut_CleanOut {w a : MarkdownWriter} (h : BlockOut w a) :
    CleanOut w a := by
  obtain ⟨h1, h2, h3, d, h4, h5⟩ := h
  exact ⟨h1, h2, h3, d, h4⟩

theorem BlockOut_trans {w a b : MarkdownWriter} (h1 : BlockOut w a)
    (h2 : BlockOut a b) : BlockOut w b :=
  CleanOut_BlockOut (BlockOut_CleanOut h1) h2

theorem pumpFlush_clean {w : MarkdownWriter} (hok : Ok w) (S : Bytes) :
    Ok (flushLines (w.pump S)) ∧
    (flushLines (w.pump S)).prefixes = w.prefixes ∧
    ∃ d, (flushLines (w.pump S)).written = w.written ++ d := by
  refine ⟨Ok_flushLines (Ok_pump hok S), ?_, ?_⟩
  · rw [flushLines_prefixes]; rfl
  · exact flushLines_written (w.pump S)

theorem EndLine_clean {w : MarkdownWriter} (hok : Ok w) :
    CleanOut w w.EndLine := by
  rw [EndLine_ok hok]
  obtain ⟨h1, h2, h3⟩ := pumpFlush_clean hok ['\n']
  refine ⟨h1, ?_, h2, h3⟩
  rw [flushLines_buf (show (w.pump ['\n']).output = okSink from hok.2)]
  exact tailSeg_append_newline w.buf

theorem WriteLine_eval {w : MarkdownWriter} (hok : Ok w) (l : Bytes) :
    (w.WriteLine l).1 = (flushLines (w.pump l)).FlushLine := by
  simp only [MarkdownWriter.WriteLine, Write_ok hok]

theorem WriteLine_clean {w : MarkdownWriter} (hok : Ok w) (l : Bytes) :
    CleanOut w (w.WriteLine l).1 := by
  rw [WriteLine_eval hok]
  obtain ⟨h1, h2, h3⟩ := pumpFlush_clean hok l
  by_cases hb : (flushLines (w.pump l)).buf = []
  · rw [FlushLine_empty hb]
    exact ⟨h1, hb, h2, h3⟩
  · rw [FlushLine_ok_nonempty h1 hb]
    obtain ⟨g1, g2, g3⟩ := pumpFlush_clean h1 ['\n']
    refine ⟨g1, ?_, g2.trans h2, ?_⟩
    · rw [flushLines_buf (show ((flushLines (w.pump l)).pump ['\n']).output =
          okSink from h1.2)]
      exact tailSeg_append_newline _
    · obtain ⟨d1, hd1⟩ := h3
      obtain ⟨d2, hd2⟩ := g3
      exact ⟨d1 ++ d2, by rw [hd2, hd1, List.append_assoc]⟩

theorem getLast?_decomp {α : Type} {xs : List α} {a : α}
    (h : xs.getLast? = some a) : xs = xs.dropLast ++ [a] := by
  have hne : xs ≠ [] := by intro hx; subst hx; cases h
  have hg : xs.getLast hne = a := by
    have := List.getLast?_eq_getLast xs hne
    rw [h] at this
    exact (Option.some.injEq _ _).mp this.symm
  rw [← hg]
  exact (List.dropLast_append_getLast hne).symm

theorem WriteLine_good {w : MarkdownWriter} (hok : Ok w) (hbuf : w.buf = [])
    {l : Bytes} (hl : lineOk l = true) : BlockOut w (w.WriteLine l).1 := by
  rw [WriteLine_eval hok]
  unfold lineOk chompNl at hl
  by_cases hend : l.getLast? = some '\n'
  · rw [if_pos hend] at hl
    have hS : trimRightSpace (tailSeg l.dropLast) ≠ [] := streamTailOk_spec hl
    have hdec : l = l.dropLast ++ ['\n'] := getLast?_decomp hend
    have hokc : Ok (w.pump l.dropLast) := Ok_pump hok _
    have hokm : Ok (flushLines (w.pump l.dropLast)) := Ok_flushLines hokc
    have hbufm : (flushLines (w.pump l.dropLast)).buf = tailSeg l.dropLast := by
      rw [flushLines_buf (show (w.pump l.dropLast).output = okSink from hok.2)]
      simp [MarkdownWriter.pump, hbuf]
    have htne : tailSeg l.dropLast ≠ [] := by
      intro h
      rw [h] at hS
      exact hS rfl
    have hbne : (flushLines (w.pump l.dropLast)).buf ≠ [] := by
      rw [hbufm]; exact htne
    have hfl : (flushLines (w.pump l.dropLast)).FlushLine =
        flushLines (w.pump l) := by
      rw [FlushLine_ok_nonempty hokm hbne, flushLines_pump hokc, pump_pump,
        ← hdec]
    obtain ⟨b1, b2, b3⟩ := block_finish hok hbuf hokm
      (flushLines_idem hokc) hS
    rw [hfl] at b1 b2 b3
    have hbufl : (flushLines (w.pump l)).buf = [] := b2
    rw [FlushLine_empty hbufl]
    refine ⟨b1, b2, ?_, b3⟩
    rw [flushLines_prefixes]; rfl
  · rw [if_neg hend] at hl
    have hS : trimRightSpace (tailSeg l) ≠ [] := streamTailOk_spec hl
    have hokc : Ok (w.pump l) := Ok_pump hok _
    have hokm : Ok (flushLines (w.pump l)) := Ok_flushLines hokc
    obtain ⟨b1, b2, b3⟩ := block_finish hok hbuf hokm (flushLines_idem hokc) hS
    refine ⟨b1, b2, ?_, b3⟩
    have hp1 : (flushLines (w.pump l)).FlushLine.prefixes =
        (flushLines (w.pump l)).prefixes := FlushLine_prefixes _
    rw [hp1, flushLines_prefixes]; rfl

theorem renderLinesW_clean {w : MarkdownWriter} (hok : Ok w)
    (hbuf : w.buf = []) (ls : List Bytes) : CleanOut w (renderLinesW w ls) := by
  induction ls generalizing w with
  | nil => exact CleanOut_refl hok hbuf
  | cons l ls ih =>
    have hstep : renderLinesW w (l :: ls) =
        renderLinesW (w.WriteLine l).1 ls := rfl
    rw [hstep]
    have h1 := WriteLine_clean hok l
    exact CleanOut_trans h1 (ih h1.1 h1.2.1)

theorem renderLinesW_last {w : MarkdownWriter} (hok : Ok w)
    (hbuf : w.buf = []) (ls : List Bytes) {l : Bytes} (hl : lineOk l = true) :
    BlockOut w (renderLinesW w (ls ++ [l])) := by
  have hstep : renderLinesW w (ls ++ [l]) =
      ((renderLinesW w ls).WriteLine l).1 := by
    simp [renderLinesW, List.foldl_append]
  rw [hstep]
  have h1 := renderLinesW_clean hok hbuf ls
  exact CleanOut_BlockOut h1 (WriteLine_good h1.1 h1.2.1 hl)

theorem sepEnter_flush (hp bp : Bool) (rc : RenderContext)
    (hok : Ok rc.writer) :
    ∃ w1, renderBlockSeparator hp bp true rc =
        ({ rc with writer := w1 }, WalkStatus.cont) ∧
      FlushEq rc.writer (sepStream hp bp) w1 := by
  by_cases h : (hp && bp) = true
  · refine ⟨rc.writer.EndLine, by simp [renderBlockSeparator, h], ?_⟩
    have he := FlushEq_EndLine hok (FlushEq_start hok)
    rw [sepStream, if_pos h]
    simpa using he
  · refine ⟨rc.writer, by simp [renderBlockSeparator, h], ?_⟩
    rw [sepStream, if_neg h]
    exact FlushEq_start hok

theorem sepEnter_clean (hp bp : Bool) (rc : RenderContext)
    (hok : Ok rc.writer) (hbuf : rc.writer.buf = []) :
    ∃ w1, renderBlockSeparator hp bp true rc =
        ({ rc with writer := w1 }, WalkStatus.cont) ∧
      CleanOut rc.writer w1 := by
  by_cases h : (hp && bp) = true
  · exact ⟨rc.writer.EndLine, by simp [renderBlockSeparator, h],
      EndLine_clean hok⟩
  · exact ⟨rc.writer, by simp [renderBlockSeparator, h],
      CleanOut_refl hok hbuf⟩

theorem stream_block_finish {w m : MarkdownWriter} {S : Bytes} (hok : Ok w)
    (hbuf : w.buf = []) (hfe : FlushEq w S m)
    (hS : streamTailOk S = true) : BlockOut w m.FlushLine := by
  obtain ⟨h1, h2, h3⟩ := block_finish hok hbuf hfe.1 hfe.2 (streamTailOk_spec hS)
  refine ⟨h1, h2, ?_, h3⟩
  have hp1 : m.FlushLine.prefixes = m.prefixes := FlushLine_prefixes m
  rw [hp1]
  exact FlushEq_prefixes hfe

end CleanSteps

section WalkRunners

theorem visitAborts_none {x : RenderContext} {s : WalkStatus}
    (he : x.writer.err = none) (hs : s ≠ WalkStatus.stop) :
    ¬visitAborts (x, s) := by
  intro h
  rcases h with h | h
  · have h2 : x.writer.err.isSome = true := h
    rw [he] at h2
    cases h2
  · exact hs h

/-- Evaluation of the walk skeleton when nothing aborts and the children are
visited. -/
theorem walkBody_run {fs : List NodeRenderer}
    {kids : RenderContext → RenderContext × WalkStatus}
    {rc rc1 rc2 rc3 : RenderContext} {s1 s3 : WalkStatus}
    (henter : chainRun fs true rc = (rc1, s1))
    (he1 : rc1.writer.err = none) (hs1 : s1 ≠ WalkStatus.stop)
    (hskip : s1 ≠ WalkStatus.skipChildren)
    (hkids : kids rc1 = (rc2, WalkStatus.cont))
    (hexit : chainRun fs false rc2 = (rc3, s3))
    (he3 : rc3.writer.err = none) (hs3 : s3 ≠ WalkStatus.stop) :
    walkBody fs kids rc = (rc3, WalkStatus.cont) := by
  have hva1 : ¬visitAborts (rc1, s1) := visitAborts_none he1 hs1
  have hva3 : ¬visitAborts (rc3, s3) := visitAborts_none he3 hs3
  simp only [walkBody, henter]
  rw [if_neg hva1]
  have hm : (if s1 = WalkStatus.skipChildren then (rc1, WalkStatus.cont)
      else kids rc1) = (rc2, WalkStatus.cont) := by rw [if_neg hskip, hkids]
  rw [show (if ((rc1, s1) : RenderContext × WalkStatus).2 =
      WalkStatus.skipChildren then
        (((rc1, s1) : RenderContext × WalkStatus).1, WalkStatus.cont)
      else kids ((rc1, s1) : RenderContext × WalkStatus).1) =
      (rc2, WalkStatus.cont) from hm]
  rw [if_neg (show ¬(((rc2, WalkStatus.cont) :
      RenderContext × WalkStatus).2 = WalkStatus.stop) from by simp)]
  rw [show chainRun fs false ((rc2, WalkStatus.cont) :
      RenderContext × WalkStatus).1 = (rc3, s3) from hexit]
  rw [if_neg hva3]

/-- Evaluation of the walk skeleton when the enter chain skips the
children. -/
theorem walkBody_run_skip {fs : List NodeRenderer}
    {kids : RenderContext → RenderContext × WalkStatus}
    {rc rc1 rc3 : RenderContext} {s3 : WalkStatus}
    (henter : chainRun fs true rc = (rc1, WalkStatus.skipChildren))
    (he1 : rc1.writer.err = none)
    (hexit : chainRun fs false rc1 = (rc3, s3))
    (he3 : rc3.writer.err = none) (hs3 : s3 ≠ WalkStatus.stop) :
    walkBody fs kids rc = (rc3, WalkStatus.cont) := by
  have hva1 : ¬visitAborts (rc1, WalkStatus.skipChildren) :=
    visitAborts_none he1 (by simp)
  have hva3 : ¬visitAborts (rc3, s3) := visitAborts_none he3 hs3
  simp only [walkBody, henter]
  rw [if_neg hva1]
  simp only [if_true]
  rw [if_neg (show ¬(((rc1, WalkStatus.cont) :
      RenderContext × WalkStatus).2 = WalkStatus.stop) from by simp)]
  rw [show chainRun fs false ((rc1, WalkStatus.cont) :
      RenderContext × WalkStatus).1 = (rc3, s3) from hexit]
  rw [if_neg hva3]

end WalkRunners

section InlineWalk

theorem wfInlines_cons {i : Bool} {c : MNode} {cs : MNodes}
    (h : wfInlines i (MNodes.cons c cs) = true) :
    wfInline i c = true ∧ wfInlines i cs = true := by
  simpa [wfInlines, Bool.and_eq_true] using h

mutual
/-- A complete inline visit never stops, leaves the context fields unchanged,
and changes the writer exactly as pushing the node's inline byte stream, up
to flush timing. -/
theorem walkNode_inline (cfg : Config) (rc : RenderContext) (hp : Bool)
    (n : MNode) (hok : Ok rc.writer)
    (hwf : wfInline rc.inCodeSpan n = true) :
    ∃ w', walkNode cfg rc hp n = ({ rc with writer := w' }, WalkStatus.cont) ∧
      FlushEq rc.writer (inlineStream rc.inCodeSpan n) w' := by
  cases n with
  | text content softBreak =>
    rw [walkNode_eq_text]
    cases softBreak with
    | false =>
      have hfe := FlushEq_Write hok (FlushEq_start hok)
        (if rc.inCodeSpan then
          content.map (fun c => if c = '\n' then ' ' else c) else content)
      rw [List.nil_append] at hfe
      refine ⟨(rc.writer.Write (if rc.inCodeSpan then
          content.map (fun c => if c = '\n' then ' ' else c)
        else content)).1, ?_, ?_⟩
      · have hen : chainRun (getRenderer cfg hp (MNode.text content false))
            true rc =
            ({ rc with writer := (rc.writer.Write (if rc.inCodeSpan then
                content.map (fun c => if c = '\n' then ' ' else c)
              else content)).1 }, WalkStatus.cont) := by
          rw [show getRenderer cfg hp (MNode.text content false) =
            [renderText content false] from rfl, chainRun_single]
          rfl
        have hex : chainRun (getRenderer cfg hp (MNode.text content false))
            false ({ rc with writer := (rc.writer.Write (if rc.inCodeSpan then
                content.map (fun c => if c = '\n' then ' ' else c)
              else content)).1 }) =
            ({ rc with writer := (rc.writer.Write (if rc.inCodeSpan then
                content.map (fun c => if c = '\n' then ' ' else c)
              else content)).1 }, WalkStatus.cont) := by
          rw [show getRenderer cfg hp (MNode.text content false) =
            [renderText content false] from rfl, chainRun_single]
          rfl
        exact walkBody_run hen hfe.1.1 (by simp) (by simp) rfl hex hfe.1.1
          (by simp)
      · simpa [inlineStream] using hfe
    | true =>
      have hfe1 := FlushEq_Write hok (FlushEq_start hok)
        (if rc.inCodeSpan then
          content.map (fun c => if c = '\n' then ' ' else c) else content)
      rw [List.nil_append] at hfe1
      have hfe := FlushEq_WriteString hok hfe1 ['\n']
      refine ⟨((rc.writer.Write (if rc.inCodeSpan then
          content.map (fun c => if c = '\n' then ' ' else c)
        else content)).1.WriteString ['\n']).1, ?_, ?_⟩
      · have hen : chainRun (getRenderer cfg hp (MNode.text content true))
            true rc =
            ({ rc with writer := ((rc.writer.Write (if rc.inCodeSpan then
                content.map (fun c => if c = '\n' then ' ' else c)
              else content)).1.WriteString ['\n']).1 }, WalkStatus.cont) := by
          rw [show getRenderer cfg hp (MNode.text content true) =
            [renderText content true] from rfl, chainRun_single]
          rfl
        have hex : chainRun (getRenderer cfg hp (MNode.text content true))
            false ({ rc with writer := ((rc.writer.Write (if rc.inCodeSpan then
                content.map (fun c => if c = '\n' then ' ' else c)
              else content)).1.WriteString ['\n']).1 }) =
            ({ rc with writer := ((rc.writer.Write (if rc.inCodeSpan then
                content.map (fun c => if c = '\n' then ' ' else c)
              else content)).1.WriteString ['\n']).1 }, WalkStatus.cont) := by
          rw [show getRenderer cfg hp (MNode.text content true) =
            [renderText content true] from rfl, chainRun_single]
          rfl
        exact walkBody_run hen hfe.1.1 (by simp) (by simp) rfl hex hfe.1.1
          (by simp)
      · simpa [inlineStream] using hfe
  | codeSpan cs =>
    obtain ⟨w0, mk0, ic0⟩ := rc
    simp only [wfInline, Bool.and_eq_true, Bool.not_eq_true'] at hwf
    obtain ⟨hic, hwf2⟩ := hwf
    subst hic
    rw [walkNode_eq_codeSpan]
    have hok0 : Ok w0 := hok
    have hfe1 := FlushEq_WriteString hok0 (FlushEq_start hok0)
      (codeSpanFence ((MNode.codeSpan cs).nodeText))
    rw [List.nil_append] at hfe1
    obtain ⟨w2, hmid, hfe2⟩ := walkNodes_inline cfg
      ⟨(w0.WriteString (codeSpanFence ((MNode.codeSpan cs).nodeText))).1,
        mk0, true⟩ false cs hfe1.1 hwf2
    have hmid' : walkNodes cfg
        ⟨(w0.WriteString (codeSpanFence ((MNode.codeSpan cs).nodeText))).1,
          mk0, true⟩ false cs = (⟨w2, mk0, true⟩, WalkStatus.cont) := hmid
    have hfeA := FlushEq_append hok0 hfe1 hfe2
    have hfe3 := FlushEq_WriteString hok0 hfeA
      (codeSpanFence ((MNode.codeSpan cs).nodeText))
    refine ⟨(w2.WriteString
      (codeSpanFence ((MNode.codeSpan cs).nodeText))).1, ?_, ?_⟩
    · have hen : chainRun (getRenderer cfg hp (MNode.codeSpan cs)) true
          ⟨w0, mk0, false⟩ =
          (⟨(w0.WriteString
              (codeSpanFence ((MNode.codeSpan cs).nodeText))).1, mk0, true⟩,
            WalkStatus.cont) := by
        rw [show getRenderer cfg hp (MNode.codeSpan cs) =
          [renderCodeSpan ((MNode.codeSpan cs).nodeText)] from rfl,
          chainRun_single]
        rfl
      have hex : chainRun (getRenderer cfg hp (MNode.codeSpan cs)) false
          (⟨w2, mk0, true⟩ : RenderContext) =
          (⟨(w2.WriteString
              (codeSpanFence ((MNode.codeSpan cs).nodeText))).1, mk0, false⟩,
            WalkStatus.cont) := by
        rw [show getRenderer cfg hp (MNode.codeSpan cs) =
          [renderCodeSpan ((MNode.codeSpan cs).nodeText)] from rfl,
          chainRun_single]
        rfl
      exact walkBody_run hen hfe1.1.1 (by simp) (by simp) hmid' hex
        hfe3.1.1 (by simp)
    · exact hfe3
  | link dest title cs =>
    obtain ⟨w0, mk0, ic0⟩ := rc
    simp only [wfInline, Bool.and_eq_true, Bool.not_eq_true'] at hwf
    obtain ⟨hic, hwf2⟩ := hwf
    subst hic
    rw [walkNode_eq_link]
    have hok0 : Ok w0 := hok
    have hfe1 := FlushEq_Write hok0 (FlushEq_start hok0) ['[']
    rw [List.nil_append] at hfe1
    obtain ⟨w2, hmid, hfe2⟩ := walkNodes_inline cfg
      ⟨(w0.Write ['[']).1, mk0, false⟩ false cs hfe1.1 hwf2
    have hmid' : walkNodes cfg ⟨(w0.Write ['[']).1, mk0, false⟩ false cs =
        (⟨w2, mk0, false⟩, WalkStatus.cont) := hmid
    have hfeA := FlushEq_append hok0 hfe1 hfe2
    have hfe3 := FlushEq_WriteString hok0 hfeA (']' :: '(' :: dest)
    have hen : chainRun (getRenderer cfg hp (MNode.link dest title cs)) true
        ⟨w0, mk0, false⟩ =
        (⟨(w0.Write ['[']).1, mk0, false⟩, WalkStatus.cont) := by
      rw [show getRenderer cfg hp (MNode.link dest title cs) =
        [renderLink dest title] from rfl, chainRun_single]
      rfl
    by_cases ht : 0 < title.length
    · have hfe4 := FlushEq_WriteString hok0 hfe3
        (' ' :: '"' :: (title ++ ['"']))
      have hfe5 := FlushEq_WriteString hok0 hfe4 [')']
      refine ⟨((((w2.WriteString (']' :: '(' :: dest)).1.WriteString
          (' ' :: '"' :: (title ++ ['"']))).1).WriteString [')']).1, ?_, ?_⟩
      · have hex : chainRun (getRenderer cfg hp (MNode.link dest title cs))
            false (⟨w2, mk0, false⟩ : RenderContext) =
            (⟨((((w2.WriteString (']' :: '(' :: dest)).1.WriteString
                (' ' :: '"' :: (title ++ ['"']))).1).WriteString [')']).1,
              mk0, false⟩, WalkStatus.cont) := by
          rw [show getRenderer cfg hp (MNode.link dest title cs) =
            [renderLink dest title] from rfl, chainRun_single]
          simp only [renderLink, if_neg (by simp : ¬(false = true)),
            if_pos ht]
        exact walkBody_run hen hfe1.1.1 (by simp) (by simp) hmid' hex
          hfe5.1.1 (by simp)
      · simp only [inlineStream, if_pos ht]
        exact hfe5
    · have hfe5 := FlushEq_WriteString hok0 hfe3 [')']
      refine ⟨((w2.WriteString (']' :: '(' :: dest)).1.WriteString [')']).1,
        ?_, ?_⟩
      · have hex : chainRun (getRenderer cfg hp (MNode.link dest title cs))
            false (⟨w2, mk0, false⟩ : RenderContext) =
            (⟨((w2.WriteString (']' :: '(' :: dest)).1.WriteString [')']).1,
              mk0, false⟩, WalkStatus.cont) := by
          rw [show getRenderer cfg hp (MNode.link dest title cs) =
            [renderLink dest title] from rfl, chainRun_single]
          simp only [renderLink, if_neg (by simp : ¬(false = true)),
            if_neg ht]
        exact walkBody_run hen hfe1.1.1 (by simp) (by simp) hmid' hex
          hfe5.1.1 (by simp)
      · simp only [inlineStream, if_neg ht]
        simpa using hfe5
  | document bp cs => simp [wfInline] at hwf
  | heading bp lvl srcLines cs => simp [wfInline] at hwf
  | paragraph bp cs => simp [wfInline] at hwf
  | textBlock bp cs => simp [wfInline] at hwf
  | thematicBreak bp => simp [wfInline] at hwf
  | codeBlock bp srcLines => simp [wfInline] at hwf
  | fencedCodeBlock bp info srcLines => simp [wfInline] at hwf
  | htmlBlock bp srcLines closure => simp [wfInline] at hwf
  | list bp marker cs => simp [wfInline] at hwf
  | listItem bp cs => simp [wfInline] at hwf
termination_by sizeOf n

/-- The visit of a list of inline siblings, as `walkNode_inline` composed. -/
theorem walkNodes_inline (cfg : Config) (rc : RenderContext) (hp : Bool)
    (cs : MNodes) (hok : Ok rc.writer)
    (hwf : wfInlines rc.inCodeSpan cs = true) :
    ∃ w', walkNodes cfg rc hp cs =
        ({ rc with writer := w' }, WalkStatus.cont) ∧
      FlushEq rc.writer (inlineStreams rc.inCodeSpan cs) w' := by
  cases cs with
  | nil =>
    refine ⟨rc.writer, ?_, FlushEq_start hok⟩
    rfl
  | cons c rest =>
    obtain ⟨hwfc, hwfr⟩ := wfInlines_cons hwf
    obtain ⟨w1, h1, hf1⟩ := walkNode_inline cfg rc hp c hok hwfc
    obtain ⟨w2, h2, hf2⟩ := walkNodes_inline cfg ({ rc with writer := w1 })
      true rest hf1.1 hwfr
    refine ⟨w2, ?_, ?_⟩
    · simp only [walkNodes, h1]
      rw [if_neg (show ¬((({ rc with writer := w1 }, WalkStatus.cont) :
        RenderContext × WalkStatus).2 = WalkStatus.stop) from by simp)]
      exact h2
    · exact FlushEq_append hok hf1 hf2
termination_by sizeOf cs
end

end InlineWalk

section BlockHelpers

/-- `renderBlockSeparator`'s exit visit always flushes the pending line. -/
theorem sepExit_eval (hp bp : Bool) (y : RenderContext) :
    renderBlockSeparator hp bp false y =
      ({ y with writer := y.writer.FlushLine }, WalkStatus.cont) := rfl

/-- A block visit whose children are inline and whose enter/exit chains write
pure byte streams `A`/`B` around them, ending in the separator's exit flush:
it completes and is a `BlockOut` when the total stream ends non-blank. -/
theorem streamBlock_run (cfg : Config) (fs : List NodeRenderer) (A B : Bytes)
    (w : MarkdownWriter) (mk : Char) (cs : MNodes)
    (hok : Ok w) (hbuf : w.buf = []) (hwf : wfInlines false cs = true)
    (henter : ∀ x : RenderContext, Ok x.writer →
      ∃ wa, chainRun fs true x = ({ x with writer := wa }, WalkStatus.cont) ∧
        FlushEq x.writer A wa)
    (hexit : ∀ x : RenderContext, Ok x.writer →
      ∃ wb, chainRun fs false x =
          ({ x with writer := wb.FlushLine }, WalkStatus.cont) ∧
        FlushEq x.writer B wb)
    (hS : streamTailOk (A ++ inlineStreams false cs ++ B) = true) :
    ∃ w', walkBody fs (fun x => walkNodes cfg x false cs)
        (⟨w, mk, false⟩ : RenderContext) =
      ((⟨w', mk, false⟩ : RenderContext), WalkStatus.cont) ∧ BlockOut w w' := by
  obtain ⟨wa, hen, hfa⟩ := henter ⟨w, mk, false⟩ hok
  obtain ⟨wm, hkids, hfm⟩ := walkNodes_inline cfg ⟨wa, mk, false⟩ false cs
    hfa.1 hwf
  have hkids' : walkNodes cfg (⟨wa, mk, false⟩ : RenderContext) false cs =
      ((⟨wm, mk, false⟩ : RenderContext), WalkStatus.cont) := hkids
  obtain ⟨wb, hex, hfb⟩ := hexit ⟨wm, mk, false⟩ hfm.1
  have hex' : chainRun fs false (⟨wm, mk, false⟩ : RenderContext) =
      ((⟨wb.FlushLine, mk, false⟩ : RenderContext), WalkStatus.cont) := hex
  have hen' : chainRun fs true (⟨w, mk, false⟩ : RenderContext) =
      ((⟨wa, mk, false⟩ : RenderContext), WalkStatus.cont) := hen
  have hfeS : FlushEq w (A ++ inlineStreams false cs ++ B) wb :=
    FlushEq_append hok (FlushEq_append hok hfa hfm) hfb
  have hbb : BlockOut w wb.FlushLine := stream_block_finish hok hbuf hfeS hS
  refine ⟨wb.FlushLine, ?_, hbb⟩
  exact walkBody_run hen' hfa.1.1 (by simp) (by simp) hkids' hex'
    hbb.1.1 (by simp)

/-- `renderATXHeading`'s enter writes. -/
theorem atxEnter_flush (cfg : Config) (lvl : Nat) (hc : Bool)
    (x : RenderContext) (hok : Ok x.writer) :
    ∃ wa, renderATXHeading cfg lvl hc true x =
        ({ x with writer := wa }, WalkStatus.cont) ∧
      FlushEq x.writer (List.replicate lvl '#' ++
        (if hc then [' '] else [])) wa := by
  cases hc with
  | false =>
    have h1 := FlushEq_Write hok (FlushEq_start hok) (List.replicate lvl '#')
    rw [List.nil_append] at h1
    refine ⟨(x.writer.Write (List.replicate lvl '#')).1, rfl, ?_⟩
    simpa using h1
  | true =>
    have h1 := FlushEq_Write hok (FlushEq_start hok) (List.replicate lvl '#')
    rw [List.nil_append] at h1
    have h2 := FlushEq_Write hok h1 [' ']
    refine ⟨((x.writer.Write (List.replicate lvl '#')).1.Write [' ']).1,
      rfl, h2⟩

/-- `renderATXHeading`'s exit writes. -/
theorem atxExit_flush (cfg : Config) (lvl : Nat) (hc : Bool)
    (x : RenderContext) (hok : Ok x.writer) :
    ∃ wb, renderATXHeading cfg lvl hc false x =
        ({ x with writer := wb }, WalkStatus.cont) ∧
      FlushEq x.writer (if cfg.headingStyle = HeadingStyle.atxSurround then
        ' ' :: List.replicate lvl '#' else []) wb := by
  have hshape : renderATXHeading cfg lvl hc false x =
      (if cfg.headingStyle = HeadingStyle.atxSurround then
        ({ x with writer := ((x.writer.Write [' ']).1.WriteString
          (List.replicate lvl '#')).1 }, WalkStatus.cont)
      else (x, WalkStatus.cont)) := rfl
  by_cases hs : cfg.headingStyle = HeadingStyle.atxSurround
  · have h1 := FlushEq_Write hok (FlushEq_start hok) [' ']
    rw [List.nil_append] at h1
    have h2 := FlushEq_WriteString hok h1 (List.replicate lvl '#')
    refine ⟨((x.writer.Write [' ']).1.WriteString
      (List.replicate lvl '#')).1, ?_, ?_⟩
    · rw [hshape, if_pos hs]
    · rw [if_pos hs]
      exact h2
  · refine ⟨x.writer, ?_, ?_⟩
    · rw [hshape, if_neg hs]
    · rw [if_neg hs]
      exact FlushEq_start hok

/-- The underline width `renderSetextHeading` uses. -/
def setextWidth (cfg : Config) (srcLines : List Bytes) : Nat :=
  if cfg.headingStyle = HeadingStyle.fullWidthSetext then
    srcLines.foldl (fun w l => if l.length > w then l.length else w) 3
  else 3

theorem foldl_width_ge (ls : List Bytes) (a : Nat) :
    a ≤ ls.foldl (fun w l => if l.length > w then l.length else w) a := by
  induction ls generalizing a with
  | nil => simp
  | cons l ls ih =>
    simp only [List.foldl_cons]
    refine le_trans ?_ (ih (if l.length > a then l.length else a))
    by_cases h : l.length > a
    · rw [if_pos h]; omega
    · rw [if_neg h]

theorem setextWidth_ge (cfg : Config) (srcLines : List Bytes) :
    3 ≤ setextWidth cfg srcLines := by
  unfold setextWidth
  by_cases h : cfg.headingStyle = HeadingStyle.fullWidthSetext
  · rw [if_pos h]
    exact foldl_width_ge srcLines 3
  · rw [if_neg h]

/-- `renderSetextHeading`'s enter writes nothing. -/
theorem setextEnter_flush (cfg : Config) (lvl : Nat) (srcLines : List Bytes)
    (x : RenderContext) (hok : Ok x.writer) :
    ∃ wa, renderSetextHeading cfg lvl srcLines true x =
        ({ x with writer := wa }, WalkStatus.cont) ∧
      FlushEq x.writer [] wa := ⟨x.writer, rfl, FlushEq_start hok⟩

/-- `renderSetextHeading`'s exit writes. -/
theorem setextExit_flush (cfg : Config) (lvl : Nat) (srcLines : List Bytes)
    (x : RenderContext) (hok : Ok x.writer) :
    ∃ wb, renderSetextHeading cfg lvl srcLines false x =
        ({ x with writer := wb }, WalkStatus.cont) ∧
      FlushEq x.writer ('\n' :: (List.replicate (setextWidth cfg srcLines)
        (setextUnderline lvl)).flatten) wb := by
  have h1 := FlushEq_Write hok (FlushEq_start hok) ['\n']
  rw [List.nil_append] at h1
  have h2 := FlushEq_Write hok h1
    (List.replicate (setextWidth cfg srcLines) (setextUnderline lvl)).flatten
  refine ⟨((x.writer.Write ['\n']).1.Write
    (List.replicate (setextWidth cfg srcLines)
      (setextUnderline lvl)).flatten).1, rfl, h2⟩

theorem flatten_replicate_single {α : Type} (k : Nat) (c : α) :
    (List.replicate k [c]).flatten = List.replicate k c := by
  induction k with
  | zero => rfl
  | succ k ih => simp [List.replicate_succ, List.flatten_cons, ih]

theorem isNil_eq_nil {cs : MNodes} (h : MNodes.isNil cs = true) :
    cs = MNodes.nil := by
  cases cs with
  | nil => rfl
  | cons c cs => simp [MNodes.isNil] at h

end BlockHelpers

section BlockRuns

/-- Composing the separator's enter with a kind renderer's enter writes. -/
theorem chainPair_enter_flush {g : NodeRenderer} {A : Bytes} (hp bp : Bool)
    (hg : ∀ y : RenderContext, Ok y.writer →
      ∃ wa, g true y = ({ y with writer := wa }, WalkStatus.cont) ∧
        FlushEq y.writer A wa) :
    ∀ x : RenderContext, Ok x.writer →
      ∃ wa, chainRun [renderBlockSeparator hp bp, g] true x =
          ({ x with writer := wa }, WalkStatus.cont) ∧
        FlushEq x.writer (sepStream hp bp ++ A) wa := by
  intro x hokx
  obtain ⟨w1, hsep, hf1⟩ := sepEnter_flush hp bp x hokx
  obtain ⟨wa, hkr, hf2⟩ := hg ({ x with writer := w1 }) hf1.1
  refine ⟨wa, ?_, FlushEq_append hokx hf1 hf2⟩
  rw [chainRun_pair_enter, hsep]
  exact hkr

/-- Composing a kind renderer's exit writes with the separator's exit
flush. -/
theorem chainPair_exit_flush {g : NodeRenderer} {B : Bytes} (hp bp : Bool)
    (hg : ∀ y : RenderContext, Ok y.writer →
      ∃ wb, g false y = ({ y with writer := wb }, WalkStatus.cont) ∧
        FlushEq y.writer B wb) :
    ∀ x : RenderContext, Ok x.writer →
      ∃ wb, chainRun [renderBlockSeparator hp bp, g] false x =
          ({ x with writer := wb.FlushLine }, WalkStatus.cont) ∧
        FlushEq x.writer B wb := by
  intro x hokx
  obtain ⟨wb, hkr, hf⟩ := hg x hokx
  refine ⟨wb, ?_, hf⟩
  rw [chainRun_pair_exit, hkr]
  exact sepExit_eval hp bp ({ x with writer := wb })

/-- A paragraph-shaped visit: the chain is the block separator alone, the
children are inline. -/
theorem paragraphLike_run (cfg : Config) (w : MarkdownWriter) (mk : Char)
    (hp bp : Bool) (cs : MNodes) (hok : Ok w) (hbuf : w.buf = [])
    (hwfin : wfInlines false cs = true)
    (hstream : streamTailOk (inlineStreams false cs) = true) :
    ∃ w', walkBody [renderBlockSeparator hp bp]
        (fun x => walkNodes cfg x false cs) (⟨w, mk, false⟩ : RenderContext) =
      ((⟨w', mk, false⟩ : RenderContext), WalkStatus.cont) ∧ BlockOut w w' := by
  apply streamBlock_run cfg _ (sepStream hp bp) [] w mk cs hok hbuf hwfin
  · intro x hokx
    obtain ⟨w1, hsep, hf1⟩ := sepEnter_flush hp bp x hokx
    refine ⟨w1, ?_, hf1⟩
    rw [chainRun_single]
    exact hsep
  · intro x hokx
    refine ⟨x.writer, ?_, FlushEq_start hokx⟩
    rw [chainRun_single]
    exact sepExit_eval hp bp x
  · rw [List.append_nil]
    exact streamTailOk_append _ hstream

/-- The configured thematic-break length after clamping, as a `Nat`. -/
def tbLen (cfg : Config) : Nat :=
  (if cfg.thematicBreakLength < ThematicBreakLengthMinimum then
    ThematicBreakLengthMinimum
  else cfg.thematicBreakLength).toNat

theorem tbLen_pos (cfg : Config) : 1 ≤ tbLen cfg := by
  unfold tbLen ThematicBreakLengthMinimum
  by_cases h : cfg.thematicBreakLength < (3 : Int)
  · rw [if_pos h]; decide
  · rw [if_neg h]; omega

theorem tbChar_nonspace (s : ThematicBreakStyle) :
    goIsSpace (thematicBreakChar s) = false := by
  cases s <;> rfl

/-- A complete thematic-break visit. -/
theorem thematicBreak_run (cfg : Config) (w : MarkdownWriter) (mk : Char)
    (hp bp : Bool) (hok : Ok w) (hbuf : w.buf = []) :
    ∃ w', walkNode cfg (⟨w, mk, false⟩ : RenderContext) hp
        (MNode.thematicBreak bp) =
      ((⟨w', mk, false⟩ : RenderContext), WalkStatus.cont) ∧ BlockOut w w' := by
  rw [walkNode_eq_thematicBreak]
  have hfs : getRenderer cfg hp (MNode.thematicBreak bp) =
      [renderBlockSeparator hp bp, renderThematicBreak cfg] := rfl
  rw [hfs]
  have h := streamBlock_run cfg
    [renderBlockSeparator hp bp, renderThematicBreak cfg]
    (sepStream hp bp ++ List.replicate (tbLen cfg)
      (thematicBreakChar cfg.thematicBreakStyle)) [] w mk MNodes.nil
    hok hbuf rfl
    (chainPair_enter_flush hp bp (fun y hoky => by
      have h1 := FlushEq_WriteString hoky (FlushEq_start hoky)
        (List.replicate (tbLen cfg) (thematicBreakChar cfg.thematicBreakStyle))
      rw [List.nil_append] at h1
      exact ⟨_, rfl, h1⟩))
    (chainPair_exit_flush hp bp (fun y hoky =>
      ⟨y.writer, rfl, FlushEq_start hoky⟩))
    (by
      rw [show inlineStreams false MNodes.nil = [] from rfl, List.append_nil,
        List.append_nil]
      exact streamTailOk_append _
        (nonWs_streamTailOk (streamNonWsEnd_replicate (tbLen_pos cfg)
          (tbChar_nonspace cfg.thematicBreakStyle))))
  obtain ⟨w', hw, hb⟩ := h
  exact ⟨w', hw, hb⟩

/-- A complete heading visit, in every style the decision tree selects. -/
theorem heading_run (cfg : Config) (w : MarkdownWriter) (mk : Char)
    (hp bp : Bool) (lvl : Nat) (srcLines : List Bytes) (cs : MNodes)
    (hok : Ok w) (hbuf : w.buf = [])
    (hwf : wfBlock (MNode.heading bp lvl srcLines cs) = true) :
    ∃ w', walkNode cfg (⟨w, mk, false⟩ : RenderContext) hp
        (MNode.heading bp lvl srcLines cs) =
      ((⟨w', mk, false⟩ : RenderContext), WalkStatus.cont) ∧ BlockOut w w' := by
  rw [walkNode_eq_heading]
  have hfs : getRenderer cfg hp (MNode.heading bp lvl srcLines cs) =
      [renderBlockSeparator hp bp,
        renderHeading cfg lvl srcLines (!MNodes.isNil cs)] := rfl
  rw [hfs]
  simp only [wfBlock, Bool.and_eq_true, Bool.or_eq_true,
    decide_eq_true_eq] at hwf
  obtain ⟨hlvl, hcs⟩ := hwf
  have hwfin : wfInlines false cs = true := by
    rcases hcs with hnil | ⟨h, _⟩
    · rw [isNil_eq_nil hnil]; rfl
    · exact h
  have hatx : (∀ e (y : RenderContext),
      renderHeading cfg lvl srcLines (!MNodes.isNil cs) e y =
        renderATXHeading cfg lvl (!MNodes.isNil cs) e y) →
      ∃ w', walkBody [renderBlockSeparator hp bp,
          renderHeading cfg lvl srcLines (!MNodes.isNil cs)]
        (fun x => walkNodes cfg x false cs) (⟨w, mk, false⟩ : RenderContext) =
      ((⟨w', mk, false⟩ : RenderContext), WalkStatus.cont) ∧ BlockOut w w' := by
    intro hdec
    apply streamBlock_run cfg _
      (sepStream hp bp ++ (List.replicate lvl '#' ++
        (if (!MNodes.isNil cs) then [' '] else [])))
      (if cfg.headingStyle = HeadingStyle.atxSurround then
        ' ' :: List.replicate lvl '#' else []) w mk cs hok hbuf hwfin
    · apply chainPair_enter_flush
      intro y hoky
      obtain ⟨wa, ha, hfa⟩ := atxEnter_flush cfg lvl (!MNodes.isNil cs) y hoky
      exact ⟨wa, by rw [hdec]; exact ha, hfa⟩
    · apply chainPair_exit_flush
      intro y hoky
      obtain ⟨wb, hb, hfb⟩ := atxExit_flush cfg lvl (!MNodes.isNil cs) y hoky
      exact ⟨wb, by rw [hdec]; exact hb, hfb⟩
    · by_cases hsr : cfg.headingStyle = HeadingStyle.atxSurround
      · rw [if_pos hsr]
        refine streamTailOk_append _ (nonWs_streamTailOk ?_)
        rw [show ' ' :: List.replicate lvl '#' =
          [' '] ++ List.replicate lvl '#' from rfl]
        exact streamNonWsEnd_append _
          (streamNonWsEnd_replicate hlvl (by decide))
      · rw [if_neg hsr, List.append_nil]
        rcases hcs with hnil | ⟨hwfin2, hstream⟩
        · rw [isNil_eq_nil hnil] at hwfin ⊢
          rw [show inlineStreams false MNodes.nil = [] from rfl,
            List.append_nil]
          rw [show (if (!MNodes.isNil MNodes.nil) = true then [' ']
            else ([] : Bytes)) = [] from rfl, List.append_nil]
          exact streamTailOk_append _
            (nonWs_streamTailOk (streamNonWsEnd_replicate hlvl (by decide)))
        · exact streamTailOk_append _ hstream
  have hsetext : (∀ e (y : RenderContext),
      renderHeading cfg lvl srcLines (!MNodes.isNil cs) e y =
        renderSetextHeading cfg lvl srcLines e y) → 1 ≤ lvl → lvl ≤ 2 →
      ∃ w', walkBody [renderBlockSeparator hp bp,
          renderHeading cfg lvl srcLines (!MNodes.isNil cs)]
        (fun x => walkNodes cfg x false cs) (⟨w, mk, false⟩ : RenderContext) =
      ((⟨w', mk, false⟩ : RenderContext), WalkStatus.cont) ∧ BlockOut w w' := by
    intro hdec h1 h2
    apply streamBlock_run cfg _ (sepStream hp bp ++ [])
      ('\n' :: (List.replicate (setextWidth cfg srcLines)
        (setextUnderline lvl)).flatten) w mk cs hok hbuf hwfin
    · apply chainPair_enter_flush
      intro y hoky
      obtain ⟨wa, ha, hfa⟩ := setextEnter_flush cfg lvl srcLines y hoky
      exact ⟨wa, by rw [hdec]; exact ha, hfa⟩
    · apply chainPair_exit_flush
      intro y hoky
      obtain ⟨wb, hb, hfb⟩ := setextExit_flush cfg lvl srcLines y hoky
      exact ⟨wb, by rw [hdec]; exact hb, hfb⟩
    · have hu : ∃ c, setextUnderline lvl = [c] ∧ goIsSpace c = false := by
        have : lvl = 1 ∨ lvl = 2 := by omega
        rcases this with h | h <;> subst h
        · exact ⟨'=', rfl, by decide⟩
        · exact ⟨'-', rfl, by decide⟩
      obtain ⟨c, hc, hcs2⟩ := hu
      rw [hc]
      refine streamTailOk_append _ (nonWs_streamTailOk ?_)
      rw [show ('\n' :: (List.replicate (setextWidth cfg srcLines)
        [c]).flatten) = ['\n'] ++
          (List.replicate (setextWidth cfg srcLines) [c]).flatten from rfl,
        flatten_replicate_single]
      refine streamNonWsEnd_append _ ?_
      exact streamNonWsEnd_replicate
        (by have := setextWidth_ge cfg srcLines; omega) hcs2
  by_cases hd1 : (!(!MNodes.isNil cs) || decide (2 < lvl)) = true
  · exact hatx (fun e y => by simp only [renderHeading, if_pos hd1])
  · have hlim : lvl ≤ 2 := by
      simp only [Bool.or_eq_true, not_or, Bool.not_eq_true,
        decide_eq_true_eq] at hd1
      omega
    by_cases hd2 : 1 < srcLines.length
    · exact hsetext (fun e y => by
        simp only [renderHeading, if_neg hd1, if_pos hd2]) hlvl hlim
    · by_cases hd3 : cfg.headingStyle.IsSetext = true
      · exact hsetext (fun e y => by
          simp only [renderHeading, if_neg hd1, if_neg hd2, if_pos hd3])
          hlvl hlim
      · exact hatx (fun e y => by
          simp only [renderHeading, if_neg hd1, if_neg hd2, if_neg hd3])

/-- A complete fenced-code-block visit: fence line, source lines, closing
fence line. -/
theorem fencedCodeBlock_run (cfg : Config) (w : MarkdownWriter) (mk : Char)
    (hp bp : Bool) (info : Option Bytes) (srcLines : List Bytes)
    (hok : Ok w) (hbuf : w.buf = []) :
    ∃ w', walkNode cfg (⟨w, mk, false⟩ : RenderContext) hp
        (MNode.fencedCodeBlock bp info srcLines) =
      ((⟨w', mk, false⟩ : RenderContext), WalkStatus.cont) ∧ BlockOut w w' := by
  rw [walkNode_eq_fencedCodeBlock]
  have hfs : getRenderer cfg hp (MNode.fencedCodeBlock bp info srcLines) =
      [renderBlockSeparator hp bp, renderFencedCodeBlock info srcLines] := rfl
  rw [hfs]
  obtain ⟨w1, hsep, hcl1⟩ := sepEnter_clean hp bp ⟨w, mk, false⟩ hok hbuf
  have hok1 : Ok w1 := hcl1.1
  rcases info with _ | i
  · have hWL : ((w1.Write (List.replicate 3 backtick)).1).FlushLine =
        (w1.WriteLine (List.replicate 3 backtick)).1 := by
      rw [WriteLine_eval hok1, Write_ok hok1]
    have hcl2 : CleanOut w1
        (((w1.Write (List.replicate 3 backtick)).1).FlushLine) := by
      rw [hWL]
      exact WriteLine_clean hok1 _
    have hcl3 : CleanOut w1
        (renderLinesW (((w1.Write (List.replicate 3 backtick)).1).FlushLine)
          srcLines) :=
      CleanOut_trans hcl2 (renderLinesW_clean hcl2.1 hcl2.2.1 srcLines)
    have hen : chainRun [renderBlockSeparator hp bp,
        renderFencedCodeBlock none srcLines] true
        (⟨w, mk, false⟩ : RenderContext) =
        ((⟨renderLinesW (((w1.Write (List.replicate 3 backtick)).1).FlushLine)
          srcLines, mk, false⟩ : RenderContext), WalkStatus.cont) := by
      rw [chainRun_pair_enter, hsep]
      rfl
    have hex : chainRun [renderBlockSeparator hp bp,
        renderFencedCodeBlock none srcLines] false
        ((⟨renderLinesW (((w1.Write (List.replicate 3 backtick)).1).FlushLine)
          srcLines, mk, false⟩ : RenderContext)) =
        ((⟨(((renderLinesW
            (((w1.Write (List.replicate 3 backtick)).1).FlushLine)
            srcLines).Write (List.replicate 3 backtick)).1).FlushLine,
          mk, false⟩ : RenderContext), WalkStatus.cont) := by
      rw [chainRun_pair_exit]
      rfl
    have hfeW := FlushEq_Write hcl3.1 (FlushEq_start hcl3.1)
      (List.replicate 3 backtick)
    rw [List.nil_append] at hfeW
    have hb5 : BlockOut
        (renderLinesW (((w1.Write (List.replicate 3 backtick)).1).FlushLine)
          srcLines)
        ((((renderLinesW
            (((w1.Write (List.replicate 3 backtick)).1).FlushLine)
            srcLines).Write (List.replicate 3 backtick)).1).FlushLine) :=
      stream_block_finish hcl3.1 hcl3.2.1 hfeW
        (nonWs_streamTailOk (streamNonWsEnd_replicate (by omega) (by decide)))
    refine ⟨_, ?_, CleanOut_BlockOut (CleanOut_trans hcl1 hcl3) hb5⟩
    exact walkBody_run hen hcl3.1.1 (by simp) (by simp) rfl hex
      hb5.1.1 (by simp)
  · have h2W : ((w1.Write (List.replicate 3 backtick)).1.Write i).1 =
        (w1.Write (List.replicate 3 backtick ++ i)).1 := by
      rw [Write_ok hok1]
      rw [Write_ok (Ok_flushLines (Ok_pump hok1 (List.replicate 3 backtick)))]
      rw [flushLines_pump (Ok_pump hok1 (List.replicate 3 backtick)),
        pump_pump]
      rw [Write_ok hok1 (List.replicate 3 backtick ++ i)]
    have hWL : ((w1.Write (List.replicate 3 backtick ++ i)).1).FlushLine =
        (w1.WriteLine (List.replicate 3 backtick ++ i)).1 := by
      rw [WriteLine_eval hok1, Write_ok hok1]
    have hcl2 : CleanOut w1
        (((w1.Write (List.replicate 3 backtick)).1.Write i).1.FlushLine) := by
      rw [h2W, hWL]
      exact WriteLine_clean hok1 _
    have hcl3 : CleanOut w1
        (renderLinesW
          (((w1.Write (List.replicate 3 backtick)).1.Write i).1.FlushLine)
          srcLines) :=
      CleanOut_trans hcl2 (renderLinesW_clean hcl2.1 hcl2.2.1 srcLines)
    have hen : chainRun [renderBlockSeparator hp bp,
        renderFencedCodeBlock (some i) srcLines] true
        (⟨w, mk, false⟩ : RenderContext) =
        ((⟨renderLinesW
          (((w1.Write (List.replicate 3 backtick)).1.Write i).1.FlushLine)
          srcLines, mk, false⟩ : RenderContext), WalkStatus.cont) := by
      rw [chainRun_pair_enter, hsep]
      rfl
    have hex : chainRun [renderBlockSeparator hp bp,
        renderFencedCodeBlock (some i) srcLines] false
        ((⟨renderLinesW
          (((w1.Write (List.replicate 3 backtick)).1.Write i).1.FlushLine)
          srcLines, mk, false⟩ : RenderContext)) =
        ((⟨(((renderLinesW
            (((w1.Write (List.replicate 3 backtick)).1.Write i).1.FlushLine)
            srcLines).Write (List.replicate 3 backtick)).1).FlushLine,
          mk, false⟩ : RenderContext), WalkStatus.cont) := by
      rw [chainRun_pair_exit]
      rfl
    have hfeW := FlushEq_Write hcl3.1 (FlushEq_start hcl3.1)
      (List.replicate 3 backtick)
    rw [List.nil_append] at hfeW
    have hb5 : BlockOut
        (renderLinesW
          (((w1.Write (List.replicate 3 backtick)).1.Write i).1.FlushLine)
          srcLines)
        ((((renderLinesW
            (((w1.Write (List.replicate 3 backtick)).1.Write i).1.FlushLine)
            srcLines).Write (List.replicate 3 backtick)).1).FlushLine) :=
      stream_block_finish hcl3.1 hcl3.2.1 hfeW
        (nonWs_streamTailOk (streamNonWsEnd_replicate (by omega) (by decide)))
    refine ⟨_, ?_, CleanOut_BlockOut (CleanOut_trans hcl1 hcl3) hb5⟩
    exact walkBody_run hen hcl3.1.1 (by simp) (by simp) rfl hex
      hb5.1.1 (by simp)

/-- A complete indented-code-block visit: indent prefix pushed, source lines
streamed, prefix popped. -/
theorem codeBlock_run (cfg : Config) (w : MarkdownWriter) (mk : Char)
    (hp bp : Bool) (srcLines : List Bytes) (hok : Ok w) (hbuf : w.buf = [])
    (hwf : wfBlock (MNode.codeBlock bp srcLines) = true) :
    ∃ w', walkNode cfg (⟨w, mk, false⟩ : RenderContext) hp
        (MNode.codeBlock bp srcLines) =
      ((⟨w', mk, false⟩ : RenderContext), WalkStatus.cont) ∧ BlockOut w w' := by
  rw [walkNode_eq_codeBlock]
  have hfs : getRenderer cfg hp (MNode.codeBlock bp srcLines) =
      [renderBlockSeparator hp bp, renderCodeBlock cfg srcLines] := rfl
  rw [hfs]
  rcases hg : srcLines.getLast? with _ | l
  · simp [wfBlock, hg] at hwf
  · have hlOk : lineOk l = true := by simpa [wfBlock, hg] using hwf
    have hdecomp : srcLines = srcLines.dropLast ++ [l] := getLast?_decomp hg
    obtain ⟨w1, hsep, hcl1⟩ := sepEnter_clean hp bp ⟨w, mk, false⟩ hok hbuf
    have hok1 : Ok w1 := hcl1.1
    have hbuf1 : w1.buf = [] := hcl1.2.1
    have hokp : Ok (w1.PushPrefix cfg.indentStyle.Bytes []) :=
      ⟨hok1.1, hok1.2⟩
    have hbufp : (w1.PushPrefix cfg.indentStyle.Bytes []).buf = [] := hbuf1
    have hbl : BlockOut (w1.PushPrefix cfg.indentStyle.Bytes [])
        (renderLinesW (w1.PushPrefix cfg.indentStyle.Bytes []) srcLines) := by
      rw [hdecomp]
      exact renderLinesW_last hokp hbufp _ hlOk
    have hen : chainRun [renderBlockSeparator hp bp,
        renderCodeBlock cfg srcLines] true (⟨w, mk, false⟩ : RenderContext) =
        ((⟨renderLinesW (w1.PushPrefix cfg.indentStyle.Bytes []) srcLines,
          mk, false⟩ : RenderContext), WalkStatus.skipChildren) := by
      rw [chainRun_pair_enter, hsep]
      rfl
    have hex : chainRun [renderBlockSeparator hp bp,
        renderCodeBlock cfg srcLines] false
        ((⟨renderLinesW (w1.PushPrefix cfg.indentStyle.Bytes []) srcLines,
          mk, false⟩ : RenderContext)) =
        ((⟨((renderLinesW (w1.PushPrefix cfg.indentStyle.Bytes [])
            srcLines).PopPrefix).FlushLine, mk, false⟩ : RenderContext),
          WalkStatus.cont) := by
      rw [chainRun_pair_exit]
      rfl
    have hfl : ((renderLinesW (w1.PushPrefix cfg.indentStyle.Bytes [])
        srcLines).PopPrefix).FlushLine =
        (renderLinesW (w1.PushPrefix cfg.indentStyle.Bytes [])
          srcLines).PopPrefix :=
      FlushLine_empty (show (renderLinesW (w1.PushPrefix
        cfg.indentStyle.Bytes []) srcLines).buf = [] from hbl.2.1)
    have hfinal : BlockOut w (((renderLinesW
        (w1.PushPrefix cfg.indentStyle.Bytes [])
        srcLines).PopPrefix).FlushLine) := by
      rw [hfl]
      obtain ⟨hokB, hbufB, hpfxB, d2, hwrB, hgB⟩ := hbl
      obtain ⟨hok1a, hbuf1a, hpfx1, d1, hwr1⟩ := hcl1
      refine ⟨⟨hokB.1, hokB.2⟩, hbufB, ?_, d1 ++ d2, ?_,
        goodTail_append d1 hgB⟩
      · show (renderLinesW (w1.PushPrefix cfg.indentStyle.Bytes [])
          srcLines).prefixes.dropLast = w.prefixes
        rw [hpfxB]
        show (w1.prefixes ++ [_]).dropLast = w.prefixes
        rw [List.dropLast_concat]
        exact hpfx1
      · show (renderLinesW (w1.PushPrefix cfg.indentStyle.Bytes [])
          srcLines).written = w.written ++ (d1 ++ d2)
        rw [hwrB]
        show w1.written ++ d2 = w.written ++ (d1 ++ d2)
        rw [show w1.written = w.written ++ d1 from hwr1, List.append_assoc]
    refine ⟨_, ?_, hfinal⟩
    exact walkBody_run_skip hen hbl.1.1 hex hfinal.1.1 (by simp)

/-- A complete HTML-block visit: source lines streamed, optional closure
line written. -/
theorem htmlBlock_run (cfg : Config) (w : MarkdownWriter) (mk : Char)
    (hp bp : Bool) (srcLines : List Bytes) (closure : Option Bytes)
    (hok : Ok w) (hbuf : w.buf = [])
    (hwf : wfBlock (MNode.htmlBlock bp srcLines closure) = true) :
    ∃ w', walkNode cfg (⟨w, mk, false⟩ : RenderContext) hp
        (MNode.htmlBlock bp srcLines closure) =
      ((⟨w', mk, false⟩ : RenderContext), WalkStatus.cont) ∧ BlockOut w w' := by
  rw [walkNode_eq_htmlBlock]
  have hfs : getRenderer cfg hp (MNode.htmlBlock bp srcLines closure) =
      [renderBlockSeparator hp bp, renderHTMLBlock srcLines closure] := rfl
  rw [hfs]
  obtain ⟨w1, hsep, hcl1⟩ := sepEnter_clean hp bp ⟨w, mk, false⟩ hok hbuf
  have hok1 : Ok w1 := hcl1.1
  have hbuf1 : w1.buf = [] := hcl1.2.1
  rcases closure with _ | c
  · rcases hg : srcLines.getLast? with _ | l
    · simp [wfBlock, hg] at hwf
    · have hlOk : lineOk l = true := by simpa [wfBlock, hg] using hwf
      have hdecomp : srcLines = srcLines.dropLast ++ [l] := getLast?_decomp hg
      have hbl : BlockOut w1 (renderLinesW w1 srcLines) := by
        rw [hdecomp]
        exact renderLinesW_last hok1 hbuf1 _ hlOk
      have hen : chainRun [renderBlockSeparator hp bp,
          renderHTMLBlock srcLines none] true
          (⟨w, mk, false⟩ : RenderContext) =
          ((⟨renderLinesW w1 srcLines, mk, false⟩ : RenderContext),
            WalkStatus.cont) := by
        rw [chainRun_pair_enter, hsep]
        rfl
      have hex : chainRun [renderBlockSeparator hp bp,
          renderHTMLBlock srcLines none] false
          ((⟨renderLinesW w1 srcLines, mk, false⟩ : RenderContext)) =
          ((⟨(renderLinesW w1 srcLines).FlushLine,
            mk, false⟩ : RenderContext), WalkStatus.cont) := by
        rw [chainRun_pair_exit]
        rfl
      have hfl : (renderLinesW w1 srcLines).FlushLine =
          renderLinesW w1 srcLines := FlushLine_empty hbl.2.1
      have hfinal : BlockOut w ((renderLinesW w1 srcLines).FlushLine) := by
        rw [hfl]
        exact CleanOut_BlockOut hcl1 hbl
      refine ⟨_, ?_, hfinal⟩
      exact walkBody_run hen hbl.1.1 (by simp) (by simp) rfl hex
        hfinal.1.1 (by simp)
  · have hlOk : lineOk c = true := by simpa [wfBlock] using hwf
    have hcl2 : CleanOut w1 (renderLinesW w1 srcLines) :=
      renderLinesW_clean hok1 hbuf1 srcLines
    have hbw : BlockOut (renderLinesW w1 srcLines)
        (((renderLinesW w1 srcLines).WriteLine c).1) :=
      WriteLine_good hcl2.1 hcl2.2.1 hlOk
    have hen : chainRun [renderBlockSeparator hp bp,
        renderHTMLBlock srcLines (some c)] true
        (⟨w, mk, false⟩ : RenderContext) =
        ((⟨renderLinesW w1 srcLines, mk, false⟩ : RenderContext),
          WalkStatus.cont) := by
      rw [chainRun_pair_enter, hsep]
      rfl
    have hex : chainRun [renderBlockSeparator hp bp,
        renderHTMLBlock srcLines (some c)] false
        ((⟨renderLinesW w1 srcLines, mk, false⟩ : RenderContext)) =
        ((⟨(((renderLinesW w1 srcLines).WriteLine c).1).FlushLine,
          mk, false⟩ : RenderContext), WalkStatus.cont) := by
      rw [chainRun_pair_exit]
      rfl
    have hfl : (((renderLinesW w1 srcLines).WriteLine c).1).FlushLine =
        ((renderLinesW w1 srcLines).WriteLine c).1 :=
      FlushLine_empty hbw.2.1
    have hfinal : BlockOut w
        ((((renderLinesW w1 srcLines).WriteLine c).1).FlushLine) := by
      rw [hfl]
      exact CleanOut_BlockOut hcl1 (CleanOut_BlockOut hcl2 hbw)
    refine ⟨_, ?_, hfinal⟩
    exact walkBody_run hen hcl2.1.1 (by simp) (by simp) rfl hex
      hfinal.1.1 (by simp)

end BlockRuns

section BlockWalk

theorem MNodes.cons_ne_nil (c : MNode) (cs : MNodes) :
    MNodes.cons c cs ≠ MNodes.nil := fun h => MNodes.noConfusion h

mutual
/-- A complete well-formed block visit over the always-ok sink: it continues,
restores the prefix stack, leaves a clean writer and appends an output delta
ending in exactly one newline after a non-blank byte. -/
theorem walkNode_block (cfg : Config) (rc : RenderContext) (hp : Bool)
    (n : MNode) (hok : Ok rc.writer) (hbuf : rc.writer.buf = [])
    (hics : rc.inCodeSpan = false) (hwf : wfBlock n = true) :
    ∃ w' mk, walkNode cfg rc hp n =
        ((⟨w', mk, false⟩ : RenderContext), WalkStatus.cont) ∧
      BlockOut rc.writer w' := by
  obtain ⟨w0, mk0, ic0⟩ := rc
  have hics' : ic0 = false := hics
  subst hics'
  have hok0 : Ok w0 := hok
  have hbuf0 : w0.buf = [] := hbuf
  cases n with
  | heading bp lvl srcLines cs =>
    obtain ⟨w', hw, hb⟩ := heading_run cfg w0 mk0 hp bp lvl srcLines cs
      hok0 hbuf0 hwf
    exact ⟨w', mk0, hw, hb⟩
  | paragraph bp cs =>
    simp only [wfBlock, Bool.and_eq_true] at hwf
    rw [walkNode_eq_paragraph, show getRenderer cfg hp (MNode.paragraph bp cs) =
      [renderBlockSeparator hp bp] from rfl]
    obtain ⟨w', hw, hb⟩ := paragraphLike_run cfg w0 mk0 hp bp cs hok0 hbuf0
      hwf.1 hwf.2
    exact ⟨w', mk0, hw, hb⟩
  | textBlock bp cs =>
    simp only [wfBlock, Bool.and_eq_true] at hwf
    rw [walkNode_eq_textBlock, show getRenderer cfg hp (MNode.textBlock bp cs) =
      [renderBlockSeparator hp bp] from rfl]
    obtain ⟨w', hw, hb⟩ := paragraphLike_run cfg w0 mk0 hp bp cs hok0 hbuf0
      hwf.1 hwf.2
    exact ⟨w', mk0, hw, hb⟩
  | thematicBreak bp =>
    obtain ⟨w', hw, hb⟩ := thematicBreak_run cfg w0 mk0 hp bp hok0 hbuf0
    exact ⟨w', mk0, hw, hb⟩
  | codeBlock bp srcLines =>
    obtain ⟨w', hw, hb⟩ := codeBlock_run cfg w0 mk0 hp bp srcLines hok0 hbuf0
      hwf
    exact ⟨w', mk0, hw, hb⟩
  | fencedCodeBlock bp info srcLines =>
    obtain ⟨w', hw, hb⟩ := fencedCodeBlock_run cfg w0 mk0 hp bp info srcLines
      hok0 hbuf0
    exact ⟨w', mk0, hw, hb⟩
  | htmlBlock bp srcLines closure =>
    obtain ⟨w', hw, hb⟩ := htmlBlock_run cfg w0 mk0 hp bp srcLines closure
      hok0 hbuf0 hwf
    exact ⟨w', mk0, hw, hb⟩
  | list bp marker cs =>
    simp only [wfBlock, Bool.and_eq_true, Bool.not_eq_true'] at hwf
    rw [walkNode_eq_list, show getRenderer cfg hp (MNode.list bp marker cs) =
      [renderBlockSeparator hp bp, renderList marker] from rfl]
    obtain ⟨w1, hsep, hcl1⟩ := sepEnter_clean hp bp ⟨w0, mk0, false⟩ hok0 hbuf0
    have hcl1' : CleanOut w0 w1 := hcl1
    have hen : chainRun [renderBlockSeparator hp bp, renderList marker] true
        (⟨w0, mk0, false⟩ : RenderContext) =
        ((⟨w1, marker, false⟩ : RenderContext), WalkStatus.cont) := by
      rw [chainRun_pair_enter, hsep]
      rfl
    obtain ⟨w2, mk2, hkids, hok2, hbuf2, hpfx2, d2, hwr2, hn2, hg2⟩ :=
      walkNodes_block cfg ⟨w1, marker, false⟩ false cs hcl1'.1 hcl1'.2.1
        rfl hwf.2
    have hpfx2' : w2.prefixes = w1.prefixes := hpfx2
    have hwr2' : w2.written = w1.written ++ d2 := hwr2
    have hex : chainRun [renderBlockSeparator hp bp, renderList marker] false
        ((⟨w2, mk2, false⟩ : RenderContext)) =
        ((⟨w2.FlushLine, mk2, false⟩ : RenderContext), WalkStatus.cont) := by
      rw [chainRun_pair_exit]
      rfl
    have hfl : w2.FlushLine = w2 := FlushLine_empty hbuf2
    have hcsne : cs ≠ MNodes.nil := by
      intro h
      subst h
      simp [MNodes.isNil] at hwf
    obtain ⟨hok1a, hbuf1a, hpfx1, d1, hwr1⟩ := hcl1'
    refine ⟨w2.FlushLine, mk2, ?_, ?_⟩
    · exact walkBody_run hen hok1a.1 (by simp) (by simp) hkids hex
        (by rw [hfl]; exact hok2.1) (by simp)
    · rw [hfl]
      refine ⟨hok2, hbuf2, ?_, d1 ++ d2, ?_, goodTail_append d1 (hg2 hcsne)⟩
      · show w2.prefixes = w0.prefixes
        rw [hpfx2', hpfx1]
      · show w2.written = w0.written ++ (d1 ++ d2)
        rw [hwr2', hwr1, List.append_assoc]
  | listItem bp cs =>
    simp only [wfBlock, Bool.and_eq_true, Bool.not_eq_true'] at hwf
    rw [walkNode_eq_listItem, show getRenderer cfg hp (MNode.listItem bp cs) =
      [renderBlockSeparator hp bp, renderListItem] from rfl]
    obtain ⟨w1, hsep, hcl1⟩ := sepEnter_clean hp bp ⟨w0, mk0, false⟩ hok0 hbuf0
    have hcl1' : CleanOut w0 w1 := hcl1
    have hen : chainRun [renderBlockSeparator hp bp, renderListItem] true
        (⟨w0, mk0, false⟩ : RenderContext) =
        ((⟨(w1.PushPrefix [mk0, ' '] [0, 0]).PushPrefix
          (List.replicate ([mk0, ' '] : Bytes).length ' ') [1],
          mk0, false⟩ : RenderContext), WalkStatus.cont) := by
      rw [chainRun_pair_enter, hsep]
      rfl
    have hokp : Ok ((w1.PushPrefix [mk0, ' '] [0, 0]).PushPrefix
        (List.replicate ([mk0, ' '] : Bytes).length ' ') [1]) :=
      ⟨hcl1'.1.1, hcl1'.1.2⟩
    have hbufp : ((w1.PushPrefix [mk0, ' '] [0, 0]).PushPrefix
        (List.replicate ([mk0, ' '] : Bytes).length ' ') [1]).buf = [] :=
      hcl1'.2.1
    obtain ⟨w2, mk2, hkids, hok2, hbuf2, hpfx2, d2, hwr2, hn2, hg2⟩ :=
      walkNodes_block cfg ⟨(w1.PushPrefix [mk0, ' '] [0, 0]).PushPrefix
        (List.replicate ([mk0, ' '] : Bytes).length ' ') [1], mk0, false⟩
        false cs hokp hbufp rfl hwf.2
    have hpfx2' : w2.prefixes =
        ((w1.PushPrefix [mk0, ' '] [0, 0]).PushPrefix
          (List.replicate ([mk0, ' '] : Bytes).length ' ') [1]).prefixes :=
      hpfx2
    have hwr2' : w2.written = w1.written ++ d2 := hwr2
    have hex : chainRun [renderBlockSeparator hp bp, renderListItem] false
        ((⟨w2, mk2, false⟩ : RenderContext)) =
        ((⟨(w2.PopPrefix.PopPrefix).FlushLine, mk2, false⟩ : RenderContext),
          WalkStatus.cont) := by
      rw [chainRun_pair_exit]
      rfl
    have hfl : (w2.PopPrefix.PopPrefix).FlushLine = w2.PopPrefix.PopPrefix :=
      FlushLine_empty (show (w2.PopPrefix.PopPrefix).buf = [] from hbuf2)
    have hcsne : cs ≠ MNodes.nil := by
      intro h
      subst h
      simp [MNodes.isNil] at hwf
    obtain ⟨hok1a, hbuf1a, hpfx1, d1, hwr1⟩ := hcl1'
    refine ⟨(w2.PopPrefix.PopPrefix).FlushLine, mk2, ?_, ?_⟩
    · exact walkBody_run hen hok1a.1 (by simp) (by simp) hkids hex
        (by rw [hfl]; exact hok2.1) (by simp)
    · rw [hfl]
      refine ⟨⟨hok2.1, hok2.2⟩, hbuf2, ?_, d1 ++ d2, ?_,
        goodTail_append d1 (hg2 hcsne)⟩
      · show w2.prefixes.dropLast.dropLast = w0.prefixes
        rw [hpfx2']
        show ((w1.prefixes ++ [_]) ++ [_]).dropLast.dropLast = w0.prefixes
        rw [List.dropLast_concat, List.dropLast_concat]
        exact hpfx1
      · show w2.written = w0.written ++ (d1 ++ d2)
        rw [hwr2', hwr1, List.append_assoc]
  | document bp cs => simp [wfBlock] at hwf
  | text content softBreak => simp [wfBlock] at hwf
  | codeSpan cs => simp [wfBlock] at hwf
  | link dest title cs => simp [wfBlock] at hwf
termination_by sizeOf n

/-- The visit of a list of well-formed block siblings. -/
theorem walkNodes_block (cfg : Config) (rc : RenderContext) (hp : Bool)
    (cs : MNodes) (hok : Ok rc.writer) (hbuf : rc.writer.buf = [])
    (hics : rc.inCodeSpan = false) (hwf : wfBlocks cs = true) :
    ∃ w' mk, walkNodes cfg rc hp cs =
        ((⟨w', mk, false⟩ : RenderContext), WalkStatus.cont) ∧
      Ok w' ∧ w'.buf = [] ∧ w'.prefixes = rc.writer.prefixes ∧
      ∃ d, w'.written = rc.writer.written ++ d ∧
        (cs = MNodes.nil → d = []) ∧ (cs ≠ MNodes.nil → goodTail d) := by
  obtain ⟨w0, mk0, ic0⟩ := rc
  have hics' : ic0 = false := hics
  subst hics'
  have hok0 : Ok w0 := hok
  have hbuf0 : w0.buf = [] := hbuf
  cases cs with
  | nil =>
    exact ⟨w0, mk0, rfl, hok0, hbuf0, rfl, [], by simp, fun _ => rfl,
      fun h => absurd rfl h⟩
  | cons c rest =>
    have hwf' : wfBlock c = true ∧ wfBlocks rest = true := by
      simpa [wfBlocks, Bool.and_eq_true] using hwf
    obtain ⟨w1, mk1, h1, hb1⟩ := walkNode_block cfg ⟨w0, mk0, false⟩ hp c
      hok0 hbuf0 rfl hwf'.1
    obtain ⟨hok1, hbuf1, hpfx1, d1, hwr1, hg1⟩ := hb1
    have hpfx1' : w1.prefixes = w0.prefixes := hpfx1
    have hwr1' : w1.written = w0.written ++ d1 := hwr1
    obtain ⟨w2, mk2, h2, hok2, hbuf2, hpfx2, d2, hwr2, hn2, hg2⟩ :=
      walkNodes_block cfg ⟨w1, mk1, false⟩ true rest hok1 hbuf1 rfl hwf'.2
    have hpfx2' : w2.prefixes = w1.prefixes := hpfx2
    have hwr2' : w2.written = w1.written ++ d2 := hwr2
    refine ⟨w2, mk2, ?_, hok2, hbuf2, ?_, d1 ++ d2, ?_, ?_, ?_⟩
    · simp only [walkNodes, h1]
      rw [if_neg (show ¬((((⟨w1, mk1, false⟩ : RenderContext),
        WalkStatus.cont) : RenderContext × WalkStatus).2 =
        WalkStatus.stop) from by simp)]
      exact h2
    · show w2.prefixes = w0.prefixes
      rw [hpfx2', hpfx1']
    · show w2.written = w0.written ++ (d1 ++ d2)
      rw [hwr2', hwr1', List.append_assoc]
    · intro h
      exact absurd h (MNodes.cons_ne_nil c rest)
    · intro _
      rcases rest with _ | ⟨r0, rrest⟩
      · rw [hn2 rfl, List.append_nil]
        exact hg1
      · exact goodTail_append d1 (hg2 (MNodes.cons_ne_nil r0 rrest))
termination_by sizeOf cs
end

end BlockWalk

section ClaimC7

/-- The document goldmark parses from `- a\n\n-`: a loose list whose second
item is empty and has blank previous lines.  The original C7 claim fails on
it: content is written but the output ends in two newlines. -/
def c7ctrDoc : MNode :=
  MNode.document false
    (MNodes.cons
      (MNode.list false '-'
        (MNodes.cons
          (MNode.listItem false
            (MNodes.cons (MNode.paragraph false
              (MNodes.cons (MNode.text ['a'] false) MNodes.nil)) MNodes.nil))
          (MNodes.cons (MNode.listItem true MNodes.nil) MNodes.nil)))
      MNodes.nil)

/-- Counterexample to the original C7 claim: rendering the loose list whose
last item is empty writes content whose output is `- a\n\n` — it ends in a
blank line, so there is no decomposition of the output as anything followed
by a non-whitespace byte and one final newline: whatever byte precedes the
final newline is whitespace (here another newline). -/
theorem render_trailing_newline_counterexample :
    (defaultRenderer.Render okSink c7ctrDoc).2.1 =
      ['-', ' ', 'a', '\n', '\n'] ∧
    (defaultRenderer.Render okSink c7ctrDoc).2.1 ≠ [] ∧
    ∀ d c, (defaultRenderer.Render okSink c7ctrDoc).2.1 = d ++ [c, '\n'] →
      goIsSpace c = true := by
  have hout : (defaultRenderer.Render okSink c7ctrDoc).2.1 =
      ['-', ' ', 'a', '\n', '\n'] := by decide
  refine ⟨hout, by rw [hout]; simp, ?_⟩
  intro d c h
  rw [hout] at h
  have h1 : (['-', ' ', 'a', '\n', '\n'] : Bytes).dropLast = d ++ [c] := by
    rw [h, show d ++ [c, '\n'] = (d ++ [c]) ++ ['\n'] from by simp,
      List.dropLast_concat]
  have h2 : (some '\n' : Option Char) = some c := by
    rw [show (some '\n' : Option Char) =
      ((['-', ' ', 'a', '\n', '\n'] : Bytes).dropLast).getLast? from rfl,
      h1, List.getLast?_concat]
  have h3 : '\n' = c := by injection h2
  rw [← h3]
  rfl

/-- C7 (corrected): the unrestricted claim is false — see the counterexample
above, where a loose list ending in an empty item renders to output ending
in two newlines.  Amended claim: for every render call over an error-free
sink on a well-formed document — every block's final flushed line is
non-blank: heading/paragraph/text-block inline streams and code/HTML last
lines are non-blank after trailing-whitespace trimming, lists and list items
are non-empty — rendering an empty document produces empty output, and when
the document has content the output ends with exactly one trailing newline:
the last byte is a newline and the byte before it is non-whitespace, in
particular not another newline.  A trailing newline is thus added when the
source's last line lacked one and never duplicated when it was present. -/
theorem render_trailing_newline (r : Renderer) (bp : Bool) (cs : MNodes)
    (hwf : wfBlocks cs = true) :
    (cs = MNodes.nil → (r.Render okSink (MNode.document bp cs)).2.1 = []) ∧
    (cs ≠ MNodes.nil → ∃ d c,
      (r.Render okSink (MNode.document bp cs)).2.1 = d ++ [c, '\n'] ∧
      goIsSpace c = false) := by
  obtain ⟨w2, mk2, hkids, hok2, hbuf2, hpfx2, d, hwr, hn, hg⟩ :=
    walkNodes_block r.config
      ⟨MarkdownWriter.newMarkdownWriter okSink, Char.ofNat 0, false⟩ false cs
      ⟨rfl, rfl⟩ rfl rfl hwf
  have hwalk : walkNode r.config (newRenderContext okSink) false
      (MNode.document bp cs) =
      ((⟨w2, mk2, false⟩ : RenderContext), WalkStatus.cont) := by
    rw [walkNode_eq_document, show getRenderer r.config false
      (MNode.document bp cs) = [] from rfl]
    exact walkBody_run (chainRun_nil true (newRenderContext okSink)) rfl
      (by simp) (by simp) hkids (chainRun_nil false _) hok2.1 (by simp)
  have hout : (r.Render okSink (MNode.document bp cs)).2.1 = w2.written := by
    simp only [Renderer.Render, hwalk]
  have hwr' : w2.written = d := by
    rw [show w2.written = ([] : Bytes) ++ d from hwr, List.nil_append]
  refine ⟨?_, ?_⟩
  · intro hnil
    rw [hout, hwr', hn hnil]
  · intro hne
    obtain ⟨e, c, hec, hcs2⟩ := goodTail_shape (hg hne)
    refine ⟨e, c, ?_, hcs2⟩
    rw [hout, hwr', hec]

/-- A one-paragraph document whose text lacks a trailing newline. -/
def c7doc : MNodes :=
  MNodes.cons (MNode.paragraph false
    (MNodes.cons (MNode.text ['x'] false) MNodes.nil)) MNodes.nil

/-- Witness for C7: the one-paragraph document is well-formed, the theorem
applies, and the rendered output is the text plus exactly one newline. -/
theorem render_trailing_newline_witness :
    wfBlocks c7doc = true ∧
    ((c7doc = MNodes.nil →
        (defaultRenderer.Render okSink (MNode.document false c7doc)).2.1 =
          []) ∧
      (c7doc ≠ MNodes.nil → ∃ d c,
        (defaultRenderer.Render okSink (MNode.document false c7doc)).2.1 =
          d ++ [c, '\n'] ∧ goIsSpace c = false)) ∧
    (defaultRenderer.Render okSink (MNode.document false c7doc)).2.1 =
      ['x', '\n'] :=
  ⟨by decide,
    render_trailing_newline defaultRenderer false c7doc (by decide),
    by decide⟩

end ClaimC7

end Goldmark
